import Mathlib

/-!
# Polyglot: a command-line translation dictionary

A shallow embedding of `main.go` and a verification of its specification.

* Go strings are byte sequences (`GoString`); a literal of the source is the
  UTF-8 encoding of its text (`str`).
* A Go map is an association list with one entry per key (`AList`).  A `range`
  loop over a map visits the entries in an order that the runtime draws anew at
  every loop (`GoMap.range`).  A nil map and a nil pointer are `none`.
* A run of the program is a list of `Event`s: what is printed, what the
  scanner yields, and every call of `AddWord`, `LoadDictsFromJson` and
  `SaveToJson`.
* Standard input is the list of its lines: the bytes between two line feeds.  A
  `bufio.Scanner` is the list of what its coming calls of `Scan` do
  (`bufio.NewScanner`): a call reads the next line, without the carriage return
  at its end, and returns false when no line is left, or when the line does not
  fit into the buffer of 64 KiB.
* The file system is a map from file names to what the decoder reads from the
  file, with the faults of the coming calls of `SaveToJson`.
* The packages `strings`, `unicode/utf8`, `bufio` and `encoding/json` are
  modelled after their documented behaviour; `encoding/json` at the level of
  JSON values, not of the text of the file.
-/

namespace Polyglot

/-! ## Strings -/

/-- A Go string: a sequence of bytes, not necessarily valid UTF-8.  A byte is a
number below 256; a larger number stands for no byte and is read as an invalid
one. -/
abbrev GoString := List Nat

namespace utf8

/-- The rune `utf8.RuneError`, U+FFFD. -/
def RuneError : Nat := 0xFFFD

/-- The constant `utf8.RuneSelf`: bytes below it are single-byte runes. -/
def RuneSelf : Nat := 0x80

/-- The function `utf8.AppendRune`: the UTF-8 encoding of a rune; surrogates and
values above U+10FFFF are encoded as U+FFFD. -/
def EncodeRune (r : Nat) : GoString :=
  if r ≤ 0x7F then [r]
  else if r ≤ 0x7FF then [0xC0 ||| (r >>> 6), 0x80 ||| (r &&& 0x3F)]
  else if 0x10FFFF < r ∨ (0xD800 ≤ r ∧ r ≤ 0xDFFF) then [0xEF, 0xBF, 0xBD]
  else if r ≤ 0xFFFF then
    [0xE0 ||| (r >>> 12), 0x80 ||| ((r >>> 6) &&& 0x3F), 0x80 ||| (r &&& 0x3F)]
  else
    [0xF0 ||| (r >>> 18), 0x80 ||| ((r >>> 12) &&& 0x3F), 0x80 ||| ((r >>> 6) &&& 0x3F),
      0x80 ||| (r &&& 0x3F)]

/-- The table `first` together with `acceptRanges`: for a leading byte of a
multi-byte sequence, the length of the sequence and the accepted range of the
second byte; `none` for a byte that cannot start a multi-byte sequence. -/
def first (p0 : Nat) : Option (Nat × Nat × Nat) :=
  if 0xC2 ≤ p0 ∧ p0 ≤ 0xDF then some (2, 0x80, 0xBF)
  else if p0 = 0xE0 then some (3, 0xA0, 0xBF)
  else if 0xE1 ≤ p0 ∧ p0 ≤ 0xEC then some (3, 0x80, 0xBF)
  else if p0 = 0xED then some (3, 0x80, 0x9F)
  else if 0xEE ≤ p0 ∧ p0 ≤ 0xEF then some (3, 0x80, 0xBF)
  else if p0 = 0xF0 then some (4, 0x90, 0xBF)
  else if 0xF1 ≤ p0 ∧ p0 ≤ 0xF3 then some (4, 0x80, 0xBF)
  else if p0 = 0xF4 then some (4, 0x80, 0x8F)
  else none

/-- A continuation byte, `0x80..0xBF`. -/
def isCont (b : Nat) : Bool := decide (0x80 ≤ b ∧ b ≤ 0xBF)

/-- The function `utf8.DecodeRuneInString`: the first rune of `p` and its width in
bytes; `(RuneError, 0)` for the empty string and `(RuneError, 1)` for an
invalid encoding. -/
def DecodeRune (p : GoString) : Nat × Nat :=
  match p with
  | [] => (RuneError, 0)
  | p0 :: rest =>
    if p0 < RuneSelf then (p0, 1)
    else
      match first p0 with
      | none => (RuneError, 1)
      | some (sz, lo, hi) =>
        if p.length < sz then (RuneError, 1)
        else
          match rest with
          | [] => (RuneError, 1)
          | b1 :: rest1 =>
            if b1 < lo ∨ hi < b1 then (RuneError, 1)
            else if sz ≤ 2 then (((p0 &&& 0x1F) <<< 6) ||| (b1 &&& 0x3F), 2)
            else
              match rest1 with
              | [] => (RuneError, 1)
              | b2 :: rest2 =>
                if !isCont b2 then (RuneError, 1)
                else if sz ≤ 3 then
                  (((p0 &&& 0x0F) <<< 12) ||| ((b1 &&& 0x3F) <<< 6) ||| (b2 &&& 0x3F), 3)
                else
                  match rest2 with
                  | [] => (RuneError, 1)
                  | b3 :: _ =>
                    if !isCont b3 then (RuneError, 1)
                    else
                      (((p0 &&& 0x07) <<< 18) ||| ((b1 &&& 0x3F) <<< 12) |||
                        ((b2 &&& 0x3F) <<< 6) ||| (b3 &&& 0x3F), 4)

/-- The function `utf8.RuneStart`: the byte is not a continuation byte. -/
def RuneStart (b : Nat) : Bool := (b &&& 0xC0) != 0x80

/-- The backwards search of `DecodeLastRuneInString` for the start of the last
rune: looks at index `start` and below, at `steps` indices at most, for a
byte that starts a rune; the index is clamped at 0. -/
def lastRuneStart (p : GoString) : Nat → Nat → Nat
  | 0, start => start
  | steps + 1, start =>
    if RuneStart (p.getD start 0) then start
    else if start = 0 then 0
    else lastRuneStart p steps (start - 1)

/-- The function `utf8.DecodeLastRuneInString`: the last rune of `p` and its width
in bytes. -/
def DecodeLastRune (p : GoString) : Nat × Nat :=
  match p.getLast? with
  | none => (RuneError, 0)
  | some r =>
    if r < RuneSelf then (r, 1)
    else
      let last := p.length - 1
      let start := lastRuneStart p (min 3 last) (last - 1)
      let (r, size) := DecodeRune (p.drop start)
      if start + size ≠ p.length then (RuneError, 1) else (r, size)

/-- The runes of a string as a `range` loop over it yields them: each with its
width; an invalid byte is the rune U+FFFD of width 1.  The first argument
bounds the number of runes and is the length of the string. -/
def runes : Nat → GoString → List (Nat × Nat)
  | 0, _ => []
  | fuel + 1, p =>
    match p with
    | [] => []
    | _ :: _ =>
      let rs := DecodeRune p
      rs :: runes fuel (p.drop rs.2)

/-- The function `utf8.ValidString`: no position of the string decodes to
`(RuneError, 1)`.  The first argument bounds the number of runes and is the
length of the string. -/
def ValidString : Nat → GoString → Bool
  | 0, _ => true
  | fuel + 1, p =>
    match p with
    | [] => true
    | _ :: _ =>
      let rs := DecodeRune p
      if rs.1 = RuneError ∧ rs.2 = 1 then false
      else ValidString fuel (p.drop rs.2)

end utf8

/-- A string literal of the source: the UTF-8 encoding of its text. -/
def str (s : String) : GoString :=
  (s.toList.map (fun c => utf8.EncodeRune c.toNat)).flatten

namespace unicode

/-- The function `unicode.IsSpace`: the Unicode White_Space property. -/
def IsSpace (r : Nat) : Bool :=
  if r ≤ 0xFF then
    decide (r = 0x09 ∨ r = 0x0A ∨ r = 0x0B ∨ r = 0x0C ∨ r = 0x0D ∨ r = 0x20 ∨ r = 0x85 ∨
      r = 0xA0)
  else
    decide (r = 0x1680 ∨ (0x2000 ≤ r ∧ r ≤ 0x200A) ∨ r = 0x2028 ∨ r = 0x2029 ∨ r = 0x202F ∨
      r = 0x205F ∨ r = 0x3000)

/-- The function `unicode.ToLower`, for ASCII and for the ranges of the case table
that cover Latin-1, Greek and Cyrillic capitals and the three capitals whose
lower case is a letter of another block (U+0130, U+212A, U+212B); every other
rune is returned unchanged. -/
def ToLower (r : Nat) : Nat :=
  if 0x41 ≤ r ∧ r ≤ 0x5A then r + 32
  else if 0xC0 ≤ r ∧ r ≤ 0xDE ∧ r ≠ 0xD7 then r + 32
  else if r = 0x130 then 0x69
  else if 0x391 ≤ r ∧ r ≤ 0x3A9 ∧ r ≠ 0x3A2 then r + 32
  else if 0x400 ≤ r ∧ r ≤ 0x40F then r + 80
  else if 0x410 ≤ r ∧ r ≤ 0x42F then r + 32
  else if r = 0x212A then 0x6B
  else if r = 0x212B then 0xE5
  else r

end unicode

namespace strings

/-- The table `asciiSpace` of `strings.TrimSpace`. -/
def asciiSpace (c : Nat) : Bool :=
  decide (c = 0x09 ∨ c = 0x0A ∨ c = 0x0B ∨ c = 0x0C ∨ c = 0x0D ∨ c = 0x20)

/-- The function `strings.TrimLeftFunc(s, unicode.IsSpace)`; the first argument
bounds the number of runes and is the length of the string. -/
def trimLeftSpace : Nat → GoString → GoString
  | 0, s => s
  | fuel + 1, s =>
    match s with
    | [] => []
    | _ :: _ =>
      let rs := utf8.DecodeRune s
      if unicode.IsSpace rs.1 then trimLeftSpace fuel (s.drop rs.2) else s

/-- The function `strings.TrimRightFunc(s, unicode.IsSpace)`; the first argument
bounds the number of runes and is the length of the string. -/
def trimRightSpace : Nat → GoString → GoString
  | 0, s => s
  | fuel + 1, s =>
    match s with
    | [] => []
    | _ :: _ =>
      let rs := utf8.DecodeLastRune s
      if unicode.IsSpace rs.1 then trimRightSpace fuel (s.take (s.length - rs.2)) else s

/-- The second loop of `strings.TrimSpace`, on the reversed string: drops ASCII
space from the end; at a non-ASCII byte the rest is left to `TrimRightFunc`. -/
def trimSpaceEnd : GoString → GoString
  | [] => []
  | c :: rev =>
    if utf8.RuneSelf ≤ c then
      trimRightSpace (rev.length + 1) (c :: rev).reverse
    else if asciiSpace c then trimSpaceEnd rev
    else (c :: rev).reverse

/-- The function `strings.TrimSpace`: drops ASCII space from the start, then from
the end; at the first non-ASCII byte it hands the rest to `TrimFunc` with
`unicode.IsSpace`. -/
def TrimSpace : GoString → GoString
  | [] => []
  | c :: s =>
    if utf8.RuneSelf ≤ c then
      trimRightSpace (s.length + 1) (trimLeftSpace (s.length + 1) (c :: s))
    else if asciiSpace c then TrimSpace s
    else trimSpaceEnd (c :: s).reverse

/-- The function `strings.ToLower`: a string of ASCII bytes has its capitals
lowered byte by byte; any other string is mapped rune by rune through
`unicode.ToLower` and encoded again. -/
def ToLower (s : GoString) : GoString :=
  if s.all (fun c => decide (c < utf8.RuneSelf)) then
    s.map (fun c => if 0x41 ≤ c ∧ c ≤ 0x5A then c + 32 else c)
  else
    ((utf8.runes s.length s).map (fun rs => utf8.EncodeRune (unicode.ToLower rs.1))).flatten

/-- The function `strings.Compare(a, b) <= 0`: the bytewise lexicographic order. -/
def le : GoString → GoString → Bool
  | [], _ => true
  | _ :: _, [] => false
  | a :: as, b :: bs => if a < b then true else if b < a then false else le as bs

end strings

/-! ## Data model (`main.go`, lines 11-50) -/

/-- A Go `map[string]V`: `none` is the nil map, `some m` a map with one entry per
key.  The order of the list `m.entries` is no order of the program: a map has
none, and a `range` loop visits it in an order of its own (`GoMap.range`). -/
abbrev GoMap (V : Type) := Option (AList (fun _ : GoString => V))

/-- Equality of two maps is decided on their entries. -/
instance (priority := 2000) instDecidableEqAList {V : Type} [DecidableEq V] :
    DecidableEq (AList (fun _ : GoString => V)) :=
  fun a b => decidable_of_iff (a.entries = b.entries) ⟨AList.ext, fun h => congrArg _ h⟩

/-- The expression `m[k]` with the comma-ok form: the value under `k`, if any.  Reading a nil
map finds nothing. -/
def GoMap.get {V : Type} (m : GoMap V) (k : GoString) : Option V :=
  match m with
  | none => none
  | some a => a.lookup k

/-- The statement `m[k] = v`: `none` is the run-time panic "assignment to entry in
nil map". -/
def GoMap.set {V : Type} (m : GoMap V) (k : GoString) (v : V) : Option (GoMap V) :=
  match m with
  | none => none
  | some a => some (some (a.insert k v))

/-- The entries of the map, each key with its value; none for a nil map. -/
def GoMap.entries {V : Type} (m : GoMap V) : List (GoString × V) :=
  match m with
  | none => []
  | some a => a.entries.map (fun e => (e.1, e.2))

/-- A list in another order: each element in turn is put at a place among those
after it, the place being taken from `picks`.  Once `picks` is used up the
elements stay where they are. -/
def shuffle {α : Type} : List Nat → List α → List α
  | _, [] => []
  | [], x :: l => x :: l
  | i :: picks, x :: l => (shuffle picks l).insertIdx (i % (l.length + 1)) x

/-- The entries in the order in which a `range` loop over the map visits them.
The language leaves the order open and the runtime draws it anew at every
loop: `picks` stands for what it draws. -/
def GoMap.range {V : Type} (m : GoMap V) (picks : List Nat) : List (GoString × V) :=
  shuffle picks m.entries

/-- The type `Dictionary`. -/
structure Dictionary where
  From : GoString
  To : GoString
  Words : GoMap GoString
deriving DecidableEq

/-- The type `Dictionaries`; a value of the map is a `*Dictionary`, `none` being
the nil pointer. -/
structure Dictionaries where
  Dicts : GoMap (Option Dictionary)
deriving DecidableEq

/-- The function `NewDictionary`. -/
def NewDictionary (From To : GoString) : Dictionary :=
  { From := From, To := To, Words := some ∅ }

/-- The function `NewDictionaries`. -/
def NewDictionaries : Dictionaries :=
  { Dicts := some ∅ }

/-- The method `AddDictionary`; `none` is the panic of a write to a nil map. -/
def Dictionaries.AddDictionary (dicts : Dictionaries) (key : GoString) (dict : Option Dictionary) :
    Option Dictionaries :=
  (dicts.Dicts.set key dict).map (fun m => { dicts with Dicts := m })

/-- The method `GetDictionary`: the pointer under `key`, nil when the key is absent
(or is bound to nil). -/
def Dictionaries.GetDictionary (dicts : Dictionaries) (key : GoString) : Option Dictionary :=
  (dicts.Dicts.get key).join

/-- The method `AddWord`; `none` is the panic of a write to a nil map. -/
def Dictionary.AddWord (d : Dictionary) (word translation : GoString) : Option Dictionary :=
  (d.Words.set word translation).map (fun m => { d with Words := m })

/-- The method `GetTranslation`: the translation and whether the word is there; the
zero value `""` when it is not. -/
def Dictionary.GetTranslation (d : Dictionary) (word : GoString) : GoString × Bool :=
  match d.Words.get word with
  | some translation => (translation, true)
  | none => ([], false)

/-! ## `encoding/json` and the file (`main.go`, lines 52-84) -/

/-- A JSON value, as the decoder reads it from a text and the encoder writes
it: a string is held as the UTF-8 bytes of its characters, a number as its
literal, an object as its members in the order of the text. -/
inductive Json where
  | null
  | bool (b : Bool)
  | number (lit : GoString)
  | string (s : GoString)
  | array (elems : List Json)
  | object (members : List (GoString × Json))

/-- A Go `error` value of the program. -/
inductive Error where
  /-- An error of package `os` or of a write; the text is the operating system's. -/
  | os (text : GoString)
  /-- An error of the JSON decoder on a text that is not a JSON value. -/
  | invalidJson (text : GoString)
  /-- A `*json.UnmarshalTypeError`: the JSON value `value` does not fit the Go type `type`. -/
  | unmarshalType (value : GoString) (type : GoString)
  /-- The error `fmt.Errorf(format, err)`. -/
  | errorf (format : GoString) (err : Error)
deriving DecidableEq

namespace json

/-- The coercion of a string by the encoder (`appendString`): every byte that is
not part of a valid UTF-8 sequence is replaced by U+FFFD, valid sequences
are kept.  The first argument bounds the number of runes and is the length of
the string. -/
def toValidUTF8 : Nat → GoString → GoString
  | 0, _ => []
  | fuel + 1, p =>
    match p with
    | [] => []
    | _ :: _ =>
      let rs := utf8.DecodeRune p
      if rs.1 = utf8.RuneError ∧ rs.2 = 1 then
        utf8.EncodeRune utf8.RuneError ++ toValidUTF8 fuel (p.drop rs.2)
      else p.take rs.2 ++ toValidUTF8 fuel (p.drop rs.2)

/-- The encoding of a Go string: a JSON string of the coerced text. -/
def encodeString (s : GoString) : Json :=
  Json.string (toValidUTF8 s.length s)

/-- The keys of a map in the order the encoder writes them: sorted bytewise. -/
def sortKeys {V : Type} (entries : List (GoString × V)) : List (GoString × V) :=
  entries.insertionSort (fun a b => strings.le a.1 b.1 = true)

/-- The encoding of the field `Words`: `null` for a nil map, else an object with
the keys sorted. -/
def encodeWords (m : GoMap GoString) : Json :=
  match m with
  | none => Json.null
  | some _ =>
    Json.object ((sortKeys m.entries).map (fun e => (toValidUTF8 e.1.length e.1, encodeString e.2)))

/-- The encoding of a `Dictionary`: its three fields in the order of the struct. -/
def encodeDictionary (d : Dictionary) : Json :=
  Json.object [(str "from", encodeString d.From), (str "to", encodeString d.To),
    (str "words", encodeWords d.Words)]

/-- The encoding of a `*Dictionary`: `null` for the nil pointer. -/
def encodePointer (p : Option Dictionary) : Json :=
  match p with
  | none => Json.null
  | some d => encodeDictionary d

/-- The encoding of the field `Dicts`. -/
def encodeDicts (m : GoMap (Option Dictionary)) : Json :=
  match m with
  | none => Json.null
  | some _ =>
    Json.object ((sortKeys m.entries).map (fun e => (toValidUTF8 e.1.length e.1, encodePointer e.2)))

/-- The encoding of a `Dictionaries` (`json.Marshal`). -/
def encode (dicts : Dictionaries) : Json :=
  Json.object [(str "dicts", encodeDicts dicts.Dicts)]

/-- The folding of an object key by the decoder (`foldName`): ASCII letters to
upper case, and the two non-ASCII runes whose case folding is an ASCII
letter, U+017F and U+212A, to `S` and `K`; other runes, which never fold to
ASCII, are kept. -/
def foldName (s : GoString) : GoString :=
  ((utf8.runes s.length s).map (fun rs =>
    if 0x61 ≤ rs.1 ∧ rs.1 ≤ 0x7A then [rs.1 - 32]
    else if rs.1 = 0x17F then [0x53]
    else if rs.1 = 0x212A then [0x4B]
    else utf8.EncodeRune rs.1)).flatten

/-- Whether the object key `key` selects the struct field tagged `name`: an exact
match, or a match under case folding. -/
def isField (name key : GoString) : Bool :=
  decide (key = name) || decide (foldName key = foldName name)

/-- The field `Value` of an `UnmarshalTypeError` for a JSON value. -/
def valueName (j : Json) : GoString :=
  match j with
  | Json.null => str "null"
  | Json.bool _ => str "bool"
  | Json.number _ => str "number"
  | Json.string _ => str "string"
  | Json.array _ => str "array"
  | Json.object _ => str "object"

/-- Decoding into a Go string that holds `old`: `null` leaves it, a JSON string
sets it, any other value is a type error. -/
def decodeString (old : GoString) (j : Json) : Except Error GoString :=
  match j with
  | Json.null => pure old
  | Json.string s => pure s
  | _ => throw (Error.unmarshalType (valueName j) (str "string"))

/-- Decoding of one member into a `map[string]string`: a new element, zero, is
decoded and stored under the key. -/
def decodeWord (m : AList (fun _ : GoString => GoString)) (member : GoString × Json) :
    Except Error (AList (fun _ : GoString => GoString)) := do
  let s ← decodeString [] member.2
  pure (m.insert member.1 s)

/-- Decoding into the field `Words` that holds `old`: `null` makes it nil, an
object stores its members, in order, into the map (made when nil). -/
def decodeWords (old : GoMap GoString) (j : Json) : Except Error (GoMap GoString) :=
  match j with
  | Json.null => pure none
  | Json.object members => do
    let m ← members.foldlM decodeWord (old.getD ∅)
    pure (some m)
  | _ => throw (Error.unmarshalType (valueName j) (str "map[string]string"))

/-- Decoding of one member of an object into a `Dictionary`: the field the key
selects is decoded, a key that selects none is skipped. -/
def decodeField (d : Dictionary) (member : GoString × Json) : Except Error Dictionary :=
  if isField (str "from") member.1 then do
    let s ← decodeString d.From member.2
    pure { d with From := s }
  else if isField (str "to") member.1 then do
    let s ← decodeString d.To member.2
    pure { d with To := s }
  else if isField (str "words") member.1 then do
    let m ← decodeWords d.Words member.2
    pure { d with Words := m }
  else pure d

/-- Decoding into a `Dictionary` that holds `old`. -/
def decodeDictionary (old : Dictionary) (j : Json) : Except Error Dictionary :=
  match j with
  | Json.null => pure old
  | Json.object members => members.foldlM decodeField old
  | _ => throw (Error.unmarshalType (valueName j) (str "main.Dictionary"))

/-- Decoding into a new, nil `*Dictionary`: `null` leaves the pointer nil, any
other value is decoded into a newly allocated zero `Dictionary`. -/
def decodePointer (j : Json) : Except Error (Option Dictionary) :=
  match j with
  | Json.null => pure none
  | _ => do
    let d ← decodeDictionary { From := [], To := [], Words := none } j
    pure (some d)

/-- Decoding of one member into a `map[string]*Dictionary`. -/
def decodeDict (m : AList (fun _ : GoString => Option Dictionary)) (member : GoString × Json) :
    Except Error (AList (fun _ : GoString => Option Dictionary)) := do
  let p ← decodePointer member.2
  pure (m.insert member.1 p)

/-- Decoding into the field `Dicts` that holds `old`. -/
def decodeDicts (old : GoMap (Option Dictionary)) (j : Json) :
    Except Error (GoMap (Option Dictionary)) :=
  match j with
  | Json.null => pure none
  | Json.object members => do
    let m ← members.foldlM decodeDict (old.getD ∅)
    pure (some m)
  | _ => throw (Error.unmarshalType (valueName j) (str "map[string]*main.Dictionary"))

/-- Decoding of one member of the top-level object. -/
def decodeTop (dicts : Dictionaries) (member : GoString × Json) : Except Error Dictionaries :=
  if isField (str "dicts") member.1 then do
    let m ← decodeDicts dicts.Dicts member.2
    pure { dicts with Dicts := m }
  else pure dicts

/-- Decoding of a JSON value into a zero `Dictionaries` (`Decode(&dicts)`); the
error is the first type error met. -/
def decode (j : Json) : Except Error Dictionaries :=
  match j with
  | Json.null => pure { Dicts := none }
  | Json.object members => members.foldlM decodeTop { Dicts := none }
  | _ => throw (Error.unmarshalType (valueName j) (str "main.Dictionaries"))

end json

/-- What a file name stands for when the program opens it. -/
inductive File where
  /-- No file that can be opened; `os.Open` fails with this text. -/
  | unopenable (err : GoString)
  /-- A file from which the decoder cannot read a JSON value; it fails with this text. -/
  | malformed (err : GoString)
  /-- A file whose content starts with the JSON value `j`. -/
  | document (j : Json)

/-- What goes wrong at a call of `SaveToJson`. -/
inductive Fault where
  /-- Nothing goes wrong. -/
  | ok
  /-- The call `os.Create` fails with this text; the file is untouched. -/
  | create (err : GoString)
  /-- The file is created, hence truncated, and the write fails with `err`; what is left
  does not decode (`left` is the decoder's text for it). -/
  | write (err : GoString) (left : GoString)

/-- The file system, and with it what else of the machine a run depends on: what
each name stands for; what goes wrong at the coming calls of `SaveToJson`, in
order (nothing, once the list is used up); and what the runtime draws for the
order of a `range` loop over a map (`GoMap.range`). -/
structure FileSys where
  files : GoString → File
  faults : List Fault
  picks : List Nat

/-- The method `SaveToJson`: the file system after the call and the error
returned (`none` for `nil`). -/
def Dictionaries.SaveToJson (dicts : Dictionaries) (filename : GoString) (fs : FileSys) :
    FileSys × Option Error :=
  match fs.faults.headD Fault.ok with
  | Fault.create err =>
    ({ fs with faults := fs.faults.tail },
      some (Error.errorf (str "failed to create file: %v") (Error.os err)))
  | Fault.write err left =>
    ({ fs with files := Function.update fs.files filename (File.malformed left),
               faults := fs.faults.tail },
      some (Error.errorf (str "failed to encode JSON: %v") (Error.os err)))
  | Fault.ok =>
    ({ fs with files := Function.update fs.files filename (File.document (json.encode dicts)),
               faults := fs.faults.tail },
      none)

/-- The function `LoadDictsFromJson`. -/
def LoadDictsFromJson (filename : GoString) (fs : FileSys) : Except Error Dictionaries :=
  match fs.files filename with
  | File.unopenable err => throw (Error.errorf (str "failed to open file: %v") (Error.os err))
  | File.malformed err =>
    throw (Error.errorf (str "failed to decode JSON: %v") (Error.invalidJson err))
  | File.document j =>
    match json.decode j with
    | Except.error err => throw (Error.errorf (str "failed to decode JSON: %v") err)
    | Except.ok dicts => pure dicts

/-- The function `initializeDictionaries`; `none` would be a panic of `AddWord` or
`AddDictionary`. -/
def initializeDictionaries : Option Dictionaries := do
  let dictionaries := NewDictionaries
  let enRuDict := NewDictionary (str "English") (str "Russian")
  let enRuDict ← enRuDict.AddWord (str "hello") (str "привет")
  let enRuDict ← enRuDict.AddWord (str "world") (str "мир")
  let enRuDict ← enRuDict.AddWord (str "computer") (str "компьютер")
  let deRuDict := NewDictionary (str "German") (str "Russian")
  let deRuDict ← deRuDict.AddWord (str "hallo") (str "привет")
  let deRuDict ← deRuDict.AddWord (str "welt") (str "мир")
  let deRuDict ← deRuDict.AddWord (str "computer") (str "компьютер")
  let frRuDict := NewDictionary (str "French") (str "Russian")
  let frRuDict ← frRuDict.AddWord (str "bonjour") (str "привет")
  let frRuDict ← frRuDict.AddWord (str "monde") (str "мир")
  let frRuDict ← frRuDict.AddWord (str "ordinateur") (str "компьютер")
  let dictionaries ← dictionaries.AddDictionary (str "en-ru") (some enRuDict)
  let dictionaries ← dictionaries.AddDictionary (str "de-ru") (some deRuDict)
  let dictionaries ← dictionaries.AddDictionary (str "fr-ru") (some frRuDict)
  pure dictionaries

/-! ## The interactive session (`main.go`, lines 111-264) -/

/-- The five calls of `scanner.Scan()` in the source. -/
inductive Site where
  /-- In `findMode`, after "Enter word to translate: ". -/
  | findWord
  /-- In `writeMode`, after "Enter word: ". -/
  | writeWord
  /-- In `writeMode`, after "Enter translation: ". -/
  | writeTranslation
  /-- In `main`, after "Save changes and continue? (y/n/q): ". -/
  | saveChoice
  /-- In `main`, after "Switch mode? (find/write/exit): ". -/
  | newMode
deriving DecidableEq

/-- What a run of the program does that can be observed, in order. -/
inductive Event where
  /-- A call of `fmt.Print`, `fmt.Println` or `fmt.Printf` that writes `text`. -/
  | print (text : GoString)
  /-- A call `fmt.Printf(format, err)` with `"%v\n"` at the end of the format. -/
  | printError (format : GoString) (err : Error)
  /-- A call of `scanner.Scan()`: `some line` when it returns true and `scanner.Text()` is
  `line`, `none` when it returns false. -/
  | scan (site : Site) (line : Option GoString)
  /-- A call `dict.AddWord(word, translation)`. -/
  | addWord (word : GoString) (translation : GoString)
  /-- A call of `LoadDictsFromJson`. -/
  | load (filename : GoString)
  /-- A call of `SaveToJson` on the collection `dicts`, with the error returned. -/
  | save (filename : GoString) (dicts : Dictionaries) (err : Option Error)
deriving DecidableEq

/-- How a run ends. -/
inductive Status where
  /-- The function `main` returns. -/
  | exited
  /-- A run-time panic (write to a nil map, nil pointer dereference). -/
  | panicked
  /-- The bound on the rounds of the main loop is used up before the loop ends. -/
  | running
deriving DecidableEq

namespace bufio

/-- The constant `bufio.MaxScanTokenSize`: the size the buffer of a scanner may
reach, as `main` never calls `Buffer`. -/
def MaxScanTokenSize : Nat := 64 * 1024

/-- The function `dropCR` of `bufio`: the data without a carriage return at its
end. -/
def dropCR (data : GoString) : GoString :=
  if data.getLast? = some 0x0D then data.dropLast else data

/-- The state of a `bufio.Scanner` with the split function `ScanLines`: what the
coming calls of `Scan` do, in order.  `some line` is a call that returns true,
after which `Text()` is `line`; `none` is a call that returns false.  Once the
list is used up every call returns false. -/
abbrev Scanner := List (Option GoString)

/-- The scanner `bufio.NewScanner(os.Stdin)` when standard input holds the lines
`input`: the bytes before each line feed and, when it is not empty, what
follows the last one.  A line shorter than `MaxScanTokenSize` is found in the
buffer and returned without the carriage return at its end.  At a line that is
not, the buffer is full before the line feed is seen: the call of `Scan`
returns false (the error `ErrTooLong`, which `main` never looks at); the call
after it returns what the buffer holds, the first `MaxScanTokenSize` bytes of
that line; nothing more is read from the input, and every later call returns
false. -/
def NewScanner : List GoString → Scanner
  | [] => []
  | line :: input =>
    if line.length < MaxScanTokenSize then some (dropCR line) :: NewScanner input
    else [none, some (dropCR (line.take MaxScanTokenSize))]

/-- A call of `Scan`: the line read, or `none` when the call returns false, and the
scanner after the call. -/
def Scan (s : Scanner) : Option GoString × Scanner :=
  match s with
  | [] => (none, [])
  | token :: s => (token, s)

end bufio

/-- A run of `findMode` or `writeMode`: its events, the dictionary and the scanner
when it ends, and whether it ends by a panic. -/
structure ModeRun where
  trace : List Event
  dict : Dictionary
  scanner : bufio.Scanner
  panicked : Bool
deriving DecidableEq

/-- The run `m` after the events `events`. -/
def ModeRun.after (events : List Event) (m : ModeRun) : ModeRun :=
  { m with trace := events ++ m.trace }

/-- The loop of `findMode` (lines 115-135) on the scanner: it ends at the first
call of `Scan` that returns false. -/
def findLoop (dict : Dictionary) : bufio.Scanner → ModeRun
  | [] =>
    { trace := [Event.print (str "Enter word to translate: "), Event.scan Site.findWord none],
      dict := dict, scanner := [], panicked := false }
  | none :: scanner =>
    { trace := [Event.print (str "Enter word to translate: "), Event.scan Site.findWord none],
      dict := dict, scanner := scanner, panicked := false }
  | some line :: scanner =>
    let input := strings.TrimSpace line
    let asked := [Event.print (str "Enter word to translate: "),
      Event.scan Site.findWord (some line)]
    if input = str "exit" then
      { trace := asked, dict := dict, scanner := scanner, panicked := false }
    else if input = str "" then
      (findLoop dict scanner).after asked
    else
      let (translation, found) := dict.GetTranslation input
      if found then
        (findLoop dict scanner).after (asked ++
          [Event.print (str "Translation: " ++ input ++ str " = " ++ translation ++ str "\n")])
      else
        (findLoop dict scanner).after (asked ++
          [Event.print (str "Word '" ++ input ++ str "' not found in dictionary\n")])

/-- The function `findMode`. -/
def findMode (dict : Dictionary) (scanner : bufio.Scanner) : ModeRun :=
  (findLoop dict scanner).after
    [Event.print (str "Find mode for " ++ dict.From ++ str "->" ++ dict.To ++ str " dictionary\n"),
      Event.print (str "Type 'exit' to return to main menu\n")]

/-- The loop of `writeMode` (lines 142-170) on the scanner: it ends at the first
call of `Scan` that returns false, for a word or for a translation. -/
def writeLoop (dict : Dictionary) : bufio.Scanner → ModeRun
  | [] =>
    { trace := [Event.print (str "Enter word: "), Event.scan Site.writeWord none],
      dict := dict, scanner := [], panicked := false }
  | none :: scanner =>
    { trace := [Event.print (str "Enter word: "), Event.scan Site.writeWord none],
      dict := dict, scanner := scanner, panicked := false }
  | some line :: scanner =>
    let word := strings.TrimSpace line
    let asked := [Event.print (str "Enter word: "), Event.scan Site.writeWord (some line)]
    if word = str "exit" then
      { trace := asked, dict := dict, scanner := scanner, panicked := false }
    else if word = str "" then
      (writeLoop dict scanner).after asked
    else
      match scanner with
      | [] =>
        { trace := asked ++
            [Event.print (str "Enter translation: "), Event.scan Site.writeTranslation none],
          dict := dict, scanner := [], panicked := false }
      | none :: scanner =>
        { trace := asked ++
            [Event.print (str "Enter translation: "), Event.scan Site.writeTranslation none],
          dict := dict, scanner := scanner, panicked := false }
      | some line2 :: scanner =>
        let translation := strings.TrimSpace line2
        let asked2 := asked ++
          [Event.print (str "Enter translation: "),
            Event.scan Site.writeTranslation (some line2)]
        if translation = str "" then
          (writeLoop dict scanner).after
            (asked2 ++ [Event.print (str "Translation cannot be empty\n")])
        else
          match dict.AddWord word translation with
          | none =>
            { trace := asked2 ++ [Event.addWord word translation], dict := dict,
              scanner := scanner, panicked := true }
          | some dict =>
            (writeLoop dict scanner).after (asked2 ++
              [Event.addWord word translation,
                Event.print (str "Added: " ++ word ++ str " = " ++ translation ++ str "\n")])

/-- The function `writeMode`. -/
def writeMode (dict : Dictionary) (scanner : bufio.Scanner) : ModeRun :=
  (writeLoop dict scanner).after
    [Event.print (str "Write mode for " ++ dict.From ++ str "->" ++ dict.To ++ str " dictionary\n"),
      Event.print (str "Type 'exit' to return to main menu\n")]

/-- The function `printUsage`. -/
def printUsage : List Event :=
  [Event.print (str "Usage: program <dictionary> <mode>\n"),
    Event.print (str "Dictionaries: en-ru, de-ru, fr-ru\n"),
    Event.print (str "Modes: -find, -write\n"),
    Event.print (str "Example: program en-ru -find\n")]

/-- A run of `main`, or of a part of it: its events, the file system at its end,
and how it ends. -/
structure Run where
  trace : List Event
  fs : FileSys
  status : Status

/-- The run `r` after the events `events`. -/
def Run.after (events : List Event) (r : Run) : Run :=
  { r with trace := events ++ r.trace }

/-- The name of the file, `filename` in `main`. -/
def filename : GoString := str "dictionaries.json"

/-- A call of `SaveToJson` with the message `main` prints after it (lines 235-239
and 260-264): the events and the file system after them. -/
def saveAndReport (dictionaries : Dictionaries) (fs : FileSys) : List Event × FileSys :=
  match dictionaries.SaveToJson filename fs with
  | (fs, some err) =>
    ([Event.save filename dictionaries (some err),
      Event.printError (str "Failed to save dictionaries: %v\n") err], fs)
  | (fs, none) =>
    ([Event.save filename dictionaries none,
      Event.print (str "Dictionaries saved successfully\n")], fs)

/-- The end of `main` after a `break` out of the loop (lines 260-264). -/
def finalSave (dictionaries : Dictionaries) (fs : FileSys) : Run :=
  let saved := saveAndReport dictionaries fs
  { trace := saved.1, fs := saved.2, status := Status.exited }

/-- The collection after the dictionary that `dict` points to, the one under
`dictKey`, has become `dict`: the pointer is shared with the map `Dicts`, so a
change made through it shows in the collection. -/
def Dictionaries.store (dictionaries : Dictionaries) (dictKey : GoString) (dict : Dictionary) :
    Dictionaries :=
  { Dicts := dictionaries.Dicts.map (fun m => m.replace dictKey (some dict)) }

/-- The prompt of line 223. -/
def savePrompt : Event := Event.print (str "Save changes and continue? (y/n/q): ")

/-- The prompt of line 242. -/
def switchPrompt : Event := Event.print (str "Switch mode? (find/write/exit): ")

/-- What `main` does with the answer at the save prompt when it is not `q` (lines
234-240): a save and its message when the answer is `y`, else nothing. -/
def saveIfYes (choice : GoString) (dictionaries : Dictionaries) (fs : FileSys) :
    List Event × FileSys :=
  if choice = str "y" then saveAndReport dictionaries fs else ([], fs)

/-- The events of a round of the main loop up to the prompt "Switch mode?": the
run `m` of the mode, the save prompt with the answer `line`, and the save made
when the answer is `y`. -/
def roundEvents (m : ModeRun) (line : GoString) (dictionaries : Dictionaries) (fs : FileSys) :
    List Event :=
  m.trace ++ [savePrompt, Event.scan Site.saveChoice (some line)] ++
    (saveIfYes (strings.ToLower (strings.TrimSpace line)) dictionaries fs).1

/-- The loop of `main` (lines 211-258) followed by the final save, on the scanner.
The first argument bounds the number of rounds; `main` passes one more than the
number of calls of `Scan` that the scanner holds. -/
def mainLoop : Nat → GoString → GoString → Dictionaries → Dictionary → bufio.Scanner → FileSys → Run
  | 0, _, _, _, _, _, fs => { trace := [], fs := fs, status := Status.running }
  | fuel + 1, mode, dictKey, dictionaries, dict, scanner, fs =>
    if mode = str "-find" ∨ mode = str "-write" then
      let m := if mode = str "-find" then findMode dict scanner else writeMode dict scanner
      if m.panicked then
        { trace := m.trace, fs := fs, status := Status.panicked }
      else
        let dict := m.dict
        let dictionaries := dictionaries.store dictKey dict
        match bufio.Scan m.scanner with
        | (none, _) =>
          (finalSave dictionaries fs).after
            (m.trace ++ [savePrompt, Event.scan Site.saveChoice none])
        | (some line, scanner) =>
          let choice := strings.ToLower (strings.TrimSpace line)
          if choice = str "q" then
            (finalSave dictionaries fs).after
              (m.trace ++ [savePrompt, Event.scan Site.saveChoice (some line)])
          else
            let saved := saveIfYes choice dictionaries fs
            let asked := roundEvents m line dictionaries fs
            match bufio.Scan scanner with
            | (none, _) =>
              (finalSave dictionaries saved.2).after
                (asked ++ [switchPrompt, Event.scan Site.newMode none])
            | (some line2, scanner) =>
              let newMode := strings.TrimSpace line2
              let asked2 := asked ++ [switchPrompt, Event.scan Site.newMode (some line2)]
              if newMode = str "find" then
                (mainLoop fuel (str "-find") dictKey dictionaries dict scanner saved.2).after asked2
              else if newMode = str "write" then
                (mainLoop fuel (str "-write") dictKey dictionaries dict scanner saved.2).after asked2
              else if newMode = str "exit" then
                { trace := asked2, fs := saved.2, status := Status.exited }
              else
                (mainLoop fuel mode dictKey dictionaries dict scanner saved.2).after (asked2 ++
                  [Event.print (str "Unknown mode '" ++ newMode ++
                    str "', keeping current mode\n")])
    else
      { trace := Event.print (str "Unknown mode '" ++ mode ++ str "'\n") :: printUsage,
        fs := fs, status := Status.exited }

/-- The line of the listing for a dictionary (line 204). -/
def listingLine (key : GoString) (d : Dictionary) : Event :=
  Event.print (str "  " ++ key ++ str " (" ++ d.From ++ str "->" ++ d.To ++ str ")\n")

/-- The loop over `dictionaries.Dicts` that lists the dictionaries (lines
203-205), on the entries in the order the loop visits them: the lines printed,
and whether the loop ends by the panic of `d.From` on a nil `d`. -/
def listDictionaries : List (GoString × Option Dictionary) → List Event × Bool
  | [] => ([], false)
  | (_, none) :: _ => ([], true)
  | (key, some d) :: entries =>
    let listed := listDictionaries entries
    (listingLine key d :: listed.1, listed.2)

/-- The start of `main` (lines 193-197): the collection it goes on with, loaded
from the file or, when the load fails, made by `initializeDictionaries` (`none`
would be a panic there), and the events of the load. -/
def loadOrSeed (fs : FileSys) : Option Dictionaries × List Event :=
  match LoadDictsFromJson filename fs with
  | Except.ok dictionaries => (some dictionaries, [Event.load filename])
  | Except.error err =>
    (initializeDictionaries,
      [Event.load filename,
        Event.printError (str "Failed to load dictionaries, creating new ones: %v\n") err])

/-- The function `main` on the arguments `os.Args` (the program name first), the
lines of standard input, and the file system. -/
def main (osArgs : List GoString) (stdin : List GoString) (fs : FileSys) : Run :=
  match osArgs with
  | [_, dictKey, mode] =>
    let loaded := loadOrSeed fs
    match loaded.1 with
    | none => { trace := loaded.2, fs := fs, status := Status.panicked }
    | some dictionaries =>
      match dictionaries.GetDictionary dictKey with
      | none =>
        let listed := listDictionaries (dictionaries.Dicts.range fs.picks)
        { trace := loaded.2 ++
            [Event.print (str "Dictionary '" ++ dictKey ++ str "' not found\n"),
              Event.print (str "Available dictionaries:\n")] ++ listed.1,
          fs := fs,
          status := if listed.2 then Status.panicked else Status.exited }
      | some dict =>
        let scanner := bufio.NewScanner stdin
        (mainLoop (scanner.length + 1) mode dictKey dictionaries dict scanner fs).after loaded.2
  | _ => { trace := printUsage, fs := fs, status := Status.exited }

/-! ## Notions of the specification -/

/-- A string is valid UTF-8. -/
def validUTF8 (s : GoString) : Bool := utf8.ValidString s.length s

/-- The strings of a dictionary are valid UTF-8: its languages, its words and
their translations. -/
def Dictionary.validUTF8 (d : Dictionary) : Bool :=
  Polyglot.validUTF8 d.From && Polyglot.validUTF8 d.To &&
    d.Words.entries.all (fun e => Polyglot.validUTF8 e.1 && Polyglot.validUTF8 e.2)

/-- The strings of a collection are valid UTF-8: its keys and the strings of its
dictionaries. -/
def Dictionaries.validUTF8 (dicts : Dictionaries) : Bool :=
  dicts.Dicts.entries.all (fun e => Polyglot.validUTF8 e.1 &&
    match e.2 with
    | none => true
    | some d => d.validUTF8)

/-- Two word maps hold the same mapping: both are nil or neither is, and every
word has the same translation, or none, in both. -/
def sameWords (a b : GoMap GoString) : Prop :=
  a.isSome = b.isSome ∧ ∀ word, a.get word = b.get word

/-- Two dictionary pointers are the same: both nil, or both dictionaries with the
same `from`, the same `to` and the same word mapping. -/
def samePointer (a b : Option Dictionary) : Prop :=
  match a, b with
  | none, none => True
  | some x, some y => x.From = y.From ∧ x.To = y.To ∧ sameWords x.Words y.Words
  | _, _ => False

/-- Two collections are the same: they have the same keys and, under every key,
the same dictionary. -/
def Dictionaries.sameAs (a b : Dictionaries) : Prop :=
  a.Dicts.isSome = b.Dicts.isSome ∧
    ∀ key, match a.Dicts.get key, b.Dicts.get key with
      | none, none => True
      | some x, some y => samePointer x y
      | _, _ => False

/-- A map as it is read back from the file: its entries are stored in the order
of the file into a new map, each value being read back by `f`. -/
def json.reread {V : Type} (f : V → V) (m : GoMap V) : GoMap V :=
  match m with
  | none => none
  | some _ =>
    some ((json.sortKeys m.entries).foldl (fun acc e => acc.insert e.1 (f e.2)) ∅)

/-- A dictionary as it is read back from the file. -/
def json.rereadDictionary (d : Dictionary) : Dictionary :=
  { d with Words := json.reread id d.Words }

/-- A collection as it is read back from the file. -/
def json.rereadDictionaries (dicts : Dictionaries) : Dictionaries :=
  { Dicts := json.reread (Option.map json.rereadDictionary) dicts.Dicts }

/-! ## Sample values -/

/-- A file system on a first run: no file can be opened, nothing goes wrong at a
save, and a `range` loop visits the three dictionaries of the seed in the order
`en-ru`, `de-ru`, `fr-ru`. -/
def firstRun : FileSys :=
  { files := fun _ => File.unopenable (str "no such file or directory"), faults := [],
    picks := [2, 1] }

/-- A collection with one dictionary whose only word is the byte `0xFF`, which is
not valid UTF-8. -/
def invalidWord : Dictionaries :=
  { Dicts := some (AList.singleton (str "en-ru")
      (some { From := str "English", To := str "Russian",
              Words := some (AList.singleton [0xFF] (str "x")) })) }

/-- A collection with one dictionary of one word. -/
def oneWord : Dictionaries :=
  { Dicts := some (AList.singleton (str "en-ru")
      (some { From := str "English", To := str "Russian",
              Words := some (AList.singleton (str "bridge") (str "мост")) })) }

/-- A dictionary whose word map is nil, as `LoadDictsFromJson` makes one from an
object without a `words` member. -/
def nilWords : Dictionary :=
  { From := str "English", To := str "Russian", Words := none }

/-- A finite sequence of calls of `AddWord`, in order; `none` when one of them
panics. -/
def addWords (d : Dictionary) (calls : List (GoString × GoString)) : Option Dictionary :=
  calls.foldlM (fun dict call => dict.AddWord call.1 call.2) d

/-- The number of entries of a word map under the word `word`. -/
def entriesFor (m : GoMap GoString) (word : GoString) : Nat :=
  (m.entries.filter (fun e => decide (e.1 = word))).length

/-- The dictionary translates exactly the words of `pairs`, each to the
translation the list gives. -/
def Dictionary.holdsExactly (d : Dictionary) (pairs : List (GoString × GoString)) : Prop :=
  ∀ word, d.GetTranslation word =
    match pairs.find? (fun e => decide (e.1 = word)) with
    | some e => (e.2, true)
    | none => ([], false)

/-- A file system whose file is the document `{"dicts": {"a": null}}`. -/
def nullEntry : FileSys :=
  { files := fun _ =>
      File.document (Json.object [(str "dicts", Json.object [(str "a", Json.null)])]),
    faults := [], picks := [] }

/-! ## Events of a run -/

/-- The event is a call of `scanner.Scan()` that returns false: the input has run
out, or the line does not fit into the buffer. -/
def Event.isEOF : Event → Bool
  | Event.scan _ none => true
  | _ => false

/-- The event is a call of `SaveToJson`. -/
def Event.isSave : Event → Bool
  | Event.save _ _ _ => true
  | _ => false

/-- The event is a call of `AddWord`. -/
def Event.isAddWord : Event → Bool
  | Event.addWord _ _ => true
  | _ => false

/-- The event is an answer at the prompt "Switch mode?". -/
def Event.isSwitch : Event → Bool
  | Event.scan Site.newMode _ => true
  | _ => false

/-- The event is the answer `q`, in either case and with space around it, at the
prompt "Save changes and continue?". -/
def Event.isQuit : Event → Bool
  | Event.scan Site.saveChoice (some line) =>
    decide (strings.ToLower (strings.TrimSpace line) = str "q")
  | _ => false

/-- The event is the answer `y`, in either case and with space around it, at the
prompt "Save changes and continue?". -/
def Event.isYes : Event → Bool
  | Event.scan Site.saveChoice (some line) =>
    decide (strings.ToLower (strings.TrimSpace line) = str "y")
  | _ => false

/-- The event is the answer `exit`, with space around it, at the prompt "Switch
mode?". -/
def Event.isExit : Event → Bool
  | Event.scan Site.newMode (some line) => decide (strings.TrimSpace line = str "exit")
  | _ => false

/-- The event leaves the loop of `main` by `break`: a call of `Scan` at one of the
two prompts of `main` returns false, or the save prompt is answered `q`. -/
def Event.isBreak : Event → Bool
  | Event.scan Site.saveChoice none => true
  | Event.scan Site.newMode none => true
  | e => e.isQuit

/-- An event of `findMode` or `writeMode`: a print, a call of `AddWord`, or a
call of `Scan` at one of their three sites. -/
def Event.inMode : Event → Bool
  | Event.print _ => true
  | Event.addWord _ _ => true
  | Event.scan Site.findWord _ => true
  | Event.scan Site.writeWord _ => true
  | Event.scan Site.writeTranslation _ => true
  | _ => false

/-- The translation given at the last call `AddWord(word, _)` of the trace, if there
is such a call. -/
def lastAdded (word : GoString) : List Event → Option GoString
  | [] => none
  | Event.addWord w t :: trace =>
    match lastAdded word trace with
    | some later => some later
    | none => if w = word then some t else none
  | _ :: trace => lastAdded word trace

/-- The message `main` prints after a call of `SaveToJson` that returns `err`. -/
def report (err : Option Error) : Event :=
  match err with
  | some e => Event.printError (str "Failed to save dictionaries: %v\n") e
  | none => Event.print (str "Dictionaries saved successfully\n")

/-- Every event of the trace that satisfies `p`, with the events after it. -/
def eventsAfter (p : Event → Bool) : List Event → List (Event × List Event)
  | [] => []
  | e :: trace => if p e then (e, trace) :: eventsAfter p trace else eventsAfter p trace

/-- What the main loop relies on in a run of a mode that starts on the dictionary
`d`: its events are events of a mode; the languages are kept; without a panic
the words are those of `d` overwritten by the calls of `AddWord`; and a call
of `Scan` that returns false is the last event, without a panic. -/
def ModeRun.wellBehaved (m : ModeRun) (d : Dictionary) : Prop :=
  (∀ e ∈ m.trace, e.inMode = true) ∧ m.dict.From = d.From ∧ m.dict.To = d.To ∧
  (m.panicked = false →
    ∀ w, m.dict.Words.get w = (lastAdded w m.trace).or (d.Words.get w)) ∧
  (∀ s ∈ eventsAfter Event.isEOF m.trace, s.2 = [] ∧ m.panicked = false)

/-- The property of a run from the start of a round, on the collection
`dictionaries` and the dictionary `dict` under `dictKey`, that a `break` leads
to the final save: after every event that leaves the loop by `break` (a call
of `Scan` at a prompt of `main` returns false, or the save prompt is answered
`q`) the run goes on with one call of `SaveToJson` and its message, and
returns.  The collection saved is `dictionaries` with, under `dictKey`, the
dictionary with the languages of `dict` and the words of `dict` overwritten by
the calls of `AddWord` of the run. -/
def Run.breaksIntoFinalSave (dictKey : GoString) (dictionaries : Dictionaries)
    (dict : Dictionary) (r : Run) : Prop :=
  ∀ s ∈ eventsAfter Event.isBreak r.trace,
    r.status = Status.exited ∧
    ∃ dict' err,
      s.2 = [Event.save filename (dictionaries.store dictKey dict') err, report err] ∧
      dict'.From = dict.From ∧ dict'.To = dict.To ∧
      ∀ w, dict'.Words.get w = (lastAdded w r.trace).or (dict.Words.get w)

/-- The property of a run from the start of a round, on the collection
`dictionaries` and the dictionary `dict` under `dictKey`, that it ends by the
final save: it returns, and its last events are one call of `SaveToJson` and
its message; the collection saved is `dictionaries` with, under `dictKey`, the
dictionary with the languages of `dict` and the words of `dict` overwritten by
the calls of `AddWord` of the run. -/
def Run.endsByFinalSave (dictKey : GoString) (dictionaries : Dictionaries)
    (dict : Dictionary) (r : Run) : Prop :=
  r.status = Status.exited ∧
  ∃ init dict' err,
    r.trace = init ++ [Event.save filename (dictionaries.store dictKey dict') err, report err] ∧
    dict'.From = dict.From ∧ dict'.To = dict.To ∧
    ∀ w, dict'.Words.get w = (lastAdded w r.trace).or (dict.Words.get w)

/-- An event of the start of `main`, before its loop: a print or the load. -/
def Event.atStart : Event → Bool
  | Event.print _ => true
  | Event.printError _ _ => true
  | Event.load _ => true
  | _ => false

/-- The property of a run that the answer `exit` at the prompt "Switch mode?" ends
it: the answer is the last event and the run returns. -/
def Run.exitsAtOnce (r : Run) : Prop :=
  ∀ s ∈ eventsAfter Event.isExit r.trace, s.2 = [] ∧ r.status = Status.exited

/-- The property of a trace that a word is saved in its round only on the answer
`y`: after every call of `AddWord`, among the events up to the next answer at
the prompt "Switch mode?" there is no call of `SaveToJson`, unless the save
prompt is answered `y` among them. -/
def savesOnlyOnYes (trace : List Event) : Prop :=
  ∀ s ∈ eventsAfter Event.isAddWord trace,
    ∀ (mid : List Event) (x : Event) (post : List Event), s.2 = mid ++ x :: post →
      x.isSwitch = true → (∀ e ∈ mid, e.isSwitch = false) → (∀ e ∈ mid, e.isYes = false) →
      ∀ e ∈ mid, e.isSave = false

/-- The collection of a first run, made by `initializeDictionaries`. -/
def seed : Dictionaries := initializeDictionaries.getD NewDictionaries

/-- The dictionary `en-ru` of a first run. -/
def enRu : Dictionary := (seed.GetDictionary (str "en-ru")).getD (NewDictionary [] [])

/-- A first run in find mode that is left at once, the save prompt being answered `q`. -/
def quitAtOnce : Run :=
  main [str "program", str "en-ru", str "-find"] [str "exit", str "q"] firstRun

/-- A first run in write mode: a word is added, the save prompt is answered `n` and
the switch prompt `exit`. -/
def exitSession : Run :=
  main [str "program", str "en-ru", str "-write"]
    [str "bridge", str "мост", str "exit", str "n", str " exit "] firstRun

/-- The run of the mode of a round (lines 212-216), for a mode that is `-find` or
`-write`. -/
def runMode (mode : GoString) (dict : Dictionary) (scanner : bufio.Scanner) : ModeRun :=
  if mode = str "-find" then findMode dict scanner else writeMode dict scanner

/-- The mode after the answer `newMode`, trimmed, at the prompt "Switch mode?"
(lines 248-257), when the answer is not `exit`. -/
def nextMode (mode newMode : GoString) : GoString :=
  if newMode = str "find" then str "-find"
  else if newMode = str "write" then str "-write"
  else mode

/-- The warning printed after the answer `newMode`, trimmed, at the prompt "Switch
mode?" when it is none of `find`, `write`, `exit` (line 256). -/
def switchWarning (newMode : GoString) : List Event :=
  if newMode = str "find" then []
  else if newMode = str "write" then []
  else [Event.print (str "Unknown mode '" ++ newMode ++ str "', keeping current mode\n")]

/-- The lines of a round in write mode: a word is added, the save prompt is answered
`n` and the switch prompt `look`, which is no mode; then the next round is left. -/
def lookLines : List GoString :=
  [str "bridge", str "мост", str "exit", str "n", str "look", str "exit"]

/-- A first run in write mode: a word is added, the save prompt is answered ` Y `
and the switch prompt `exit`. -/
def yesSession : Run :=
  main [str "program", str "en-ru", str "-write"]
    [str "bridge", str "мост", str "exit", str " Y ", str "exit"] firstRun

/-- The keys of a collection. -/
def Dictionaries.keys (dictionaries : Dictionaries) : List GoString :=
  dictionaries.Dicts.entries.map (fun e => e.1)

/-- The dictionary `en-ru` of a first run after `AddWord("bridge", "мост")`. -/
def withBridge : Dictionary :=
  (enRu.AddWord (str "bridge") (str "мост")).getD enRu

/-- A first run in find mode: a word is looked up, the save prompt is answered `y`,
the switch prompt `find`, and the next round is left by `q`. -/
def findSession : Run :=
  main [str "program", str "en-ru", str "-find"]
    [str "hello", str "exit", str "y", str "find", str "exit", str "q"] firstRun

/-- The event is an answer at the prompt "Switch mode?" that trims to `newMode`. -/
def Event.isSwitchTo (newMode : GoString) : Event → Bool
  | Event.scan Site.newMode (some line) => decide (strings.TrimSpace line = newMode)
  | _ => false

/-- The event is a call of `Scan` that reads a line. -/
def Event.isAnswer : Event → Bool
  | Event.scan _ (some _) => true
  | _ => false

/-- The prompts of the program: those of `findMode` (line 116) and `writeMode`
(lines 143 and 156) and the two of `main` (lines 223 and 242). -/
def promptTexts : List GoString :=
  [str "Enter word to translate: ", str "Enter word: ", str "Enter translation: ",
    str "Save changes and continue? (y/n/q): ", str "Switch mode? (find/write/exit): "]

/-- The event prints a prompt. -/
def Event.isPrompt : Event → Bool
  | Event.print text => decide (text ∈ promptTexts)
  | _ => false

/-- A state of a scanner made by `bufio.NewScanner`: after a call of `Scan` that
returns false at most one more call is held, and no call that returns true
after that one. -/
def bufio.reachable : bufio.Scanner → Prop
  | [] => True
  | some _ :: s => bufio.reachable s
  | none :: s => s.length ≤ 1

/-- The lines the coming calls of `Scan` read before the first call that returns
false. -/
def bufio.readable : bufio.Scanner → List GoString
  | some line :: s => line :: bufio.readable s
  | _ => []

/-- The count of the prompts and the calls of `Scan` in a run of a mode on the
scanner `s`: every line the scanner holds is read by one call of `Scan` or left
to it, and no call is added to it; at most one call returns false, and then at
most one call is left in a scanner made by `bufio.NewScanner`; and there are
as many prompts as calls of `Scan`. -/
def ModeRun.counted (m : ModeRun) (s : bufio.Scanner) : Prop :=
  m.trace.countP Event.isAnswer + m.scanner.countP Option.isSome = s.countP Option.isSome ∧
  m.trace.countP Event.isAnswer + m.scanner.length ≤ s.length ∧
  m.trace.countP Event.isEOF ≤ 1 ∧
  (bufio.reachable s →
    bufio.reachable m.scanner ∧ (m.trace.countP Event.isEOF = 0 ∨ m.scanner.length ≤ 1)) ∧
  m.trace.countP Event.isPrompt = m.trace.countP Event.isAnswer + m.trace.countP Event.isEOF

/-- The event is the message of `main` about a load that failed (line 195). -/
def Event.isLoadFailure : Event → Bool
  | Event.printError format _ =>
    decide (format = str "Failed to load dictionaries, creating new ones: %v\n")
  | _ => false

/-- The lines of a session in find mode: a word is looked up, the save prompt is
answered `y` and the switch prompt `exit`. -/
def findLines : List GoString := [str "hello", str "exit", str "y", str "exit"]

/-- A file system in which `dictionaries.json` exists and holds no JSON value; a
`range` loop visits the three dictionaries of the seed in the order `de-ru`,
`fr-ru`, `en-ru`. -/
def malformedFile : FileSys :=
  { files := fun _ => File.malformed (str "unexpected end of JSON input"), faults := [],
    picks := [1] }

/-- A line of 64 KiB of spaces: as long as the buffer of the scanner. -/
def longLine : GoString := List.replicate bufio.MaxScanTokenSize 0x20

/-- Lines for find mode with a line of 64 KiB between two words. -/
def longInput : List GoString := [str "hello", longLine, str "world", str "exit"]

/-- Lines for find mode: a word with space around it, an empty line, a word that is
not there, `EXIT`, `exit` with space around it, and a line after it. -/
def lookupLines : List GoString :=
  [str " hello ", str "", str "bridge", str "EXIT", str " exit ", str "late"]

/-- From the specification of find mode: the line trims to exactly `exit`. -/
def isExitLine (line : GoString) : Bool := decide (strings.TrimSpace line = str "exit")

/-- From the specification of find mode: the result line for a line that is handled:
none when the line trims to empty, "Translation: w = t" when the dictionary maps
its trimmed text `w` to `t`, and "Word 'w' not found in dictionary" otherwise. -/
def findResult (d : Dictionary) (line : GoString) : List Event :=
  if strings.TrimSpace line = str "" then []
  else
    match d.Words.get (strings.TrimSpace line) with
    | some t =>
      [Event.print (str "Translation: " ++ strings.TrimSpace line ++ str " = " ++ t ++ str "\n")]
    | none =>
      [Event.print (str "Word '" ++ strings.TrimSpace line ++ str "' not found in dictionary\n")]

/-- From the specification of find mode: the events of the loop on the lines
`lines`.  Every line before the first that trims to `exit` is handled: the
prompt, the line read, and its result line.  Then the prompt once more and the
call of `Scan` that reads the line that trims to `exit`, or finds the input at
its end. -/
def findSpec (d : Dictionary) (lines : List GoString) : List Event :=
  (lines.takeWhile (fun line => !isExitLine line)).flatMap
    (fun line =>
      [Event.print (str "Enter word to translate: "), Event.scan Site.findWord (some line)] ++
        findResult d line) ++
  [Event.print (str "Enter word to translate: "),
    Event.scan Site.findWord (lines.dropWhile (fun line => !isExitLine line)).head?]

/-- The string has no space at its start: it is empty, or its first rune is not a
space. -/
def noLeadingSpace (s : GoString) : Prop :=
  s = [] ∨ unicode.IsSpace (utf8.DecodeRune s).1 = false

/-- The string has no space at its end: it is empty, or its last rune is not a
space. -/
def noTrailingSpace (s : GoString) : Prop :=
  s = [] ∨ unicode.IsSpace (utf8.DecodeLastRune s).1 = false

/-- From the specification of write mode: the pairs of a word line and a translation
line that are read before the first word line that trims to `exit`.  A word line
that trims to empty is passed over and takes no translation line; any other
word line takes the next line as its translation line; a word line after which
the input ends makes no pair. -/
def writePairs : List GoString → List (GoString × GoString)
  | [] => []
  | line :: rest =>
    if strings.TrimSpace line = str "exit" then []
    else if strings.TrimSpace line = str "" then writePairs rest
    else
      match rest with
      | [] => []
      | line2 :: rest => (line, line2) :: writePairs rest

/-- From the specification of write mode: the calls of `AddWord`, in input order: the
trimmed word and the trimmed translation of every pair in which both are not
empty. -/
def addedPairs (lines : List GoString) : List (GoString × GoString) :=
  ((writePairs lines).map (fun p => (strings.TrimSpace p.1, strings.TrimSpace p.2))).filter
    (fun p => decide (p.1 ≠ str "" ∧ p.2 ≠ str ""))

/-- The event prints "Translation cannot be empty". -/
def Event.isEmptyTranslation : Event → Bool
  | Event.print text => decide (text = str "Translation cannot be empty\n")
  | _ => false

/-- The call of `AddWord` as an event. -/
def addWordEvent (call : GoString × GoString) : Event := Event.addWord call.1 call.2

/-- What the specification of write mode says of a run on the dictionary `d` and
the lines `lines`.  Without a panic the dictionary is the one the calls
`addedPairs lines` of `AddWord` make of `d`, and with a panic these calls panic;
the calls of `AddWord` of the run are calls of that list, in order, and all of
them without a panic; and without a panic "Translation cannot be empty" is
printed once for every pair whose translation line trims to empty. -/
def ModeRun.writes (m : ModeRun) (d : Dictionary) (lines : List GoString) : Prop :=
  (m.panicked = false → addWords d (addedPairs lines) = some m.dict) ∧
  (m.panicked = true → addWords d (addedPairs lines) = none) ∧
  m.trace.filter Event.isAddWord <+: (addedPairs lines).map addWordEvent ∧
  (m.panicked = false →
    m.trace.filter Event.isAddWord = (addedPairs lines).map addWordEvent) ∧
  (m.panicked = false →
    m.trace.countP Event.isEmptyTranslation =
      (writePairs lines).countP (fun p => decide (strings.TrimSpace p.2 = str "")))

/-- Lines for write mode that begin with a line of 64 KiB. -/
def longWrite : List GoString := [longLine, str "river", str "поток"]

/-- Lines for write mode: a word with space around it and its translation, an empty
line, a word whose translation line is blank, `exit`, and a line after it. -/
def writeLines : List GoString :=
  [str " bridge ", str "мост", str "", str "river", str "  ", str "exit", str "late"]

/-- The lines of the scenario "write then find" of the specification for the word `w`
and the translation `t`. -/
def scenarioLines (w t : GoString) : List GoString :=
  [w, t, str "exit", str "y", str "find", w, str "exit", str "q"]

/-- The session of the scenario "write then find": a first run with the arguments
`en-ru` and `-write`. -/
def scenario (w t : GoString) : Run :=
  main [str "program", str "en-ru", str "-write"] (scenarioLines w t) firstRun

/-- What the specification expects of the scenario "write then find", as events: the
load that fails, write mode in which `w` is added with `t`, the save on `y` of
the collection `saved`, find mode in which `w` is found, and the final save
after `q`. -/
def scenarioTrace (w t : GoString) (saved : Dictionaries) : List Event :=
  [Event.load filename,
    Event.printError (str "Failed to load dictionaries, creating new ones: %v\n")
      (Error.errorf (str "failed to open file: %v") (Error.os (str "no such file or directory"))),
    Event.print (str "Write mode for English->Russian dictionary\n"),
    Event.print (str "Type 'exit' to return to main menu\n"),
    Event.print (str "Enter word: "),
    Event.scan Site.writeWord (some w),
    Event.print (str "Enter translation: "),
    Event.scan Site.writeTranslation (some t),
    Event.addWord w t,
    Event.print (str "Added: " ++ w ++ str " = " ++ t ++ str "\n"),
    Event.print (str "Enter word: "),
    Event.scan Site.writeWord (some (str "exit")),
    Event.print (str "Save changes and continue? (y/n/q): "),
    Event.scan Site.saveChoice (some (str "y")),
    Event.save filename saved none,
    Event.print (str "Dictionaries saved successfully\n"),
    Event.print (str "Switch mode? (find/write/exit): "),
    Event.scan Site.newMode (some (str "find")),
    Event.print (str "Find mode for English->Russian dictionary\n"),
    Event.print (str "Type 'exit' to return to main menu\n"),
    Event.print (str "Enter word to translate: "),
    Event.scan Site.findWord (some w),
    Event.print (str "Translation: " ++ w ++ str " = " ++ t ++ str "\n"),
    Event.print (str "Enter word to translate: "),
    Event.scan Site.findWord (some (str "exit")),
    Event.print (str "Save changes and continue? (y/n/q): "),
    Event.scan Site.saveChoice (some (str "q")),
    Event.save filename saved none,
    Event.print (str "Dictionaries saved successfully\n")]

/-- What the file `dictionaries.json` holds for the word `word` under the key `key`:
the result of `GetTranslation` on the dictionary that `LoadDictsFromJson`
returns under the key; `none` when the load fails or there is no dictionary
under the key. -/
def savedTranslation (fs : FileSys) (key word : GoString) : Option (GoString × Bool) :=
  match LoadDictsFromJson filename fs with
  | Except.ok loaded => (loaded.GetDictionary key).map (fun d => d.GetTranslation word)
  | Except.error _ => none

/-- A file system whose file is the document `{"dicts": {"a": {"from": "A", "to": "B"}}}`:
a dictionary without a `words` member. -/
def noWordsField : FileSys :=
  { files := fun _ =>
      File.document (Json.object [(str "dicts", Json.object [(str "a",
        Json.object [(str "from", Json.string (str "A")), (str "to", Json.string (str "B"))])])]),
    faults := [], picks := [] }

/-- A session in write mode on the dictionary `a` of the file `noWordsField`, whose
word map is nil, with the input `x`, `y`. -/
def crashSession : Run :=
  main [str "program", str "a", str "-write"] [str "x", str "y"] noWordsField

/-- A file system whose file is the document `{}`: no `dicts` member. -/
def noDictsField : FileSys :=
  { files := fun _ => File.document (Json.object []), faults := [], picks := [] }

/-! # Verification -/

/-! ## Strings and UTF-8 -/

theorem utf8.DecodeRune_pos (a : Nat) (l : GoString) : 1 ≤ (utf8.DecodeRune (a :: l)).2 := by
  unfold utf8.DecodeRune
  simp only
  repeat' split
  all_goals simp

theorem json.toValidUTF8_of_valid : ∀ (fuel : Nat) (p : GoString), p.length ≤ fuel →
    utf8.ValidString fuel p = true → json.toValidUTF8 fuel p = p := by
  intro fuel
  induction fuel with
  | zero =>
    intro p hp _
    have : p = [] := List.length_eq_zero.mp (Nat.le_zero.mp hp)
    subst this
    rfl
  | succ n ih =>
    intro p hp hv
    cases p with
    | nil => rfl
    | cons a l =>
      have hpos := utf8.DecodeRune_pos a l
      simp only [utf8.ValidString] at hv
      simp only [json.toValidUTF8]
      split at hv
      · exact absurd hv (by simp)
      · rename_i hne
        rw [if_neg hne, ih _ _ hv, List.take_append_drop]
        simp only [List.length_drop, List.length_cons] at hp ⊢
        omega

theorem json.toValidUTF8_eq {s : GoString} (h : validUTF8 s = true) :
    json.toValidUTF8 s.length s = s :=
  json.toValidUTF8_of_valid s.length s (Nat.le_refl _) h

/-! ## C1: save and load -/

theorem lookup_foldl_insert_not_mem {V : Type} (f : V → V) :
    ∀ (l : List (GoString × V)) (acc : AList (fun _ : GoString => V)) (k : GoString),
      k ∉ l.map Prod.fst →
      (l.foldl (fun m e => m.insert e.1 (f e.2)) acc).lookup k = acc.lookup k := by
  intro l
  induction l with
  | nil => intro acc k _; rfl
  | cons e t ih =>
    intro acc k hk
    simp only [List.map_cons, List.mem_cons, not_or] at hk
    simp only [List.foldl_cons]
    rw [ih _ _ hk.2, AList.lookup_insert_ne hk.1]

theorem lookup_foldl_insert_mem {V : Type} (f : V → V) :
    ∀ (l : List (GoString × V)) (acc : AList (fun _ : GoString => V)) (k : GoString) (v : V),
      (l.map Prod.fst).Nodup → (k, v) ∈ l →
      (l.foldl (fun m e => m.insert e.1 (f e.2)) acc).lookup k = some (f v) := by
  intro l
  induction l with
  | nil => intro acc k v _ h; simp at h
  | cons e t ih =>
    intro acc k v hnd hmem
    simp only [List.map_cons, List.nodup_cons] at hnd
    simp only [List.foldl_cons]
    rcases List.mem_cons.mp hmem with h | h
    · subst h
      rw [lookup_foldl_insert_not_mem f t _ _ hnd.1]
      exact AList.lookup_insert _
    · exact ih _ _ _ hnd.2 h

theorem sortKeys_perm {V : Type} (l : List (GoString × V)) : (json.sortKeys l).Perm l :=
  List.perm_insertionSort _ l

theorem range_nodup {V : Type} (a : AList (fun _ : GoString => V)) :
    ((GoMap.entries (some a)).map Prod.fst).Nodup := by
  have h := a.keys_nodup
  simp only [GoMap.entries, List.map_map]
  exact h

theorem mem_range_iff {V : Type} (a : AList (fun _ : GoString => V)) (k : GoString) (v : V) :
    (k, v) ∈ GoMap.entries (some a) ↔ a.lookup k = some v := by
  rw [← Option.mem_def, AList.mem_lookup_iff]
  simp only [GoMap.entries, List.mem_map]
  constructor
  · rintro ⟨e, he, heq⟩
    cases e with
    | mk k' v' =>
      simp only [Prod.mk.injEq] at heq
      obtain ⟨rfl, rfl⟩ := heq
      exact he
  · intro h
    exact ⟨⟨k, v⟩, h, rfl⟩

theorem not_mem_range_keys {V : Type} (a : AList (fun _ : GoString => V)) (k : GoString) :
    k ∉ (GoMap.entries (some a)).map Prod.fst ↔ a.lookup k = none := by
  rw [AList.lookup_eq_none, AList.mem_keys]
  simp only [GoMap.entries, List.map_map]
  rfl

/-- The map read back holds under every key what the map holds there, read back. -/
theorem get_reread {V : Type} (f : V → V) (m : GoMap V) (k : GoString) :
    (json.reread f m).get k = (m.get k).map f := by
  cases m with
  | none => rfl
  | some a =>
    simp only [json.reread, GoMap.get]
    have hperm := sortKeys_perm (GoMap.entries (some a))
    have hnd : ((json.sortKeys (GoMap.entries (some a))).map Prod.fst).Nodup :=
      (hperm.map Prod.fst).nodup_iff.mpr (range_nodup a)
    cases hk : a.lookup k with
    | none =>
      have h1 : k ∉ (json.sortKeys (GoMap.entries (some a))).map Prod.fst := by
        intro hmem
        exact (not_mem_range_keys a k).mpr hk ((hperm.map Prod.fst).mem_iff.mp hmem)
      rw [lookup_foldl_insert_not_mem f _ _ _ h1]
      rfl
    | some v =>
      have h1 : (k, v) ∈ json.sortKeys (GoMap.entries (some a)) :=
        hperm.mem_iff.mpr ((mem_range_iff a k v).mpr hk)
      rw [lookup_foldl_insert_mem f _ _ _ _ hnd h1]
      rfl

theorem foldlM_decodeWord :
    ∀ (l : List (GoString × GoString)) (acc : AList (fun _ : GoString => GoString)),
      (∀ e ∈ l, validUTF8 e.1 = true ∧ validUTF8 e.2 = true) →
      (l.map (fun e => (json.toValidUTF8 e.1.length e.1, json.encodeString e.2))).foldlM
          json.decodeWord acc =
        Except.ok (l.foldl (fun m e => m.insert e.1 (id e.2)) acc) := by
  intro l
  induction l with
  | nil => intro acc _; rfl
  | cons e t ih =>
    intro acc h
    have he := h e (List.mem_cons_self _ _)
    have ht : ∀ x ∈ t, validUTF8 x.1 = true ∧ validUTF8 x.2 = true :=
      fun x hx => h x (List.mem_cons_of_mem _ hx)
    simp only [List.map_cons, List.foldlM_cons, List.foldl_cons, json.decodeWord,
      json.encodeString, json.decodeString, json.toValidUTF8_eq he.1, json.toValidUTF8_eq he.2]
    exact ih _ ht

theorem decodeWords_encodeWords (m : GoMap GoString)
    (h : ∀ e ∈ m.entries, validUTF8 e.1 = true ∧ validUTF8 e.2 = true) :
    json.decodeWords none (json.encodeWords m) = Except.ok (json.reread id m) := by
  cases m with
  | none => rfl
  | some a =>
    have h' : ∀ e ∈ json.sortKeys (GoMap.entries (some a)),
        validUTF8 e.1 = true ∧ validUTF8 e.2 = true :=
      fun e he => h e ((sortKeys_perm _).mem_iff.mp he)
    simp only [json.encodeWords, json.decodeWords, json.reread, Option.getD_none]
    rw [foldlM_decodeWord _ _ h']
    rfl

theorem decodeDictionary_encodeDictionary (d : Dictionary) (h : d.validUTF8 = true) :
    json.decodeDictionary { From := [], To := [], Words := none } (json.encodeDictionary d) =
      Except.ok (json.rereadDictionary d) := by
  simp only [Dictionary.validUTF8, Bool.and_eq_true, List.all_eq_true] at h
  obtain ⟨⟨hf, ht⟩, hw⟩ := h
  have h1 : json.isField (str "from") (str "from") = true := by decide
  have h2 : json.isField (str "from") (str "to") = false := by decide
  have h3 : json.isField (str "to") (str "to") = true := by decide
  have h4 : json.isField (str "from") (str "words") = false := by decide
  have h5 : json.isField (str "to") (str "words") = false := by decide
  have h6 : json.isField (str "words") (str "words") = true := by decide
  have hwords := decodeWords_encodeWords d.Words hw
  simp only [json.encodeDictionary, json.decodeDictionary, List.foldlM_cons, List.foldlM_nil,
    json.decodeField, h1, h2, h3, h4, h5, h6, if_true, json.encodeString, json.decodeString,
    json.toValidUTF8_eq hf, json.toValidUTF8_eq ht, hwords, json.rereadDictionary, pure_bind,
    Bool.false_eq_true, if_false, bind_pure]
  rfl

theorem decodePointer_encodePointer (p : Option Dictionary)
    (h : ∀ d, p = some d → d.validUTF8 = true) :
    json.decodePointer (json.encodePointer p) = Except.ok (p.map json.rereadDictionary) := by
  cases p with
  | none => rfl
  | some d =>
    have hd := decodeDictionary_encodeDictionary d (h d rfl)
    simp only [json.encodePointer, json.encodeDictionary] at hd ⊢
    simp only [json.decodePointer, hd]
    rfl

theorem foldlM_decodeDict :
    ∀ (l : List (GoString × Option Dictionary))
      (acc : AList (fun _ : GoString => Option Dictionary)),
      (∀ e ∈ l, validUTF8 e.1 = true ∧ ∀ d, e.2 = some d → d.validUTF8 = true) →
      (l.map (fun e => (json.toValidUTF8 e.1.length e.1, json.encodePointer e.2))).foldlM
          json.decodeDict acc =
        Except.ok (l.foldl (fun m e => m.insert e.1 (Option.map json.rereadDictionary e.2)) acc) := by
  intro l
  induction l with
  | nil => intro acc _; rfl
  | cons e t ih =>
    intro acc h
    have he := h e (List.mem_cons_self _ _)
    have ht : ∀ x ∈ t, validUTF8 x.1 = true ∧ ∀ d, x.2 = some d → d.validUTF8 = true :=
      fun x hx => h x (List.mem_cons_of_mem _ hx)
    simp only [List.map_cons, List.foldlM_cons, List.foldl_cons, json.decodeDict,
      json.toValidUTF8_eq he.1, decodePointer_encodePointer e.2 he.2, pure_bind]
    exact ih _ ht

theorem valid_entries (dicts : Dictionaries) (h : dicts.validUTF8 = true) :
    ∀ e ∈ dicts.Dicts.entries, validUTF8 e.1 = true ∧ ∀ d, e.2 = some d → d.validUTF8 = true := by
  simp only [Dictionaries.validUTF8, List.all_eq_true, Bool.and_eq_true] at h
  intro e he
  refine ⟨(h e he).1, ?_⟩
  intro d hd
  have := (h e he).2
  rw [hd] at this
  exact this

/-- What is decoded from the encoding of a collection of valid UTF-8 strings is
the collection as it is read back. -/
theorem decode_encode (dicts : Dictionaries) (h : dicts.validUTF8 = true) :
    json.decode (json.encode dicts) = Except.ok (json.rereadDictionaries dicts) := by
  have hfield : json.isField (str "dicts") (str "dicts") = true := by decide
  have hv := valid_entries dicts h
  obtain ⟨m⟩ := dicts
  cases m with
  | none =>
    simp only [json.encode, json.decode, json.encodeDicts, List.foldlM_cons, List.foldlM_nil,
      json.decodeTop, hfield, if_true, json.decodeDicts, pure_bind, bind_pure]
    rfl
  | some a =>
    have hv' : ∀ e ∈ json.sortKeys (GoMap.entries (some a)),
        validUTF8 e.1 = true ∧ ∀ d, e.2 = some d → d.validUTF8 = true :=
      fun e he => hv e ((sortKeys_perm _).mem_iff.mp he)
    simp only [json.encode, json.decode, json.encodeDicts, List.foldlM_cons, List.foldlM_nil,
      json.decodeTop, hfield, if_true, json.decodeDicts, Option.getD_none,
      foldlM_decodeDict _ _ hv', pure_bind, bind_pure]
    rfl

theorem sameWords_reread (m : GoMap GoString) : sameWords (json.reread id m) m := by
  refine ⟨?_, ?_⟩
  · cases m <;> rfl
  · intro w
    rw [get_reread]
    cases m.get w <;> rfl

theorem samePointer_reread (p : Option Dictionary) :
    samePointer (p.map json.rereadDictionary) p := by
  cases p with
  | none => trivial
  | some d => exact ⟨rfl, rfl, sameWords_reread d.Words⟩

theorem sameAs_reread (dicts : Dictionaries) :
    (json.rereadDictionaries dicts).sameAs dicts := by
  refine ⟨?_, ?_⟩
  · cases h : dicts.Dicts <;> simp [json.rereadDictionaries, json.reread, h]
  · intro key
    simp only [json.rereadDictionaries, get_reread]
    cases dicts.Dicts.get key with
    | none => trivial
    | some p => exact samePointer_reread p

/-- C1 (amended): for every collection whose keys, language names, words and
translations are valid UTF-8, every path and every file system: when
`SaveToJson(path)` succeeds, `LoadDictsFromJson(path)` succeeds and returns a
collection with the same keys and, under every key, the same `from`, the same
`to` and the same word to translation mapping. -/
theorem C1_round_trip (dicts : Dictionaries) (path : GoString) (fs : FileSys)
    (hvalid : dicts.validUTF8 = true) (hsave : (dicts.SaveToJson path fs).2 = none) :
    ∃ loaded, LoadDictsFromJson path (dicts.SaveToJson path fs).1 = Except.ok loaded ∧
      loaded.sameAs dicts := by
  refine ⟨json.rereadDictionaries dicts, ?_, sameAs_reread dicts⟩
  unfold Dictionaries.SaveToJson at hsave ⊢
  cases hf : fs.faults.headD Fault.ok with
  | create err => rw [hf] at hsave; simp at hsave
  | write err left => rw [hf] at hsave; simp at hsave
  | ok =>
    simp only [LoadDictsFromJson, Function.update_same, decode_encode dicts hvalid]
    rfl

/-- C1 (as stated, for arbitrary Go strings) fails: the collection whose
dictionary `en-ru` holds the word `"\xff"` is saved without an error, and what
is loaded back holds the word U+FFFD in its place. -/
theorem C1_counterexample :
    (invalidWord.SaveToJson filename firstRun).2 = none ∧
    ¬ ∃ loaded, LoadDictsFromJson filename (invalidWord.SaveToJson filename firstRun).1 =
        Except.ok loaded ∧ loaded.sameAs invalidWord := by
  refine ⟨rfl, ?_⟩
  rintro ⟨loaded, hload, hsame⟩
  have h : LoadDictsFromJson filename (invalidWord.SaveToJson filename firstRun).1 =
      Except.ok { Dicts := some (AList.singleton (str "en-ru")
        (some { From := str "English", To := str "Russian",
                Words := some (AList.singleton [0xEF, 0xBF, 0xBD] (str "x")) })) } := by
    rfl
  rw [h] at hload
  injection hload with hload
  subst hload
  have hkey := hsame.2 (str "en-ru")
  have hword : GoMap.get (some (AList.singleton [0xEF, 0xBF, 0xBD] (str "x"))) [0xFF] =
      GoMap.get (some (AList.singleton [0xFF] (str "x"))) [0xFF] := hkey.2.2.2 [0xFF]
  exact absurd hword (by decide)

/-- C1, witness: the round trip at the collection `oneWord` on a first run. -/
theorem C1_round_trip_witness :
    oneWord.validUTF8 = true ∧ (oneWord.SaveToJson filename firstRun).2 = none ∧
    ∃ loaded, LoadDictsFromJson filename (oneWord.SaveToJson filename firstRun).1 =
        Except.ok loaded ∧ loaded.sameAs oneWord :=
  ⟨by decide, rfl, C1_round_trip oneWord filename firstRun (by decide) rfl⟩

/-! ## C2: a word added again -/

theorem filter_key_length {V : Type} (w : GoString) :
    ∀ (l : List (Sigma (fun _ : GoString => V))), (l.map Sigma.fst).Nodup →
      ((l.map (fun e => (e.1, e.2))).filter (fun e => decide (e.1 = w))).length =
        if w ∈ l.map Sigma.fst then 1 else 0 := by
  intro l
  induction l with
  | nil => intro _; rfl
  | cons e t ih =>
    intro hnd
    simp only [List.map_cons, List.nodup_cons] at hnd
    have iht := ih hnd.2
    by_cases hw : e.1 = w
    · have hnot : w ∉ t.map Sigma.fst := hw ▸ hnd.1
      rw [if_neg hnot] at iht
      simp only [List.map_cons, List.filter_cons, hw, decide_True, if_true, List.length_cons,
        iht, List.mem_cons, true_or]
    · simp only [List.map_cons, List.filter_cons, hw, decide_False, Bool.false_eq_true, if_false,
        iht, List.mem_cons, Ne.symm hw, false_or]

theorem entriesFor_insert (a : AList (fun _ : GoString => GoString)) (w t : GoString) :
    entriesFor (some (a.insert w t)) w = 1 := by
  have hmem : w ∈ (a.insert w t).entries.map Sigma.fst := by
    have : w ∈ (a.insert w t).keys := by
      rw [← AList.mem_keys, AList.mem_insert]
      exact Or.inl rfl
    exact this
  have h := filter_key_length w (a.insert w t).entries (a.insert w t).keys_nodup
  rw [if_pos hmem] at h
  exact h

/-- C2 (amended): for every dictionary whose word map is not nil and all strings
`w`, `t1`, `t2`, the call `AddWord(w, t1)` followed by `AddWord(w, t2)` leaves
exactly one entry for `w`, `GetTranslation(w)` returns `(t2, true)`, and the
dictionary is the one the single call `AddWord(w, t2)` makes of `d`. -/
theorem C2_add_word_overwrites (d : Dictionary) (w t1 t2 : GoString) (h : d.Words ≠ none) :
    ∃ d1 d2, d.AddWord w t1 = some d1 ∧ d1.AddWord w t2 = some d2 ∧
      entriesFor d2.Words w = 1 ∧ d2.GetTranslation w = (t2, true) ∧
      d.AddWord w t2 = some d2 := by
  obtain ⟨f, t, m⟩ := d
  cases m with
  | none => exact absurd rfl h
  | some a =>
    refine ⟨_, _, rfl, rfl, ?_, ?_, ?_⟩
    · exact entriesFor_insert _ w t2
    · simp [Dictionary.GetTranslation, GoMap.get, AList.lookup_insert]
    · simp [Dictionary.AddWord, GoMap.set, AList.insert_insert]

/-- C2, witness: the word `bridge` added twice to a new dictionary. -/
theorem C2_add_word_overwrites_witness :
    (NewDictionary (str "English") (str "Russian")).Words ≠ none ∧
    ∃ d1 d2, (NewDictionary (str "English") (str "Russian")).AddWord (str "bridge") (str "x") =
        some d1 ∧ d1.AddWord (str "bridge") (str "мост") = some d2 ∧
      entriesFor d2.Words (str "bridge") = 1 ∧
      d2.GetTranslation (str "bridge") = (str "мост", true) ∧
      (NewDictionary (str "English") (str "Russian")).AddWord (str "bridge") (str "мост") =
        some d2 :=
  ⟨by decide, C2_add_word_overwrites _ _ _ _ (by decide)⟩

/-- C2 (as stated, for every dictionary) fails: on a dictionary whose word map is
nil the first `AddWord` panics, so there is no mapping after the two calls. -/
theorem C2_counterexample :
    nilWords.AddWord (str "bridge") (str "x") = none ∧
    ¬ ∃ d1 d2, nilWords.AddWord (str "bridge") (str "x") = some d1 ∧
      d1.AddWord (str "bridge") (str "мост") = some d2 ∧
      entriesFor d2.Words (str "bridge") = 1 ∧
      d2.GetTranslation (str "bridge") = (str "мост", true) ∧
      nilWords.AddWord (str "bridge") (str "мост") = some d2 := by
  refine ⟨rfl, ?_⟩
  rintro ⟨d1, d2, h, _⟩
  simp [nilWords, Dictionary.AddWord, GoMap.set] at h

/-! ## C3: a word never added -/

theorem addWords_new :
    ∀ (calls : List (GoString × GoString)) (d : Dictionary) (a : AList (fun _ : GoString => GoString))
      (w : GoString), d.Words = some a → (∀ p ∈ calls, p.1 ≠ w) →
      ∃ d' a', addWords d calls = some d' ∧ d'.Words = some a' ∧ a'.lookup w = a.lookup w := by
  intro calls
  induction calls with
  | nil => intro d a w hd _; exact ⟨d, a, rfl, hd, rfl⟩
  | cons c t ih =>
    intro d a w hd h
    have hc : c.1 ≠ w := h c (List.mem_cons_self _ _)
    obtain ⟨d', a', h1, h2, h3⟩ := ih { d with Words := some (a.insert c.1 c.2) }
      (a.insert c.1 c.2) w rfl (fun p hp => h p (List.mem_cons_of_mem _ hp))
    refine ⟨d', a', ?_, h2, ?_⟩
    · simp only [addWords, List.foldlM_cons, Dictionary.AddWord, hd, GoMap.set, Option.map_some',
        Option.some_bind, Option.bind_eq_bind] at h1 ⊢
      exact h1
    · rw [h3, AList.lookup_insert_ne (Ne.symm hc)]

/-- C3: on a dictionary made by `NewDictionary` and changed by any finite
sequence of `AddWord` calls, none of the calls panics, and for every word that
is byte for byte different from the word of each call, `GetTranslation`
returns the not-found pair `("", false)`. -/
theorem C3_lookup_miss (src dst : GoString) (calls : List (GoString × GoString)) (w : GoString)
    (h : ∀ call ∈ calls, call.1 ≠ w) :
    ∃ d, addWords (NewDictionary src dst) calls = some d ∧
      d.GetTranslation w = ([], false) := by
  obtain ⟨d, a, h1, h2, h3⟩ := addWords_new calls (NewDictionary src dst) ∅ w rfl h
  refine ⟨d, h1, ?_⟩
  simp [Dictionary.GetTranslation, h2, GoMap.get, h3]

/-- C3, witness: after `Hello` is added, `hello` is not found. -/
theorem C3_lookup_miss_witness :
    (∀ call ∈ [(str "Hello", str "привет")], call.1 ≠ str "hello") ∧
    ∃ d, addWords (NewDictionary (str "English") (str "Russian"))
        [(str "Hello", str "привет")] = some d ∧
      d.GetTranslation (str "hello") = ([], false) :=
  ⟨by decide, C3_lookup_miss _ _ _ _ (by decide)⟩

/-! ## C4: the seed -/

theorem lookup_singleton_self {V : Type} (k : GoString) (v : V) :
    (AList.singleton k v : AList (fun _ : GoString => V)).lookup k = some v := by
  rw [← AList.insert_empty, AList.lookup_insert]

theorem lookup_singleton_ne {V : Type} {k k' : GoString} (v : V) (h : k ≠ k') :
    (AList.singleton k' v : AList (fun _ : GoString => V)).lookup k = none := by
  rw [← AList.insert_empty, AList.lookup_insert_ne h, AList.lookup_empty]

theorem holdsExactly_three (src dst w1 t1 w2 t2 w3 t3 : GoString) (h12 : w1 ≠ w2)
    (h13 : w1 ≠ w3) (h23 : w2 ≠ w3) :
    Dictionary.holdsExactly
      { From := src, To := dst,
        Words := some (AList.insert w3 t3 (AList.insert w2 t2 (AList.insert w1 t1 ∅))) }
      [(w1, t1), (w2, t2), (w3, t3)] := by
  intro word
  simp only [Dictionary.GetTranslation, GoMap.get, List.find?_cons, List.find?_nil]
  by_cases e1 : w1 = word
  · subst e1
    simp [AList.lookup_insert_ne h13, AList.lookup_insert_ne h12, lookup_singleton_self]
  · by_cases e2 : w2 = word
    · subst e2
      simp [AList.lookup_insert_ne h23, AList.lookup_insert, e1]
    · by_cases e3 : w3 = word
      · subst e3
        simp [AList.lookup_insert, e1, e2]
      · simp [lookup_singleton_ne _ (Ne.symm e1), AList.lookup_insert_ne (Ne.symm e2),
          AList.lookup_insert_ne (Ne.symm e3), e1, e2, e3]

/-- C4: `initializeDictionaries` returns, without a panic, a collection whose keys
are exactly `en-ru`, `de-ru` and `fr-ru`; `en-ru` is English to Russian with
exactly hello, world, computer; `de-ru` is German to Russian with exactly
hallo, welt, computer; `fr-ru` is French to Russian with exactly bonjour,
monde, ordinateur, each with its translation.  The function takes no argument
and reads no state, so every call returns this content. -/
theorem C4_seed_content :
    ∃ dicts en de fr, initializeDictionaries = some dicts ∧
      (∀ key, (dicts.Dicts.get key).isSome = true ↔
        key = str "en-ru" ∨ key = str "de-ru" ∨ key = str "fr-ru") ∧
      dicts.GetDictionary (str "en-ru") = some en ∧
      en.From = str "English" ∧ en.To = str "Russian" ∧
      en.holdsExactly [(str "hello", str "привет"), (str "world", str "мир"),
        (str "computer", str "компьютер")] ∧
      dicts.GetDictionary (str "de-ru") = some de ∧
      de.From = str "German" ∧ de.To = str "Russian" ∧
      de.holdsExactly [(str "hallo", str "привет"), (str "welt", str "мир"),
        (str "computer", str "компьютер")] ∧
      dicts.GetDictionary (str "fr-ru") = some fr ∧
      fr.From = str "French" ∧ fr.To = str "Russian" ∧
      fr.holdsExactly [(str "bonjour", str "привет"), (str "monde", str "мир"),
        (str "ordinateur", str "компьютер")] := by
  refine ⟨_, _, _, _, rfl, ?_, rfl, rfl, rfl, ?_, rfl, rfl, rfl, ?_, rfl, rfl, rfl, ?_⟩
  · intro key
    simp only [GoMap.get]
    by_cases e1 : key = str "fr-ru"
    · subst e1
      simp [AList.lookup_insert]
    · by_cases e2 : key = str "de-ru"
      · subst e2
        simp [AList.lookup_insert, AList.lookup_insert_ne e1]
      · by_cases e3 : key = str "en-ru"
        · subst e3
          simp [lookup_singleton_self, AList.lookup_insert_ne e1, AList.lookup_insert_ne e2]
        · simp [AList.lookup_insert_ne e1, AList.lookup_insert_ne e2, lookup_singleton_ne _ e3,
            e1, e2, e3]
  · exact holdsExactly_three _ _ _ _ _ _ _ _ (by decide) (by decide) (by decide)
  · exact holdsExactly_three _ _ _ _ _ _ _ _ (by decide) (by decide) (by decide)
  · exact holdsExactly_three _ _ _ _ _ _ _ _ (by decide) (by decide) (by decide)

/-! ## C8, C9, C10: the ways `main` ends before its loop -/

/-- C8: when `os.Args` does not have length 3, for every input and every file
system, `main` prints exactly the four usage lines and returns: no line is
read, `LoadDictsFromJson` and `SaveToJson` are not called, and the file system
is unchanged. -/
theorem C8_bad_argument_count (osArgs stdin : List GoString) (fs : FileSys)
    (h : osArgs.length ≠ 3) :
    (main osArgs stdin fs).trace =
      [Event.print (str "Usage: program <dictionary> <mode>\n"),
        Event.print (str "Dictionaries: en-ru, de-ru, fr-ru\n"),
        Event.print (str "Modes: -find, -write\n"),
        Event.print (str "Example: program en-ru -find\n")] ∧
    (main osArgs stdin fs).status = Status.exited ∧
    (main osArgs stdin fs).fs = fs := by
  unfold main
  split
  · simp at h
  · exact ⟨rfl, rfl, rfl⟩

/-- C8, witness: one argument after the program name. -/
theorem C8_bad_argument_count_witness :
    [str "program", str "en-ru"].length ≠ 3 ∧
    (main [str "program", str "en-ru"] [str "hello"] firstRun).trace =
      [Event.print (str "Usage: program <dictionary> <mode>\n"),
        Event.print (str "Dictionaries: en-ru, de-ru, fr-ru\n"),
        Event.print (str "Modes: -find, -write\n"),
        Event.print (str "Example: program en-ru -find\n")] ∧
    (main [str "program", str "en-ru"] [str "hello"] firstRun).status = Status.exited ∧
    (main [str "program", str "en-ru"] [str "hello"] firstRun).fs = firstRun :=
  ⟨by decide, C8_bad_argument_count _ _ _ (by decide)⟩

/-- C9 (amended): with two arguments, a mode that is neither `-find` nor `-write`
and a key that has a dictionary in the collection `main` starts with, for
every input and every file system, `main` prints, after the events of the
load, the error "Unknown mode '<mode>'" and the four usage lines, and returns:
no line is read, no mode is entered, nothing is saved. -/
theorem C9_unknown_mode (program dictKey mode : GoString) (stdin : List GoString) (fs : FileSys)
    (dictionaries : Dictionaries) (dict : Dictionary)
    (hmode : mode ≠ str "-find" ∧ mode ≠ str "-write")
    (hstart : (loadOrSeed fs).1 = some dictionaries)
    (hkey : dictionaries.GetDictionary dictKey = some dict) :
    (main [program, dictKey, mode] stdin fs).trace =
      (loadOrSeed fs).2 ++
        [Event.print (str "Unknown mode '" ++ mode ++ str "'\n"),
          Event.print (str "Usage: program <dictionary> <mode>\n"),
          Event.print (str "Dictionaries: en-ru, de-ru, fr-ru\n"),
          Event.print (str "Modes: -find, -write\n"),
          Event.print (str "Example: program en-ru -find\n")] ∧
    (main [program, dictKey, mode] stdin fs).status = Status.exited ∧
    (main [program, dictKey, mode] stdin fs).fs = fs := by
  have hnot : ¬ (mode = str "-find" ∨ mode = str "-write") := by
    rintro (h | h)
    · exact hmode.1 h
    · exact hmode.2 h
  refine ⟨?_, ?_, ?_⟩ <;>
    simp [main, hstart, hkey, mainLoop, hnot, Run.after, printUsage]

/-- C9, witness: the mode `-foo` with the key `en-ru` on a first run. -/
theorem C9_unknown_mode_witness :
    (str "-foo" ≠ str "-find" ∧ str "-foo" ≠ str "-write") ∧
    (main [str "program", str "en-ru", str "-foo"] [str "hello"] firstRun).trace =
      (loadOrSeed firstRun).2 ++
        [Event.print (str "Unknown mode '" ++ str "-foo" ++ str "'\n"),
          Event.print (str "Usage: program <dictionary> <mode>\n"),
          Event.print (str "Dictionaries: en-ru, de-ru, fr-ru\n"),
          Event.print (str "Modes: -find, -write\n"),
          Event.print (str "Example: program en-ru -find\n")] ∧
    (main [str "program", str "en-ru", str "-foo"] [str "hello"] firstRun).status =
      Status.exited ∧
    (main [str "program", str "en-ru", str "-foo"] [str "hello"] firstRun).fs = firstRun :=
  ⟨by decide,
    C9_unknown_mode (str "program") (str "en-ru") (str "-foo") [str "hello"] firstRun
      _ _ (by decide) rfl rfl⟩

/-- C9 (as stated, for every dictionary key) fails: with the key `xx-yy`, which
has no dictionary, and the mode `-foo`, `main` prints that the dictionary is
not found and never the error "Unknown mode '-foo'" nor the usage. -/
theorem C9_counterexample :
    Event.print (str "Unknown mode '-foo'\n") ∉
      (main [str "program", str "xx-yy", str "-foo"] [] firstRun).trace ∧
    Event.print (str "Usage: program <dictionary> <mode>\n") ∉
      (main [str "program", str "xx-yy", str "-foo"] [] firstRun).trace ∧
    Event.print (str "Dictionary 'xx-yy' not found\n") ∈
      (main [str "program", str "xx-yy", str "-foo"] [] firstRun).trace := by
  decide

/-! ## Events after an event -/

theorem mem_eventsAfter (p : Event → Bool) :
    ∀ (pre : List Event) (e : Event) (post : List Event), p e = true →
      (e, post) ∈ eventsAfter p (pre ++ e :: post) := by
  intro pre
  induction pre with
  | nil =>
    intro e post h
    simp [eventsAfter, h]
  | cons x t ih =>
    intro e post h
    simp only [List.cons_append, eventsAfter]
    split
    · exact List.mem_cons_of_mem _ (ih e post h)
    · exact ih e post h

theorem eventsAfter_append (p : Event → Bool) (l2 : List Event) :
    ∀ l1 : List Event,
      eventsAfter p (l1 ++ l2) =
        (eventsAfter p l1).map (fun s => (s.1, s.2 ++ l2)) ++ eventsAfter p l2 := by
  intro l1
  induction l1 with
  | nil => rfl
  | cons x t ih =>
    simp only [List.cons_append, eventsAfter]
    split <;> simp [ih]

theorem eventsAfter_eq_nil (p : Event → Bool) :
    ∀ l : List Event, (∀ e ∈ l, p e = false) → eventsAfter p l = [] := by
  intro l
  induction l with
  | nil => intro _; rfl
  | cons x t ih =>
    intro h
    simp only [eventsAfter, h x (List.mem_cons_self _ _), Bool.false_eq_true, if_false]
    exact ih (fun e he => h e (List.mem_cons_of_mem _ he))

theorem eventsAfter_sound (p : Event → Bool) :
    ∀ (l : List Event) (s : Event × List Event), s ∈ eventsAfter p l →
      p s.1 = true ∧ ∃ pre, l = pre ++ s.1 :: s.2 := by
  intro l
  induction l with
  | nil => intro s hs; simp [eventsAfter] at hs
  | cons x t ih =>
    intro s hs
    simp only [eventsAfter] at hs
    split at hs
    · rcases List.mem_cons.mp hs with h | h
      · subst h
        exact ⟨by assumption, [], rfl⟩
      · obtain ⟨h1, pre, h2⟩ := ih s h
        exact ⟨h1, x :: pre, by rw [h2]; rfl⟩
    · obtain ⟨h1, pre, h2⟩ := ih s hs
      exact ⟨h1, x :: pre, by rw [h2]; rfl⟩

theorem lastAdded_append (w : GoString) (l2 : List Event) :
    ∀ l1 : List Event, lastAdded w (l1 ++ l2) = (lastAdded w l2).or (lastAdded w l1) := by
  intro l1
  induction l1 with
  | nil =>
    simp only [List.nil_append, lastAdded]
    cases lastAdded w l2 <;> rfl
  | cons x t ih =>
    cases x with
    | addWord w' t' =>
      simp only [List.cons_append, lastAdded, List.append_eq]
      rw [ih]
      cases lastAdded w l2 <;> cases lastAdded w t <;> simp [Option.or]
    | print _ => simpa only [List.cons_append, lastAdded] using ih
    | printError _ _ => simpa only [List.cons_append, lastAdded] using ih
    | scan _ _ => simpa only [List.cons_append, lastAdded] using ih
    | load _ => simpa only [List.cons_append, lastAdded] using ih
    | save _ _ _ => simpa only [List.cons_append, lastAdded] using ih

theorem lastAdded_eq_none (w : GoString) :
    ∀ l : List Event, (∀ e ∈ l, e.isAddWord = false) → lastAdded w l = none := by
  intro l
  induction l with
  | nil => intro _; rfl
  | cons x t ih =>
    intro h
    have hx := h x (List.mem_cons_self _ _)
    have ht := ih (fun e he => h e (List.mem_cons_of_mem _ he))
    cases x <;> simp_all [lastAdded, Event.isAddWord]

/-! ## The scanner -/

/-- A call of `Scan` that returns false: the scanner is used up, or it holds the
call. -/
theorem bufio.Scan_none (s : bufio.Scanner) (h : (bufio.Scan s).1 = none) :
    (s = [] ∧ (bufio.Scan s).2 = []) ∨ s = none :: (bufio.Scan s).2 := by
  cases s with
  | nil => exact Or.inl ⟨rfl, rfl⟩
  | cons token rest =>
    right
    simp only [bufio.Scan] at h ⊢
    rw [h]

theorem bufio.Scan_length (s : bufio.Scanner) : (bufio.Scan s).2.length ≤ s.length := by
  cases s with
  | nil => exact Nat.le_refl _
  | cons token rest => exact Nat.le_succ _

theorem bufio.reachable_tail (token : Option GoString) (s : bufio.Scanner)
    (h : bufio.reachable (token :: s)) : bufio.reachable s := by
  cases token with
  | some line => exact h
  | none =>
    match s, h with
    | [], _ => trivial
    | [none], _ => exact Nat.zero_le _
    | [some _], _ => trivial
    | _ :: _ :: _, h => simp [bufio.reachable] at h

theorem bufio.reachable_Scan (s : bufio.Scanner) (h : bufio.reachable s) :
    bufio.reachable (bufio.Scan s).2 := by
  cases s with
  | nil => trivial
  | cons token rest => exact bufio.reachable_tail token rest h

/-- After a call of `Scan` that returns false a scanner made by `NewScanner` holds
at most one more call. -/
theorem bufio.reachable_Scan_none (s : bufio.Scanner) (h : bufio.reachable s)
    (hs : (bufio.Scan s).1 = none) : (bufio.Scan s).2.length ≤ 1 := by
  rcases bufio.Scan_none s hs with ⟨_, h2⟩ | h2
  · rw [h2]
    exact Nat.zero_le _
  · rw [h2] at h
    exact h

/-- The scanner `main` makes is in a state of `bufio.reachable`. -/
theorem bufio.reachable_NewScanner : ∀ input : List GoString,
    bufio.reachable (bufio.NewScanner input) := by
  intro input
  induction input with
  | nil => trivial
  | cons line rest ih =>
    simp only [bufio.NewScanner]
    split
    · exact ih
    · exact Nat.le_refl _

/-- The scanner holds at most one call that returns true for every line of the
input. -/
theorem bufio.NewScanner_lines : ∀ input : List GoString,
    (bufio.NewScanner input).countP Option.isSome ≤ input.length := by
  intro input
  induction input with
  | nil => exact Nat.le_refl _
  | cons line rest ih =>
    simp only [bufio.NewScanner]
    split
    · simp only [List.countP_cons_of_pos, Option.isSome_some, List.length_cons]
      omega
    · simp [List.countP_cons]

theorem bufio.NewScanner_cons_short (line : GoString) (input : List GoString)
    (h : line.length < bufio.MaxScanTokenSize) :
    bufio.NewScanner (line :: input) = some (bufio.dropCR line) :: bufio.NewScanner input := by
  simp only [bufio.NewScanner, if_pos h]

theorem bufio.NewScanner_cons_long (line : GoString) (input : List GoString)
    (h : ¬ line.length < bufio.MaxScanTokenSize) :
    bufio.NewScanner (line :: input) =
      [none, some (bufio.dropCR (line.take bufio.MaxScanTokenSize))] := by
  simp only [bufio.NewScanner, if_neg h]

/-- On lines that are all shorter than the buffer every call of `Scan` reads the next
line, without the carriage return at its end. -/
theorem bufio.NewScanner_short : ∀ input : List GoString,
    (∀ line ∈ input, line.length < bufio.MaxScanTokenSize) →
    bufio.NewScanner input = (input.map bufio.dropCR).map some := by
  intro input
  induction input with
  | nil => intro _; rfl
  | cons line rest ih =>
    intro h
    rw [bufio.NewScanner_cons_short line rest (h line (List.mem_cons_self _ _)),
      ih (fun l hl => h l (List.mem_cons_of_mem _ hl))]
    rfl

theorem bufio.readable_stop (s : bufio.Scanner) (h : (bufio.Scan s).1 = none) :
    bufio.readable s = [] := by
  rcases s with _ | ⟨_ | line, rest⟩
  · rfl
  · rfl
  · simp [bufio.Scan] at h

theorem bufio.readable_cons (line : GoString) (s : bufio.Scanner) :
    bufio.readable (some line :: s) = line :: bufio.readable s := rfl

theorem bufio.readable_map_some : ∀ lines : List GoString,
    bufio.readable (lines.map some) = lines := by
  intro lines
  induction lines with
  | nil => rfl
  | cons line rest ih => rw [List.map_cons, bufio.readable_cons, ih]

theorem longLine_length : longLine.length = bufio.MaxScanTokenSize :=
  List.length_replicate _ _

theorem TrimSpace_spaces : ∀ n : Nat, strings.TrimSpace (List.replicate n 0x20) = [] := by
  intro n
  induction n with
  | zero => rfl
  | succ n ih =>
    have h1 : ¬ utf8.RuneSelf ≤ 0x20 := by decide
    have h2 : strings.asciiSpace 0x20 = true := by decide
    simp only [List.replicate_succ, strings.TrimSpace, if_neg h1, h2, if_true, ih]

theorem TrimSpace_longLine : strings.TrimSpace longLine = [] := TrimSpace_spaces _

theorem dropCR_spaces : ∀ n : Nat,
    bufio.dropCR (List.replicate n 0x20) = List.replicate n 0x20 := by
  intro n
  cases n with
  | zero => rfl
  | succ n =>
    have h : (List.replicate (n + 1) 0x20).getLast? = some 0x20 := by
      rw [List.getLast?_eq_getLast _ (by simp), List.getLast_replicate]
    simp only [bufio.dropCR, h, Option.some.injEq]
    rw [if_neg (by decide)]

theorem dropCR_longLine : bufio.dropCR longLine = longLine := dropCR_spaces _

/-- What the scanner makes of the lines `longInput`: the first line, a call that
returns false at the line of 64 KiB, and a call that returns what the buffer
holds of that line; the lines after it are never read. -/
theorem NewScanner_longInput :
    bufio.NewScanner longInput = [some (str "hello"), none, some longLine] := by
  have h1 : (str "hello").length < bufio.MaxScanTokenSize := by decide
  have h2 : ¬ longLine.length < bufio.MaxScanTokenSize := by
    rw [longLine_length]
    exact Nat.lt_irrefl _
  have h3 : bufio.dropCR (str "hello") = str "hello" := by decide
  have h4 : longLine.take bufio.MaxScanTokenSize = longLine :=
    List.take_of_length_le (Nat.le_of_eq longLine_length)
  rw [longInput, bufio.NewScanner_cons_short _ _ h1, bufio.NewScanner_cons_long _ _ h2, h3, h4,
    dropCR_longLine]

/-! ## The ways a round of the find loop goes -/

theorem findLoop_stop (dict : Dictionary) (s : bufio.Scanner) (h : (bufio.Scan s).1 = none) :
    findLoop dict s =
      { trace := [Event.print (str "Enter word to translate: "), Event.scan Site.findWord none],
        dict := dict, scanner := (bufio.Scan s).2, panicked := false } := by
  cases s with
  | nil => rfl
  | cons token rest =>
    cases token with
    | none => rfl
    | some line => simp [bufio.Scan] at h

theorem findLoop_exit (dict : Dictionary) (line : GoString) (rest : bufio.Scanner)
    (hexit : strings.TrimSpace line = str "exit") :
    findLoop dict (some line :: rest) =
      { trace := [Event.print (str "Enter word to translate: "),
          Event.scan Site.findWord (some line)],
        dict := dict, scanner := rest, panicked := false } := by
  simp only [findLoop, if_pos hexit]

theorem findLoop_empty (dict : Dictionary) (line : GoString) (rest : bufio.Scanner)
    (hexit : strings.TrimSpace line ≠ str "exit") (hempty : strings.TrimSpace line = str "") :
    findLoop dict (some line :: rest) =
      (findLoop dict rest).after
        [Event.print (str "Enter word to translate: "),
          Event.scan Site.findWord (some line)] := by
  simp only [findLoop, if_neg hexit, if_pos hempty]

theorem findLoop_found (dict : Dictionary) (line : GoString) (rest : bufio.Scanner)
    (translation : GoString)
    (hexit : strings.TrimSpace line ≠ str "exit") (hempty : strings.TrimSpace line ≠ str "")
    (hget : dict.Words.get (strings.TrimSpace line) = some translation) :
    findLoop dict (some line :: rest) =
      (findLoop dict rest).after
        ([Event.print (str "Enter word to translate: "),
            Event.scan Site.findWord (some line)] ++
          [Event.print (str "Translation: " ++ strings.TrimSpace line ++ str " = " ++
            translation ++ str "\n")]) := by
  simp only [findLoop, if_neg hexit, if_neg hempty, Dictionary.GetTranslation, hget, if_true]

theorem findLoop_not_found (dict : Dictionary) (line : GoString) (rest : bufio.Scanner)
    (hexit : strings.TrimSpace line ≠ str "exit") (hempty : strings.TrimSpace line ≠ str "")
    (hget : dict.Words.get (strings.TrimSpace line) = none) :
    findLoop dict (some line :: rest) =
      (findLoop dict rest).after
        ([Event.print (str "Enter word to translate: "),
            Event.scan Site.findWord (some line)] ++
          [Event.print (str "Word '" ++ strings.TrimSpace line ++
            str "' not found in dictionary\n")]) := by
  simp only [findLoop, if_neg hexit, if_neg hempty, Dictionary.GetTranslation, hget,
    Bool.false_eq_true, if_false]

/-- Induction over the rounds of the find loop: a property of the scanner and the
run holds of every run of the loop on the dictionary when it holds in each of
the five ways a round goes, given that it holds of the rounds after it. -/
theorem findLoop_induct (d : Dictionary) (P : bufio.Scanner → ModeRun → Prop)
    (hstop : ∀ s, (bufio.Scan s).1 = none →
      P s
        { trace := [Event.print (str "Enter word to translate: "),
            Event.scan Site.findWord none],
          dict := d, scanner := (bufio.Scan s).2, panicked := false })
    (hexit : ∀ line rest, strings.TrimSpace line = str "exit" →
      P (some line :: rest)
        { trace := [Event.print (str "Enter word to translate: "),
            Event.scan Site.findWord (some line)],
          dict := d, scanner := rest, panicked := false })
    (hempty : ∀ line rest, strings.TrimSpace line ≠ str "exit" →
      strings.TrimSpace line = str "" → P rest (findLoop d rest) →
      P (some line :: rest)
        ((findLoop d rest).after
          [Event.print (str "Enter word to translate: "),
            Event.scan Site.findWord (some line)]))
    (hfound : ∀ line rest translation, strings.TrimSpace line ≠ str "exit" →
      strings.TrimSpace line ≠ str "" →
      d.Words.get (strings.TrimSpace line) = some translation → P rest (findLoop d rest) →
      P (some line :: rest)
        ((findLoop d rest).after
          ([Event.print (str "Enter word to translate: "),
              Event.scan Site.findWord (some line)] ++
            [Event.print (str "Translation: " ++ strings.TrimSpace line ++ str " = " ++
              translation ++ str "\n")])))
    (hmiss : ∀ line rest, strings.TrimSpace line ≠ str "exit" →
      strings.TrimSpace line ≠ str "" →
      d.Words.get (strings.TrimSpace line) = none → P rest (findLoop d rest) →
      P (some line :: rest)
        ((findLoop d rest).after
          ([Event.print (str "Enter word to translate: "),
              Event.scan Site.findWord (some line)] ++
            [Event.print (str "Word '" ++ strings.TrimSpace line ++
              str "' not found in dictionary\n")]))) :
    ∀ scanner, P scanner (findLoop d scanner) := by
  intro scanner
  induction scanner with
  | nil =>
    rw [findLoop_stop d [] rfl]
    exact hstop [] rfl
  | cons token rest ih =>
    cases token with
    | none =>
      rw [findLoop_stop d (none :: rest) rfl]
      exact hstop (none :: rest) rfl
    | some line =>
      by_cases h1 : strings.TrimSpace line = str "exit"
      · rw [findLoop_exit d line rest h1]
        exact hexit line rest h1
      · by_cases h2 : strings.TrimSpace line = str ""
        · rw [findLoop_empty d line rest h1 h2]
          exact hempty line rest h1 h2 ih
        · cases h3 : d.Words.get (strings.TrimSpace line) with
          | none =>
            rw [findLoop_not_found d line rest h1 h2 h3]
            exact hmiss line rest h1 h2 h3 ih
          | some translation =>
            rw [findLoop_found d line rest translation h1 h2 h3]
            exact hfound line rest translation h1 h2 h3 ih

/-! ## The ways a round of the write loop goes -/

theorem writeLoop_stop (dict : Dictionary) (s : bufio.Scanner) (h : (bufio.Scan s).1 = none) :
    writeLoop dict s =
      { trace := [Event.print (str "Enter word: "), Event.scan Site.writeWord none],
        dict := dict, scanner := (bufio.Scan s).2, panicked := false } := by
  cases s with
  | nil => rfl
  | cons token rest =>
    cases token with
    | none => rfl
    | some line => simp [bufio.Scan] at h

theorem writeLoop_exit (dict : Dictionary) (line : GoString) (rest : bufio.Scanner)
    (hexit : strings.TrimSpace line = str "exit") :
    writeLoop dict (some line :: rest) =
      { trace := [Event.print (str "Enter word: "), Event.scan Site.writeWord (some line)],
        dict := dict, scanner := rest, panicked := false } := by
  rcases rest with _ | ⟨_ | _, _⟩ <;> simp only [writeLoop, if_pos hexit]

theorem writeLoop_empty (dict : Dictionary) (line : GoString) (rest : bufio.Scanner)
    (hexit : strings.TrimSpace line ≠ str "exit") (hempty : strings.TrimSpace line = str "") :
    writeLoop dict (some line :: rest) =
      (writeLoop dict rest).after
        [Event.print (str "Enter word: "), Event.scan Site.writeWord (some line)] := by
  rcases rest with _ | ⟨_ | _, _⟩ <;> simp only [writeLoop, if_neg hexit, if_pos hempty]

theorem writeLoop_eof (dict : Dictionary) (line : GoString) (s : bufio.Scanner)
    (hexit : strings.TrimSpace line ≠ str "exit") (hempty : strings.TrimSpace line ≠ str "")
    (h : (bufio.Scan s).1 = none) :
    writeLoop dict (some line :: s) =
      { trace := [Event.print (str "Enter word: "), Event.scan Site.writeWord (some line)] ++
          [Event.print (str "Enter translation: "), Event.scan Site.writeTranslation none],
        dict := dict, scanner := (bufio.Scan s).2, panicked := false } := by
  rcases s with _ | ⟨_ | _, _⟩
  · simp only [writeLoop, if_neg hexit, if_neg hempty, bufio.Scan]
  · simp only [writeLoop, if_neg hexit, if_neg hempty, bufio.Scan]
  · simp [bufio.Scan] at h

theorem writeLoop_no_translation (dict : Dictionary) (line line2 : GoString)
    (rest : bufio.Scanner)
    (hexit : strings.TrimSpace line ≠ str "exit") (hempty : strings.TrimSpace line ≠ str "")
    (htr : strings.TrimSpace line2 = str "") :
    writeLoop dict (some line :: some line2 :: rest) =
      (writeLoop dict rest).after
        ([Event.print (str "Enter word: "), Event.scan Site.writeWord (some line)] ++
          [Event.print (str "Enter translation: "),
            Event.scan Site.writeTranslation (some line2)] ++
          [Event.print (str "Translation cannot be empty\n")]) := by
  simp only [writeLoop, if_neg hexit, if_neg hempty, if_pos htr]

theorem writeLoop_panic (dict : Dictionary) (line line2 : GoString) (rest : bufio.Scanner)
    (hexit : strings.TrimSpace line ≠ str "exit") (hempty : strings.TrimSpace line ≠ str "")
    (htr : strings.TrimSpace line2 ≠ str "")
    (hadd : dict.AddWord (strings.TrimSpace line) (strings.TrimSpace line2) = none) :
    writeLoop dict (some line :: some line2 :: rest) =
      { trace := [Event.print (str "Enter word: "), Event.scan Site.writeWord (some line)] ++
          [Event.print (str "Enter translation: "),
            Event.scan Site.writeTranslation (some line2)] ++
          [Event.addWord (strings.TrimSpace line) (strings.TrimSpace line2)],
        dict := dict, scanner := rest, panicked := true } := by
  simp only [writeLoop, if_neg hexit, if_neg hempty, if_neg htr, hadd]

theorem writeLoop_add (dict dict' : Dictionary) (line line2 : GoString) (rest : bufio.Scanner)
    (hexit : strings.TrimSpace line ≠ str "exit") (hempty : strings.TrimSpace line ≠ str "")
    (htr : strings.TrimSpace line2 ≠ str "")
    (hadd : dict.AddWord (strings.TrimSpace line) (strings.TrimSpace line2) = some dict') :
    writeLoop dict (some line :: some line2 :: rest) =
      (writeLoop dict' rest).after
        ([Event.print (str "Enter word: "), Event.scan Site.writeWord (some line)] ++
          [Event.print (str "Enter translation: "),
            Event.scan Site.writeTranslation (some line2)] ++
          [Event.addWord (strings.TrimSpace line) (strings.TrimSpace line2),
            Event.print (str "Added: " ++ strings.TrimSpace line ++ str " = " ++
              strings.TrimSpace line2 ++ str "\n")]) := by
  simp only [writeLoop, if_neg hexit, if_neg hempty, if_neg htr, hadd]

/-- Induction over the rounds of the write loop: a property of the dictionary, the
scanner and the run holds of every run of the loop when it holds in each of the
seven ways a round goes, given that it holds of the rounds after it. -/
theorem writeLoop_induct (P : Dictionary → bufio.Scanner → ModeRun → Prop)
    (hstop : ∀ d s, (bufio.Scan s).1 = none →
      P d s
        { trace := [Event.print (str "Enter word: "), Event.scan Site.writeWord none],
          dict := d, scanner := (bufio.Scan s).2, panicked := false })
    (hexit : ∀ d line rest, strings.TrimSpace line = str "exit" →
      P d (some line :: rest)
        { trace := [Event.print (str "Enter word: "), Event.scan Site.writeWord (some line)],
          dict := d, scanner := rest, panicked := false })
    (hempty : ∀ d line rest, strings.TrimSpace line ≠ str "exit" →
      strings.TrimSpace line = str "" → P d rest (writeLoop d rest) →
      P d (some line :: rest)
        ((writeLoop d rest).after
          [Event.print (str "Enter word: "), Event.scan Site.writeWord (some line)]))
    (heof : ∀ d line s, strings.TrimSpace line ≠ str "exit" → strings.TrimSpace line ≠ str "" →
      (bufio.Scan s).1 = none →
      P d (some line :: s)
        { trace := [Event.print (str "Enter word: "), Event.scan Site.writeWord (some line)] ++
            [Event.print (str "Enter translation: "), Event.scan Site.writeTranslation none],
          dict := d, scanner := (bufio.Scan s).2, panicked := false })
    (hnone : ∀ d line line2 rest, strings.TrimSpace line ≠ str "exit" →
      strings.TrimSpace line ≠ str "" → strings.TrimSpace line2 = str "" →
      P d rest (writeLoop d rest) →
      P d (some line :: some line2 :: rest)
        ((writeLoop d rest).after
          ([Event.print (str "Enter word: "), Event.scan Site.writeWord (some line)] ++
            [Event.print (str "Enter translation: "),
              Event.scan Site.writeTranslation (some line2)] ++
            [Event.print (str "Translation cannot be empty\n")])))
    (hpanic : ∀ d line line2 rest, strings.TrimSpace line ≠ str "exit" →
      strings.TrimSpace line ≠ str "" → strings.TrimSpace line2 ≠ str "" →
      d.AddWord (strings.TrimSpace line) (strings.TrimSpace line2) = none →
      P d (some line :: some line2 :: rest)
        { trace := [Event.print (str "Enter word: "), Event.scan Site.writeWord (some line)] ++
            [Event.print (str "Enter translation: "),
              Event.scan Site.writeTranslation (some line2)] ++
            [Event.addWord (strings.TrimSpace line) (strings.TrimSpace line2)],
          dict := d, scanner := rest, panicked := true })
    (hadd : ∀ d d' line line2 rest, strings.TrimSpace line ≠ str "exit" →
      strings.TrimSpace line ≠ str "" → strings.TrimSpace line2 ≠ str "" →
      d.AddWord (strings.TrimSpace line) (strings.TrimSpace line2) = some d' →
      P d' rest (writeLoop d' rest) →
      P d (some line :: some line2 :: rest)
        ((writeLoop d' rest).after
          ([Event.print (str "Enter word: "), Event.scan Site.writeWord (some line)] ++
            [Event.print (str "Enter translation: "),
              Event.scan Site.writeTranslation (some line2)] ++
            [Event.addWord (strings.TrimSpace line) (strings.TrimSpace line2),
              Event.print (str "Added: " ++ strings.TrimSpace line ++ str " = " ++
                strings.TrimSpace line2 ++ str "\n")]))) :
    ∀ scanner d, P d scanner (writeLoop d scanner) := by
  have hmain : ∀ (n : Nat) (scanner : bufio.Scanner) (d : Dictionary), scanner.length ≤ n →
      P d scanner (writeLoop d scanner) := by
    intro n
    induction n with
    | zero =>
      intro scanner d h
      have : scanner = [] := List.length_eq_zero.mp (Nat.le_zero.mp h)
      subst this
      rw [writeLoop_stop d [] rfl]
      exact hstop d [] rfl
    | succ n ih =>
      intro scanner d h
      rcases scanner with _ | ⟨_ | line, rest⟩
      · exact ih [] d (Nat.zero_le _)
      · rw [writeLoop_stop d (none :: rest) rfl]
        exact hstop d (none :: rest) rfl
      · have hrest : rest.length ≤ n := by
          simp only [List.length_cons] at h
          omega
        by_cases h1 : strings.TrimSpace line = str "exit"
        · rw [writeLoop_exit d line rest h1]
          exact hexit d line rest h1
        · by_cases h2 : strings.TrimSpace line = str ""
          · rw [writeLoop_empty d line rest h1 h2]
            exact hempty d line rest h1 h2 (ih rest d hrest)
          · rcases rest with _ | ⟨_ | line2, rest2⟩
            · rw [writeLoop_eof d line [] h1 h2 rfl]
              exact heof d line [] h1 h2 rfl
            · rw [writeLoop_eof d line (none :: rest2) h1 h2 rfl]
              exact heof d line (none :: rest2) h1 h2 rfl
            · have hrest2 : rest2.length ≤ n := by
                simp only [List.length_cons] at hrest
                omega
              by_cases h3 : strings.TrimSpace line2 = str ""
              · rw [writeLoop_no_translation d line line2 rest2 h1 h2 h3]
                exact hnone d line line2 rest2 h1 h2 h3 (ih rest2 d hrest2)
              · cases h4 : d.AddWord (strings.TrimSpace line) (strings.TrimSpace line2) with
                | none =>
                  rw [writeLoop_panic d line line2 rest2 h1 h2 h3 h4]
                  exact hpanic d line line2 rest2 h1 h2 h3 h4
                | some d' =>
                  rw [writeLoop_add d d' line line2 rest2 h1 h2 h3 h4]
                  exact hadd d d' line line2 rest2 h1 h2 h3 h4 (ih rest2 d' hrest2)
  exact fun scanner d => hmain scanner.length scanner d (Nat.le_refl _)

/-! ## The two modes -/

theorem wellBehaved_after (m : ModeRun) (d : Dictionary) (events : List Event)
    (h : m.wellBehaved d) (hin : ∀ e ∈ events, e.inMode = true)
    (hadd : ∀ e ∈ events, e.isAddWord = false) (heof : ∀ e ∈ events, e.isEOF = false) :
    (m.after events).wellBehaved d := by
  obtain ⟨h1, h2, h3, h4, h5⟩ := h
  refine ⟨?_, h2, h3, ?_, ?_⟩
  · intro e he
    rcases List.mem_append.mp he with h | h
    · exact hin e h
    · exact h1 e h
  · intro hp w
    simp only [ModeRun.after, lastAdded_append, lastAdded_eq_none w events hadd]
    rw [h4 hp w]
    cases lastAdded w m.trace <;> rfl
  · intro s hs
    simp only [ModeRun.after, eventsAfter_append, eventsAfter_eq_nil _ events heof, List.map_nil,
      List.nil_append] at hs
    exact h5 s hs

theorem findLoop_wellBehaved (dict : Dictionary) :
    ∀ scanner : bufio.Scanner, (findLoop dict scanner).wellBehaved dict := by
  apply findLoop_induct dict (fun _ m => m.wellBehaved dict)
  · intro s _
    refine ⟨?_, rfl, rfl, ?_, ?_⟩
    · intro e he
      simp only [List.mem_cons, List.mem_singleton, List.not_mem_nil, or_false] at he
      rcases he with rfl | rfl <;> rfl
    · intro _ w
      simp [lastAdded, Option.or]
    · intro s hs
      simp [eventsAfter, Event.isEOF] at hs
      subst hs
      exact ⟨rfl, rfl⟩
  · intro line rest _
    refine ⟨?_, rfl, rfl, ?_, ?_⟩
    · intro e he
      simp only [List.mem_cons, List.mem_singleton, List.not_mem_nil, or_false] at he
      rcases he with rfl | rfl <;> rfl
    · intro _ w
      simp [lastAdded, Option.or]
    · intro s hs
      simp [eventsAfter, Event.isEOF] at hs
  · intro line rest _ _ ih
    apply wellBehaved_after _ _ _ ih <;>
    · intro e he
      simp only [List.mem_cons, List.mem_singleton, List.not_mem_nil, or_false] at he
      rcases he with rfl | rfl <;> rfl
  · intro line rest translation _ _ _ ih
    apply wellBehaved_after _ _ _ ih <;>
    · intro e he
      simp only [List.mem_append, List.mem_cons, List.mem_singleton, List.not_mem_nil,
        or_false] at he
      rcases he with (rfl | rfl) | rfl <;> rfl
  · intro line rest _ _ _ ih
    apply wellBehaved_after _ _ _ ih <;>
    · intro e he
      simp only [List.mem_append, List.mem_cons, List.mem_singleton, List.not_mem_nil,
        or_false] at he
      rcases he with (rfl | rfl) | rfl <;> rfl

theorem findLoop_dict (dict : Dictionary) :
    ∀ scanner : bufio.Scanner,
      (findLoop dict scanner).dict = dict ∧ (findLoop dict scanner).panicked = false := by
  apply findLoop_induct dict (fun _ m => m.dict = dict ∧ m.panicked = false)
  · intro s _
    exact ⟨rfl, rfl⟩
  · intro line rest _
    exact ⟨rfl, rfl⟩
  · intro line rest _ _ ih
    exact ih
  · intro line rest translation _ _ _ ih
    exact ih
  · intro line rest _ _ _ ih
    exact ih

theorem AddWord_some (d d' : Dictionary) (word translation : GoString)
    (h : d.AddWord word translation = some d') :
    d'.From = d.From ∧ d'.To = d.To ∧
      ∀ w, d'.Words.get w = if word = w then some translation else d.Words.get w := by
  obtain ⟨f, t, m⟩ := d
  cases m with
  | none => simp [Dictionary.AddWord, GoMap.set] at h
  | some a =>
    simp only [Dictionary.AddWord, GoMap.set, Option.map_some', Option.some.injEq] at h
    subst h
    refine ⟨rfl, rfl, ?_⟩
    intro w
    by_cases hw : word = w
    · subst hw
      simp [GoMap.get, AList.lookup_insert]
    · simp [GoMap.get, hw, AList.lookup_insert_ne (Ne.symm hw)]

theorem writeLoop_wellBehaved :
    ∀ (scanner : bufio.Scanner) (dict : Dictionary), (writeLoop dict scanner).wellBehaved dict := by
  apply writeLoop_induct (fun d _ m => m.wellBehaved d)
  · intro d s _
    refine ⟨?_, rfl, rfl, ?_, ?_⟩
    · intro e he
      simp only [List.mem_cons, List.mem_singleton, List.not_mem_nil, or_false] at he
      rcases he with rfl | rfl <;> rfl
    · intro _ w
      simp [lastAdded, Option.or]
    · intro s hs
      simp [eventsAfter, Event.isEOF] at hs
      subst hs
      exact ⟨rfl, rfl⟩
  · intro d line rest _
    refine ⟨?_, rfl, rfl, ?_, ?_⟩
    · intro e he
      simp only [List.mem_cons, List.mem_singleton, List.not_mem_nil, or_false] at he
      rcases he with rfl | rfl <;> rfl
    · intro _ w
      simp [lastAdded, Option.or]
    · intro s hs
      simp [eventsAfter, Event.isEOF] at hs
  · intro d line rest _ _ ih
    apply wellBehaved_after _ _ _ ih <;>
    · intro e he
      simp only [List.mem_cons, List.mem_singleton, List.not_mem_nil, or_false] at he
      rcases he with rfl | rfl <;> rfl
  · intro d line s _ _ _
    refine ⟨?_, rfl, rfl, ?_, ?_⟩
    · intro e he
      simp only [List.mem_append, List.mem_cons, List.mem_singleton, List.not_mem_nil,
        or_false] at he
      rcases he with (rfl | rfl) | (rfl | rfl) <;> rfl
    · intro _ w
      simp [lastAdded, Option.or]
    · intro s hs
      simp [eventsAfter, Event.isEOF] at hs
      subst hs
      exact ⟨rfl, rfl⟩
  · intro d line line2 rest _ _ _ ih
    apply wellBehaved_after _ _ _ ih <;>
    · intro e he
      simp only [List.mem_append, List.mem_cons, List.mem_singleton,
        List.not_mem_nil, or_false] at he
      rcases he with ((rfl | rfl) | (rfl | rfl)) | rfl <;> rfl
  · intro d line line2 rest _ _ _ _
    refine ⟨?_, rfl, rfl, ?_, ?_⟩
    · intro e he
      simp only [List.mem_append, List.mem_cons, List.mem_singleton,
        List.not_mem_nil, or_false] at he
      rcases he with ((rfl | rfl) | (rfl | rfl)) | rfl <;> rfl
    · intro hp
      exact absurd hp (by simp)
    · intro s hs
      simp [eventsAfter, Event.isEOF] at hs
  · intro d dict' line line2 rest2 _ _ _ hadd ih
    obtain ⟨hf, ht, hw⟩ := AddWord_some _ _ _ _ hadd
    obtain ⟨h1, h2, h3, h4, h5⟩ := ih
    refine ⟨?_, h2.trans hf, h3.trans ht, ?_, ?_⟩
    · intro e he
      simp only [ModeRun.after, List.mem_append, List.mem_cons, List.mem_singleton,
        List.not_mem_nil, or_false] at he
      rcases he with (((rfl | rfl) | (rfl | rfl)) | (rfl | rfl)) | he
      · rfl
      · rfl
      · rfl
      · rfl
      · rfl
      · rfl
      · exact h1 e he
    · intro hp w
      simp only [ModeRun.after] at hp ⊢
      rw [h4 hp w, hw w, lastAdded_append]
      simp only [List.append_assoc, List.cons_append, List.nil_append, lastAdded]
      cases lastAdded w (writeLoop dict' rest2).trace <;>
        by_cases hww : strings.TrimSpace line = w <;> simp [Option.or, hww]
    · intro s hs
      simp only [ModeRun.after, eventsAfter_append] at hs
      simp [eventsAfter, Event.isEOF] at hs
      exact h5 s hs

theorem findMode_wellBehaved (dict : Dictionary) (scanner : bufio.Scanner) :
    (findMode dict scanner).wellBehaved dict := by
  apply wellBehaved_after _ _ _ (findLoop_wellBehaved dict scanner) <;>
  · intro e he
    simp only [List.mem_cons, List.mem_singleton, List.not_mem_nil, or_false] at he
    rcases he with rfl | rfl <;> rfl

theorem writeMode_wellBehaved (dict : Dictionary) (scanner : bufio.Scanner) :
    (writeMode dict scanner).wellBehaved dict := by
  apply wellBehaved_after _ _ _ (writeLoop_wellBehaved scanner dict) <;>
  · intro e he
    simp only [List.mem_cons, List.mem_singleton, List.not_mem_nil, or_false] at he
    rcases he with rfl | rfl <;> rfl

theorem saveAndReport_eq (dictionaries : Dictionaries) (fs : FileSys) :
    saveAndReport dictionaries fs =
      ([Event.save filename dictionaries (dictionaries.SaveToJson filename fs).2,
        report (dictionaries.SaveToJson filename fs).2],
        (dictionaries.SaveToJson filename fs).1) := by
  unfold saveAndReport
  split <;> rename_i h <;> simp [h, report]

/-- The cases of a round of the main loop: a property of the collection and the
dictionary at the start of a round and of the run from there holds of the
main loop when it holds in each of the eight ways a round can go. -/
theorem mainLoop_cases (dictKey : GoString) (P : Dictionaries → Dictionary → Run → Prop)
    (hrunning : ∀ D d fs, P D d { trace := [], fs := fs, status := Status.running })
    (hmode : ∀ D d fs mode,
      P D d { trace := Event.print (str "Unknown mode '" ++ mode ++ str "'\n") :: printUsage,
              fs := fs, status := Status.exited })
    (hpanic : ∀ D d fs (m : ModeRun), m.wellBehaved d → m.panicked = true →
      P D d { trace := m.trace, fs := fs, status := Status.panicked })
    (heof : ∀ D d fs (m : ModeRun), m.wellBehaved d → m.panicked = false →
      P D d ((finalSave (D.store dictKey m.dict) fs).after
        (m.trace ++ [savePrompt, Event.scan Site.saveChoice none])))
    (hquit : ∀ D d fs (m : ModeRun) (line : GoString), m.wellBehaved d → m.panicked = false →
      strings.ToLower (strings.TrimSpace line) = str "q" →
      P D d ((finalSave (D.store dictKey m.dict) fs).after
        (m.trace ++ [savePrompt, Event.scan Site.saveChoice (some line)])))
    (heof2 : ∀ D d fs (m : ModeRun) (line : GoString), m.wellBehaved d →
      m.panicked = false →
      strings.ToLower (strings.TrimSpace line) ≠ str "q" →
      P D d ((finalSave (D.store dictKey m.dict)
          (saveIfYes (strings.ToLower (strings.TrimSpace line))
            (D.store dictKey m.dict) fs).2).after
        (roundEvents m line (D.store dictKey m.dict) fs ++
          [switchPrompt, Event.scan Site.newMode none])))
    (hexit : ∀ D d fs (m : ModeRun) (line line2 : GoString), m.wellBehaved d →
      m.panicked = false →
      strings.ToLower (strings.TrimSpace line) ≠ str "q" →
      strings.TrimSpace line2 = str "exit" →
      P D d { trace := roundEvents m line (D.store dictKey m.dict) fs ++
                [switchPrompt, Event.scan Site.newMode (some line2)],
              fs := (saveIfYes (strings.ToLower (strings.TrimSpace line))
                (D.store dictKey m.dict) fs).2,
              status := Status.exited })
    (hnext : ∀ D d fs (m : ModeRun) (line line2 : GoString) (extra : List Event) (r : Run),
      m.wellBehaved d → m.panicked = false →
      strings.ToLower (strings.TrimSpace line) ≠ str "q" →
      strings.TrimSpace line2 ≠ str "exit" →
      (∀ e ∈ extra, ∃ text, e = Event.print text) →
      P (D.store dictKey m.dict) m.dict r →
      P D d (r.after (roundEvents m line (D.store dictKey m.dict) fs ++
        [switchPrompt, Event.scan Site.newMode (some line2)] ++ extra))) :
    ∀ (fuel : Nat) (mode : GoString) (D : Dictionaries) (d : Dictionary)
      (scanner : bufio.Scanner) (fs : FileSys),
      P D d (mainLoop fuel mode dictKey D d scanner fs) := by
  intro fuel
  induction fuel with
  | zero => intro mode D d scanner fs; exact hrunning D d fs
  | succ n ih =>
    intro mode D d scanner fs
    simp only [mainLoop]
    split
    · have hwb : (if mode = str "-find" then findMode d scanner
          else writeMode d scanner).wellBehaved d := by
        split
        · exact findMode_wellBehaved d scanner
        · exact writeMode_wellBehaved d scanner
      generalize (if mode = str "-find" then findMode d scanner else writeMode d scanner) = m
        at hwb ⊢
      split
      · rename_i hp
        exact hpanic D d fs m hwb hp
      · rename_i hp
        have hp : m.panicked = false := by simpa using hp
        split
        · exact heof D d fs m hwb hp
        · rename_i line sc hsc
          split
          · rename_i hq
            exact hquit D d fs m line hwb hp hq
          · rename_i hq
            split
            · exact heof2 D d fs m line hwb hp hq
            · rename_i line2 sc2 hsc2
              split
              · rename_i h1
                have hx : strings.TrimSpace line2 ≠ str "exit" := by rw [h1]; decide
                have := hnext D d fs m line line2 [] _ hwb hp hq hx
                  (fun e he => absurd he (List.not_mem_nil e))
                  (ih (str "-find") (D.store dictKey m.dict) m.dict sc2
                    (saveIfYes (strings.ToLower (strings.TrimSpace line))
                      (D.store dictKey m.dict) fs).2)
                rw [List.append_nil] at this
                exact this
              · split
                · rename_i h1 h2
                  have hx : strings.TrimSpace line2 ≠ str "exit" := by rw [h2]; decide
                  have := hnext D d fs m line line2 [] _ hwb hp hq hx
                    (fun e he => absurd he (List.not_mem_nil e))
                    (ih (str "-write") (D.store dictKey m.dict) m.dict sc2
                      (saveIfYes (strings.ToLower (strings.TrimSpace line))
                        (D.store dictKey m.dict) fs).2)
                  rw [List.append_nil] at this
                  exact this
                · split
                  · rename_i h1 h2 h3
                    exact hexit D d fs m line line2 hwb hp hq h3
                  · rename_i h1 h2 h3
                    exact hnext D d fs m line line2
                      [Event.print (str "Unknown mode '" ++ strings.TrimSpace line2 ++
                        str "', keeping current mode\n")] _ hwb hp hq h3
                      (fun e he => ⟨_, List.mem_singleton.mp he⟩)
                      (ih mode (D.store dictKey m.dict) m.dict sc2
                        (saveIfYes (strings.ToLower (strings.TrimSpace line))
                          (D.store dictKey m.dict) fs).2)
    · exact hmode D d fs mode

/-! ## The collection in memory -/

theorem kreplace_cons_eq {V : Type} (a : GoString) (b : V)
    (s : Sigma (fun _ : GoString => V)) (t : List (Sigma (fun _ : GoString => V)))
    (h : a = s.1) : List.kreplace a b (s :: t) = ⟨a, b⟩ :: t := by
  unfold List.kreplace
  rw [List.lookmap_cons_some]
  simp [h]

theorem kreplace_cons_ne {V : Type} (a : GoString) (b : V)
    (s : Sigma (fun _ : GoString => V)) (t : List (Sigma (fun _ : GoString => V)))
    (h : a ≠ s.1) : List.kreplace a b (s :: t) = s :: List.kreplace a b t := by
  unfold List.kreplace
  rw [List.lookmap_cons_none]
  simp [h]

theorem kreplace_kreplace {V : Type} (a : GoString) (b b' : V) :
    ∀ l : List (Sigma (fun _ : GoString => V)),
      List.kreplace a b' (List.kreplace a b l) = List.kreplace a b' l := by
  intro l
  induction l with
  | nil => rfl
  | cons s t ih =>
    by_cases h : a = s.1
    · rw [kreplace_cons_eq a b s t h, kreplace_cons_eq a b' s t h,
        kreplace_cons_eq a b' ⟨a, b⟩ t rfl]
    · rw [kreplace_cons_ne a b s t h, kreplace_cons_ne a b' s t h,
        kreplace_cons_ne a b' s _ h, ih]

theorem store_store (D : Dictionaries) (k : GoString) (d1 d2 : Dictionary) :
    (D.store k d1).store k d2 = D.store k d2 := by
  obtain ⟨m⟩ := D
  cases m with
  | none => rfl
  | some a =>
    simp only [Dictionaries.store, Option.map_some', Dictionaries.mk.injEq, Option.some.injEq]
    apply AList.ext
    exact kreplace_kreplace k (some d1) (some d2) a.entries

theorem dlookup_kreplace_self {V : Type} (a : GoString) (b : V) :
    ∀ l : List (Sigma (fun _ : GoString => V)), a ∈ l.keys →
      List.dlookup a (List.kreplace a b l) = some b := by
  intro l
  induction l with
  | nil => intro h; simp at h
  | cons s t ih =>
    intro h
    by_cases hs : a = s.1
    · rw [kreplace_cons_eq a b s t hs, List.dlookup_cons_eq]
    · rw [kreplace_cons_ne a b s t hs]
      obtain ⟨k, v⟩ := s
      rw [List.dlookup_cons_ne _ _ hs]
      apply ih
      simp only [List.keys_cons, List.mem_cons] at h
      rcases h with h | h
      · exact absurd h hs
      · exact h

theorem dlookup_kreplace_ne {V : Type} (a a' : GoString) (b : V) (h : a' ≠ a) :
    ∀ l : List (Sigma (fun _ : GoString => V)),
      List.dlookup a' (List.kreplace a b l) = List.dlookup a' l := by
  intro l
  induction l with
  | nil => rfl
  | cons s t ih =>
    obtain ⟨k, v⟩ := s
    by_cases hs : a = k
    · subst hs
      rw [kreplace_cons_eq a b ⟨a, v⟩ t rfl, List.dlookup_cons_ne _ _ h,
        List.dlookup_cons_ne _ _ h]
    · rw [kreplace_cons_ne a b ⟨k, v⟩ t hs]
      by_cases hk : a' = k
      · subst hk
        rw [List.dlookup_cons_eq, List.dlookup_cons_eq]
      · rw [List.dlookup_cons_ne _ _ hk, List.dlookup_cons_ne _ _ hk, ih]

/-- The collection after a store holds the stored dictionary under the key, when
the key had a dictionary. -/
theorem store_get_self (D : Dictionaries) (k : GoString) (d0 d : Dictionary)
    (h : D.GetDictionary k = some d0) : (D.store k d).GetDictionary k = some d := by
  obtain ⟨m⟩ := D
  cases m with
  | none => simp [Dictionaries.GetDictionary, GoMap.get] at h
  | some a =>
    have hmem : k ∈ a.entries.keys := by
      have : a.lookup k ≠ none := by
        intro hn
        simp [Dictionaries.GetDictionary, GoMap.get, hn] at h
      exact AList.mem_keys.mp (by rwa [Ne, AList.lookup_eq_none, not_not] at this)
    simp only [Dictionaries.GetDictionary, Dictionaries.store, Option.map_some', GoMap.get,
      AList.lookup, AList.replace, dlookup_kreplace_self k (some d) a.entries hmem]
    rfl

/-- A store leaves every other key of the collection as it is. -/
theorem store_get_other (D : Dictionaries) (k k' : GoString) (d : Dictionary) (h : k' ≠ k) :
    (D.store k d).Dicts.get k' = D.Dicts.get k' := by
  obtain ⟨m⟩ := D
  cases m with
  | none => rfl
  | some a =>
    simp only [Dictionaries.store, Option.map_some', GoMap.get, AList.lookup, AList.replace,
      dlookup_kreplace_ne k k' (some d) h a.entries]

/-! ## Leaving the loop by `break` -/

theorem inMode_flags (e : Event) (h : e.inMode = true) :
    e.isQuit = false ∧ e.isSwitch = false ∧ e.isSave = false ∧ e.isExit = false ∧
      e.isYes = false ∧ e.isBreak = false := by
  cases e with
  | scan site line => cases site <;> cases line <;> simp_all [Event.inMode, Event.isQuit,
      Event.isSwitch, Event.isSave, Event.isExit, Event.isYes, Event.isBreak]
  | _ => simp_all [Event.inMode, Event.isQuit, Event.isSwitch, Event.isSave, Event.isExit,
      Event.isYes, Event.isBreak]

/-- No event of a mode leaves the loop of `main`. -/
theorem mode_no_break (m : ModeRun) (d : Dictionary) (h : m.wellBehaved d) :
    ∀ e ∈ m.trace, e.isBreak = false :=
  fun e he => (inMode_flags e (h.1 e he)).2.2.2.2.2

theorem saveIfYes_events (choice : GoString) (D : Dictionaries) (fs : FileSys) :
    ∀ e ∈ (saveIfYes choice D fs).1,
      e.isBreak = false ∧ e.isAddWord = false ∧ e.isSwitch = false ∧ e.isExit = false := by
  intro e he
  unfold saveIfYes at he
  split at he
  · rw [saveAndReport_eq] at he
    simp only [List.mem_cons, List.mem_singleton, List.not_mem_nil, or_false] at he
    rcases he with rfl | rfl
    · exact ⟨rfl, rfl, rfl, rfl⟩
    · unfold report
      split <;> exact ⟨rfl, rfl, rfl, rfl⟩
  · exact absurd he (List.not_mem_nil e)

theorem finalSave_eq (D : Dictionaries) (fs : FileSys) :
    finalSave D fs =
      { trace := [Event.save filename D (D.SaveToJson filename fs).2,
          report (D.SaveToJson filename fs).2],
        fs := (D.SaveToJson filename fs).1, status := Status.exited } := by
  simp only [finalSave, saveAndReport_eq]

theorem report_flags (err : Option Error) :
    (report err).isBreak = false ∧ (report err).isAddWord = false ∧
      (report err).isSwitch = false ∧ (report err).isExit = false ∧
      (report err).isSave = false := by
  unfold report
  split <;> exact ⟨rfl, rfl, rfl, rfl, rfl⟩

/-- A final save after a mode and the events `answer` of the prompts, the last of
which leaves the loop. -/
theorem finalSave_breaks (dictKey : GoString) (D : Dictionaries) (d : Dictionary) (fs : FileSys)
    (m : ModeRun) (answer : List Event) (hwb : m.wellBehaved d) (hp : m.panicked = false)
    (hadd : ∀ e ∈ answer, e.isAddWord = false)
    (hbreaks : ∀ s ∈ eventsAfter Event.isBreak (m.trace ++ answer), s.2 = []) :
    ((finalSave (D.store dictKey m.dict) fs).after (m.trace ++ answer)).breaksIntoFinalSave
      dictKey D d := by
  intro s hs
  rw [finalSave_eq] at hs ⊢
  refine ⟨rfl, ?_⟩
  simp only [Run.after, eventsAfter_append] at hs
  have hnil : eventsAfter Event.isBreak
      [Event.save filename (D.store dictKey m.dict)
          ((D.store dictKey m.dict).SaveToJson filename fs).2,
        report ((D.store dictKey m.dict).SaveToJson filename fs).2] = [] := by
    apply eventsAfter_eq_nil
    intro e he
    simp only [List.mem_cons, List.mem_singleton, List.not_mem_nil, or_false] at he
    rcases he with rfl | rfl
    · rfl
    · exact (report_flags _).1
  rw [hnil, List.append_nil, ← eventsAfter_append] at hs
  obtain ⟨s0, hs0, rfl⟩ := List.mem_map.mp hs
  refine ⟨m.dict, ((D.store dictKey m.dict).SaveToJson filename fs).2, ?_, hwb.2.1, hwb.2.2.1,
    ?_⟩
  · simp only [hbreaks s0 hs0, List.nil_append]
  intro w
  have hl : lastAdded w (m.trace ++ answer ++
      [Event.save filename (D.store dictKey m.dict)
          ((D.store dictKey m.dict).SaveToJson filename fs).2,
        report ((D.store dictKey m.dict).SaveToJson filename fs).2]) = lastAdded w m.trace := by
    rw [List.append_assoc, lastAdded_append, lastAdded_eq_none w (answer ++ _)]
    · rfl
    · intro e he
      rcases List.mem_append.mp he with h | h
      · exact hadd e h
      · simp only [List.mem_cons, List.mem_singleton, List.not_mem_nil, or_false] at h
        rcases h with rfl | rfl
        · rfl
        · exact (report_flags _).2.1
  simp only [Run.after]
  rw [hl]
  exact hwb.2.2.2.1 hp w

theorem round_flags (m : ModeRun) (d : Dictionary) (line : GoString) (D : Dictionaries)
    (fs : FileSys) (hwb : m.wellBehaved d)
    (hq : strings.ToLower (strings.TrimSpace line) ≠ str "q") :
    ∀ e ∈ roundEvents m line D fs ++ [switchPrompt], e.isBreak = false := by
  intro e he
  simp only [roundEvents, List.mem_append, List.mem_cons, List.mem_singleton, List.not_mem_nil,
    or_false] at he
  rcases he with ((he | rfl | rfl) | he) | rfl
  · exact mode_no_break m d hwb e he
  · rfl
  · simp [Event.isBreak, Event.isQuit, hq]
  · exact (saveIfYes_events _ _ _ e he).1
  · rfl

theorem round_lastAdded (m : ModeRun) (line : GoString) (D : Dictionaries) (fs : FileSys)
    (w : GoString) (tail : List Event) (htail : ∀ e ∈ tail, e.isAddWord = false) :
    lastAdded w (roundEvents m line D fs ++ tail) = lastAdded w m.trace := by
  simp only [roundEvents, List.append_assoc]
  rw [lastAdded_append, lastAdded_eq_none w]
  · rfl
  · intro e he
    simp only [List.mem_append, List.mem_cons, List.mem_singleton, List.not_mem_nil,
      or_false] at he
    rcases he with (rfl | rfl) | he | he
    · rfl
    · rfl
    · exact (saveIfYes_events _ _ _ e he).2.1
    · exact htail e he

/-- The main loop leads every `break` to the final save of the collection in
memory. -/
theorem mainLoop_breaks (dictKey : GoString) :
    ∀ (fuel : Nat) (mode : GoString) (D : Dictionaries) (d : Dictionary)
      (scanner : bufio.Scanner) (fs : FileSys),
      (mainLoop fuel mode dictKey D d scanner fs).breaksIntoFinalSave dictKey D d := by
  apply mainLoop_cases dictKey (fun D d r => r.breaksIntoFinalSave dictKey D d)
  · intro D d fs s hs
    simp [eventsAfter] at hs
  · intro D d fs mode s hs
    simp [eventsAfter, printUsage, Event.isBreak, Event.isQuit] at hs
  · intro D d fs m hwb hp s hs
    simp only at hs
    rw [eventsAfter_eq_nil _ m.trace (mode_no_break m d hwb)] at hs
    exact absurd hs (List.not_mem_nil s)
  · intro D d fs m hwb hp
    apply finalSave_breaks dictKey D d fs m _ hwb hp
    · intro e he
      simp only [List.mem_cons, List.mem_singleton, List.not_mem_nil, or_false] at he
      rcases he with rfl | rfl <;> rfl
    · intro s hs
      rw [eventsAfter_append, eventsAfter_eq_nil _ m.trace (mode_no_break m d hwb)] at hs
      simp [eventsAfter, savePrompt, Event.isBreak, Event.isQuit] at hs
      rw [hs]
  · intro D d fs m line hwb hp hq
    apply finalSave_breaks dictKey D d fs m _ hwb hp
    · intro e he
      simp only [List.mem_cons, List.mem_singleton, List.not_mem_nil, or_false] at he
      rcases he with rfl | rfl <;> rfl
    · intro s hs
      rw [eventsAfter_append, eventsAfter_eq_nil _ m.trace (mode_no_break m d hwb)] at hs
      simp [eventsAfter, savePrompt, Event.isBreak, Event.isQuit, hq] at hs
      rw [hs]
  · intro D d fs m line hwb hp hq
    have hround := round_flags m d line (D.store dictKey m.dict) fs hwb hq
    have := finalSave_breaks dictKey D d
      (saveIfYes (strings.ToLower (strings.TrimSpace line)) (D.store dictKey m.dict) fs).2 m
      ([savePrompt, Event.scan Site.saveChoice (some line)] ++
        (saveIfYes (strings.ToLower (strings.TrimSpace line)) (D.store dictKey m.dict) fs).1 ++
        [switchPrompt, Event.scan Site.newMode none]) hwb hp ?_ ?_
    · simpa only [roundEvents, List.append_assoc] using this
    · intro e he
      simp only [List.mem_append, List.mem_cons, List.mem_singleton, List.not_mem_nil,
        or_false] at he
      rcases he with ((rfl | rfl) | he) | rfl | rfl
      · rfl
      · rfl
      · exact (saveIfYes_events _ _ _ e he).2.1
      · rfl
      · rfl
    · intro s hs
      have heq : m.trace ++ ([savePrompt, Event.scan Site.saveChoice (some line)] ++
          (saveIfYes (strings.ToLower (strings.TrimSpace line))
            (D.store dictKey m.dict) fs).1 ++
          [switchPrompt, Event.scan Site.newMode none]) =
          (roundEvents m line (D.store dictKey m.dict) fs ++ [switchPrompt]) ++
            [Event.scan Site.newMode none] := by
        simp only [roundEvents, List.append_assoc, List.cons_append, List.nil_append]
      rw [heq, eventsAfter_append, eventsAfter_eq_nil _ _ hround] at hs
      simp [eventsAfter, Event.isBreak] at hs
      rw [hs]
  · intro D d fs m line line2 hwb hp hq hexit s hs
    have hround := round_flags m d line (D.store dictKey m.dict) fs hwb hq
    have heq : roundEvents m line (D.store dictKey m.dict) fs ++
        [switchPrompt, Event.scan Site.newMode (some line2)] =
        (roundEvents m line (D.store dictKey m.dict) fs ++ [switchPrompt]) ++
          [Event.scan Site.newMode (some line2)] := by
      simp only [List.append_assoc, List.cons_append, List.nil_append]
    simp only at hs
    rw [heq, eventsAfter_append, eventsAfter_eq_nil _ _ hround] at hs
    simp [eventsAfter, Event.isBreak, Event.isQuit] at hs
  · intro D d fs m line line2 extra r hwb hp hq hexit hextra ih s hs
    have hround := round_flags m d line (D.store dictKey m.dict) fs hwb hq
    have heq : roundEvents m line (D.store dictKey m.dict) fs ++
        [switchPrompt, Event.scan Site.newMode (some line2)] ++ extra =
        (roundEvents m line (D.store dictKey m.dict) fs ++ [switchPrompt]) ++
          (Event.scan Site.newMode (some line2) :: extra) := by
      simp only [List.append_assoc, List.cons_append, List.nil_append]
    have htail : ∀ e ∈ Event.scan Site.newMode (some line2) :: extra,
        e.isBreak = false ∧ e.isAddWord = false := by
      intro e he
      rcases List.mem_cons.mp he with rfl | he
      · exact ⟨rfl, rfl⟩
      · obtain ⟨text, rfl⟩ := hextra e he
        exact ⟨rfl, rfl⟩
    simp only [Run.after] at hs ⊢
    rw [heq, eventsAfter_append, eventsAfter_append, eventsAfter_eq_nil _ _ hround,
      eventsAfter_eq_nil _ _ (fun e he => (htail e he).1)] at hs
    simp only [List.map_nil, List.nil_append] at hs
    obtain ⟨hst, dict', err, h1, h3, h4, h5⟩ := ih s hs
    refine ⟨hst, dict', err, ?_, h3.trans hwb.2.1, h4.trans hwb.2.2.1, ?_⟩
    · rw [h1, store_store]
    · intro w
      rw [h5 w, hwb.2.2.2.1 hp w, heq, lastAdded_append]
      have hl : lastAdded w ((roundEvents m line (D.store dictKey m.dict) fs ++ [switchPrompt]) ++
          (Event.scan Site.newMode (some line2) :: extra)) = lastAdded w m.trace := by
        rw [List.append_assoc]
        apply round_lastAdded
        intro e he
        rcases List.mem_append.mp he with h | h
        · rw [List.mem_singleton.mp h]; rfl
        · exact (htail e h).2
      rw [hl, Option.or_assoc]

/-! ## From the loop to `main` -/

theorem loadOrSeed_events (fs : FileSys) : ∀ e ∈ (loadOrSeed fs).2, e.atStart = true := by
  intro e he
  unfold loadOrSeed at he
  split at he
  · simp only [List.mem_singleton] at he
    subst he
    rfl
  · simp only [List.mem_cons, List.mem_singleton, List.not_mem_nil, or_false] at he
    rcases he with rfl | rfl <;> rfl

theorem atStart_flags (e : Event) (h : e.atStart = true) :
    e.isBreak = false ∧ e.isAddWord = false ∧ e.isSwitch = false ∧ e.isExit = false ∧
      e.isSave = false ∧ e.isYes = false := by
  cases e <;> simp_all [Event.atStart, Event.isBreak, Event.isEOF, Event.isQuit,
    Event.isAddWord, Event.isSwitch, Event.isExit, Event.isSave, Event.isYes]

theorem listDictionaries_events :
    ∀ (entries : List (GoString × Option Dictionary)),
      ∀ e ∈ (listDictionaries entries).1, e.atStart = true := by
  intro entries
  induction entries with
  | nil => intro e he; simp [listDictionaries] at he
  | cons x t ih =>
    obtain ⟨key, p⟩ := x
    cases p with
    | none => intro e he; simp [listDictionaries] at he
    | some d =>
      intro e he
      simp only [listDictionaries, List.mem_cons] at he
      rcases he with rfl | he
      · rfl
      · exact ih e he

/-- A run of `main` is made of events of the start only, or it is the events of
the load followed by the main loop on the collection `main` starts with and
the dictionary under the key. -/
theorem main_cases (osArgs stdin : List GoString) (fs : FileSys) :
    (∀ e ∈ (main osArgs stdin fs).trace, e.atStart = true) ∨
    ∃ program dictKey mode dictionaries dict, osArgs = [program, dictKey, mode] ∧
      (loadOrSeed fs).1 = some dictionaries ∧
      dictionaries.GetDictionary dictKey = some dict ∧
      main osArgs stdin fs =
        (mainLoop ((bufio.NewScanner stdin).length + 1) mode dictKey dictionaries dict
          (bufio.NewScanner stdin) fs).after (loadOrSeed fs).2 := by
  unfold main
  split
  · rename_i program dictKey mode
    simp only
    cases hstart : (loadOrSeed fs).1 with
    | none =>
      left
      exact loadOrSeed_events fs
    | some dictionaries =>
      simp only
      cases hkey : dictionaries.GetDictionary dictKey with
      | none =>
        left
        intro e he
        simp only [List.mem_append, List.mem_cons, List.mem_singleton, List.not_mem_nil,
          or_false] at he
        rcases he with (he | rfl | rfl) | he
        · exact loadOrSeed_events fs e he
        · rfl
        · rfl
        · exact listDictionaries_events _ e he
      | some dict =>
        right
        exact ⟨program, dictKey, mode, dictionaries, dict, rfl, rfl, hkey, rfl⟩
  · left
    intro e he
    simp only [printUsage, List.mem_cons, List.mem_singleton, List.not_mem_nil, or_false] at he
    rcases he with rfl | rfl | rfl | rfl <;> rfl

theorem main_eq_loop (program dictKey mode : GoString) (stdin : List GoString) (fs : FileSys)
    (dictionaries : Dictionaries) (dict : Dictionary)
    (hstart : (loadOrSeed fs).1 = some dictionaries)
    (hkey : dictionaries.GetDictionary dictKey = some dict) :
    main [program, dictKey, mode] stdin fs =
      (mainLoop ((bufio.NewScanner stdin).length + 1) mode dictKey dictionaries dict
        (bufio.NewScanner stdin) fs).after (loadOrSeed fs).2 := by
  simp only [main, hstart, hkey]

theorem main_breaks (program dictKey mode : GoString) (stdin : List GoString) (fs : FileSys)
    (dictionaries : Dictionaries) (dict : Dictionary)
    (hstart : (loadOrSeed fs).1 = some dictionaries)
    (hkey : dictionaries.GetDictionary dictKey = some dict) :
    (main [program, dictKey, mode] stdin fs).breaksIntoFinalSave dictKey dictionaries dict := by
  rw [main_eq_loop program dictKey mode stdin fs dictionaries dict hstart hkey]
  intro s hs
  have hload := loadOrSeed_events fs
  simp only [Run.after] at hs ⊢
  rw [eventsAfter_append,
    eventsAfter_eq_nil _ _ (fun e he => (atStart_flags e (hload e he)).1)] at hs
  simp only [List.map_nil, List.nil_append] at hs
  obtain ⟨h1, dict', err, h2, h4, h5, h6⟩ :=
    mainLoop_breaks dictKey _ mode dictionaries dict (bufio.NewScanner stdin) fs s hs
  refine ⟨h1, dict', err, h2, h4, h5, ?_⟩
  intro w
  rw [h6 w, lastAdded_append,
    lastAdded_eq_none w _ (fun e he => (atStart_flags e (hload e he)).2.1)]
  cases lastAdded w (mainLoop ((bufio.NewScanner stdin).length + 1) mode dictKey dictionaries dict
    (bufio.NewScanner stdin) fs).trace <;> rfl

/-! ## C5 and C6: the final save -/

/-- Where the answer `q` leads.  In a session with two arguments and a key that
has a dictionary, when a prompt "Save changes and continue?" is answered `q`
(in either case, after trimming), the loop is left and the run goes on with
exactly one call of `SaveToJson`, the final save, and its message, and
returns.  The collection saved is the one in memory: the collection `main`
started with, with the words of the dictionary under the key overwritten by
the calls of `AddWord` of the session. -/
theorem quit_leads_to_final_save (program dictKey mode : GoString) (stdin : List GoString)
    (fs : FileSys) (dictionaries : Dictionaries) (dict : Dictionary)
    (hstart : (loadOrSeed fs).1 = some dictionaries)
    (hkey : dictionaries.GetDictionary dictKey = some dict)
    (pre post : List Event) (a : GoString)
    (hrun : (main [program, dictKey, mode] stdin fs).trace =
      pre ++ Event.scan Site.saveChoice (some a) :: post)
    (hq : strings.ToLower (strings.TrimSpace a) = str "q") :
    (main [program, dictKey, mode] stdin fs).status = Status.exited ∧
    ∃ dict' err,
      post = [Event.save filename (dictionaries.store dictKey dict') err, report err] ∧
      (dictionaries.store dictKey dict').GetDictionary dictKey = some dict' ∧
      dict'.From = dict.From ∧ dict'.To = dict.To ∧
      ∀ w, dict'.Words.get w =
        (lastAdded w (main [program, dictKey, mode] stdin fs).trace).or (dict.Words.get w) := by
  have hmem := mem_eventsAfter Event.isBreak pre (Event.scan Site.saveChoice (some a)) post
    (by simp [Event.isBreak, Event.isQuit, hq])
  rw [← hrun] at hmem
  obtain ⟨h1, dict', err, h2, h4, h5, h6⟩ :=
    main_breaks program dictKey mode stdin fs dictionaries dict hstart hkey _ hmem
  exact ⟨h1, dict', err, h2, store_get_self dictionaries dictKey dict dict' hkey, h4, h5, h6⟩

/-- Where a prompt of `main` without an answer leads.  In a session with two
arguments and a key that has a dictionary, when the call of `Scan` at the
prompt "Save changes and continue?" or at the prompt "Switch mode?" returns
false, the loop is left and the run goes on with exactly one call of
`SaveToJson`, the final save, and its message, and returns.  The collection
saved is the one in memory: the collection `main` started with, with the words
of the dictionary under the key overwritten by the calls of `AddWord` of the
session. -/
theorem unanswered_prompt_leads_to_final_save (program dictKey mode : GoString)
    (stdin : List GoString) (fs : FileSys) (dictionaries : Dictionaries) (dict : Dictionary)
    (hstart : (loadOrSeed fs).1 = some dictionaries)
    (hkey : dictionaries.GetDictionary dictKey = some dict)
    (pre post : List Event) (site : Site)
    (hsite : site = Site.saveChoice ∨ site = Site.newMode)
    (hrun : (main [program, dictKey, mode] stdin fs).trace =
      pre ++ Event.scan site none :: post) :
    (main [program, dictKey, mode] stdin fs).status = Status.exited ∧
    ∃ dict' err,
      post = [Event.save filename (dictionaries.store dictKey dict') err, report err] ∧
      (dictionaries.store dictKey dict').GetDictionary dictKey = some dict' ∧
      dict'.From = dict.From ∧ dict'.To = dict.To ∧
      ∀ w, dict'.Words.get w =
        (lastAdded w (main [program, dictKey, mode] stdin fs).trace).or (dict.Words.get w) := by
  have hmem := mem_eventsAfter Event.isBreak pre (Event.scan site none) post
    (by rcases hsite with rfl | rfl <;> rfl)
  rw [← hrun] at hmem
  obtain ⟨h1, dict', err, h2, h4, h5, h6⟩ :=
    main_breaks program dictKey mode stdin fs dictionaries dict hstart hkey _ hmem
  exact ⟨h1, dict', err, h2, store_get_self dictionaries dictKey dict dict' hkey, h4, h5, h6⟩

/-! ## C7: `exit` at the switch prompt -/

theorem round_no_exit (m : ModeRun) (d : Dictionary) (line : GoString) (D : Dictionaries)
    (fs : FileSys) (hwb : m.wellBehaved d) :
    ∀ e ∈ roundEvents m line D fs ++ [switchPrompt], e.isExit = false ∧ e.isSwitch = false := by
  intro e he
  simp only [roundEvents, List.mem_append, List.mem_cons, List.mem_singleton, List.not_mem_nil,
    or_false] at he
  rcases he with ((he | rfl | rfl) | he) | rfl
  · exact ⟨(inMode_flags e (hwb.1 e he)).2.2.2.1, (inMode_flags e (hwb.1 e he)).2.1⟩
  · exact ⟨rfl, rfl⟩
  · exact ⟨rfl, rfl⟩
  · exact ⟨(saveIfYes_events _ _ _ e he).2.2.2, (saveIfYes_events _ _ _ e he).2.2.1⟩
  · exact ⟨rfl, rfl⟩

theorem round_append (m : ModeRun) (line : GoString) (D : Dictionaries) (fs : FileSys)
    (x : Event) (rest : List Event) :
    roundEvents m line D fs ++ [switchPrompt, x] ++ rest =
      (roundEvents m line D fs ++ [switchPrompt]) ++ x :: rest := by
  simp only [List.append_assoc, List.cons_append, List.nil_append]

theorem finalSave_no_exit (D : Dictionaries) (fs : FileSys) :
    ∀ e ∈ (finalSave D fs).trace, e.isExit = false ∧ e.isSwitch = false ∧ e.isAddWord = false := by
  intro e he
  rw [finalSave_eq] at he
  simp only [List.mem_cons, List.mem_singleton, List.not_mem_nil, or_false] at he
  rcases he with rfl | rfl
  · exact ⟨rfl, rfl, rfl⟩
  · exact ⟨(report_flags _).2.2.2.1, (report_flags _).2.2.1, (report_flags _).2.1⟩

/-- The main loop ends at once at the answer `exit`. -/
theorem mainLoop_exits (dictKey : GoString) :
    ∀ (fuel : Nat) (mode : GoString) (D : Dictionaries) (d : Dictionary)
      (scanner : bufio.Scanner) (fs : FileSys),
      (mainLoop fuel mode dictKey D d scanner fs).exitsAtOnce := by
  apply mainLoop_cases dictKey (fun _ _ r => r.exitsAtOnce)
  · intro D d fs s hs
    simp [eventsAfter] at hs
  · intro D d fs mode s hs
    simp [eventsAfter, printUsage, Event.isExit] at hs
  · intro D d fs m hwb hp s hs
    rw [eventsAfter_eq_nil _ _ (fun e he => (inMode_flags e (hwb.1 e he)).2.2.2.1)] at hs
    simp at hs
  · intro D d fs m hwb hp s hs
    rw [eventsAfter_eq_nil] at hs
    · simp at hs
    · intro e he
      simp only [Run.after, List.mem_append, List.mem_cons, List.mem_singleton,
        List.not_mem_nil, or_false] at he
      rcases he with (he | rfl | rfl) | he
      · exact (inMode_flags e (hwb.1 e he)).2.2.2.1
      · rfl
      · rfl
      · exact (finalSave_no_exit _ _ e he).1
  · intro D d fs m line hwb hp hq s hs
    rw [eventsAfter_eq_nil] at hs
    · simp at hs
    · intro e he
      simp only [Run.after, List.mem_append, List.mem_cons, List.mem_singleton,
        List.not_mem_nil, or_false] at he
      rcases he with (he | rfl | rfl) | he
      · exact (inMode_flags e (hwb.1 e he)).2.2.2.1
      · rfl
      · rfl
      · exact (finalSave_no_exit _ _ e he).1
  · intro D d fs m line hwb hp hq s hs
    rw [eventsAfter_eq_nil] at hs
    · simp at hs
    · intro e he
      have h0 := round_append m line (D.store dictKey m.dict) fs (Event.scan Site.newMode none) []
      rw [List.append_nil] at h0
      simp only [Run.after, h0] at he
      rcases List.mem_append.mp he with he | he
      · rcases List.mem_append.mp he with he | he
        · exact (round_no_exit m d line _ fs hwb e he).1
        · rw [List.mem_singleton.mp he]; rfl
      · exact (finalSave_no_exit _ _ e he).1
  · intro D d fs m line line2 hwb hp hq hexit s hs
    have h0 := round_append m line (D.store dictKey m.dict) fs
      (Event.scan Site.newMode (some line2)) []
    rw [List.append_nil] at h0
    simp only [h0, eventsAfter_append,
      eventsAfter_eq_nil _ _ (fun e he => (round_no_exit m d line _ fs hwb e he).1),
      List.map_nil, List.nil_append] at hs
    simp [eventsAfter, Event.isExit, hexit] at hs
    rw [hs]
    exact ⟨rfl, rfl⟩
  · intro D d fs m line line2 extra r hwb hp hq hexit hextra ih s hs
    simp only [Run.after, round_append, eventsAfter_append,
      eventsAfter_eq_nil _ _ (fun e he => (round_no_exit m d line _ fs hwb e he).1),
      List.map_nil, List.nil_append] at hs
    have htail : eventsAfter Event.isExit (Event.scan Site.newMode (some line2) :: extra) = [] := by
      apply eventsAfter_eq_nil
      intro e he
      rcases List.mem_cons.mp he with rfl | he
      · simp [Event.isExit, hexit]
      · obtain ⟨text, rfl⟩ := hextra e he
        rfl
    rw [htail] at hs
    simp only [List.map_nil, List.nil_append] at hs
    exact ih s hs

theorem first_switch_unique :
    ∀ (X mid : List Event) (x x' : Event) (R post : List Event),
      X ++ x :: R = mid ++ x' :: post → (∀ e ∈ X, e.isSwitch = false) → x.isSwitch = true →
      (∀ e ∈ mid, e.isSwitch = false) → x'.isSwitch = true → X = mid := by
  intro X
  induction X with
  | nil =>
    intro mid x x' R post h _ hx hmid _
    cases mid with
    | nil => rfl
    | cons a mid' =>
      simp only [List.nil_append, List.cons_append, List.cons.injEq] at h
      have := hmid a (List.mem_cons_self _ _)
      rw [← h.1, hx] at this
      exact absurd this (by simp)
  | cons a X' ih =>
    intro mid x x' R post h hX hx hmid hx'
    cases mid with
    | nil =>
      simp only [List.nil_append, List.cons_append, List.cons.injEq] at h
      have := hX a (List.mem_cons_self _ _)
      rw [h.1, hx'] at this
      exact absurd this (by simp)
    | cons b mid' =>
      simp only [List.cons_append, List.cons.injEq] at h
      rw [h.1, ih mid' x x' R post h.2 (fun e he => hX e (List.mem_cons_of_mem _ he)) hx
        (fun e he => hmid e (List.mem_cons_of_mem _ he)) hx']

theorem savesOnlyOnYes_of_no_switch (trace : List Event)
    (h : ∀ e ∈ trace, e.isSwitch = false) : savesOnlyOnYes trace := by
  intro s hs mid x post hsplit hx _ _
  obtain ⟨_, pre, htrace⟩ := eventsAfter_sound _ _ s hs
  have hmem : x ∈ trace := by
    rw [htrace, hsplit]
    simp
  rw [h x hmem] at hx
  exact absurd hx (by simp)

theorem savesOnlyOnYes_after (events trace : List Event)
    (hev : ∀ e ∈ events, e.isAddWord = false) (h : savesOnlyOnYes trace) :
    savesOnlyOnYes (events ++ trace) := by
  intro s hs
  rw [eventsAfter_append, eventsAfter_eq_nil _ _ hev] at hs
  exact h s hs

theorem round_savesOnlyOnYes (m : ModeRun) (d : Dictionary) (line : GoString)
    (D : Dictionaries) (fs : FileSys) (x : Event) (tail : List Event) (hwb : m.wellBehaved d)
    (hx : x.isSwitch = true) (hxa : x.isAddWord = false) (htail : savesOnlyOnYes tail) :
    savesOnlyOnYes ((roundEvents m line D fs ++ [switchPrompt]) ++ x :: tail) := by
  have hrest : ∀ e ∈ [savePrompt, Event.scan Site.saveChoice (some line)] ++
      (saveIfYes (strings.ToLower (strings.TrimSpace line)) D fs).1 ++ [switchPrompt],
      e.isAddWord = false ∧ e.isSwitch = false := by
    intro e he
    simp only [List.mem_append, List.mem_cons, List.mem_singleton, List.not_mem_nil,
      or_false] at he
    rcases he with ((rfl | rfl) | he) | rfl
    · exact ⟨rfl, rfl⟩
    · exact ⟨rfl, rfl⟩
    · exact ⟨(saveIfYes_events _ _ _ e he).2.1, (saveIfYes_events _ _ _ e he).2.2.1⟩
    · exact ⟨rfl, rfl⟩
  have hshape : (roundEvents m line D fs ++ [switchPrompt]) ++ x :: tail =
      m.trace ++ (([savePrompt, Event.scan Site.saveChoice (some line)] ++
        (saveIfYes (strings.ToLower (strings.TrimSpace line)) D fs).1 ++ [switchPrompt]) ++
        x :: tail) := by
    simp only [roundEvents, List.append_assoc]
  rw [hshape]
  intro s hs
  rw [eventsAfter_append] at hs
  rcases List.mem_append.mp hs with hs | hs
  · obtain ⟨s0, hs0, rfl⟩ := List.mem_map.mp hs
    obtain ⟨_, pre, hm⟩ := eventsAfter_sound _ _ s0 hs0
    have hin : ∀ e ∈ s0.2, e.inMode = true := by
      intro e he
      apply hwb.1
      rw [hm]
      simp [he]
    intro mid x' post hsplit hx' hmid hyes
    have hX : ∀ e ∈ s0.2 ++ ([savePrompt, Event.scan Site.saveChoice (some line)] ++
        (saveIfYes (strings.ToLower (strings.TrimSpace line)) D fs).1 ++ [switchPrompt]),
        e.isSwitch = false := by
      intro e he
      rcases List.mem_append.mp he with he | he
      · exact (inMode_flags e (hin e he)).2.1
      · exact (hrest e he).2
    have hsplit' : (s0.2 ++ ([savePrompt, Event.scan Site.saveChoice (some line)] ++
        (saveIfYes (strings.ToLower (strings.TrimSpace line)) D fs).1 ++ [switchPrompt])) ++
        x :: tail = mid ++ x' :: post := by
      rw [← hsplit]
      simp only [List.append_assoc]
    have hmid_eq := first_switch_unique _ mid x x' tail post hsplit' hX hx hmid hx'
    subst hmid_eq
    have hny : strings.ToLower (strings.TrimSpace line) ≠ str "y" := by
      intro hy
      have := hyes (Event.scan Site.saveChoice (some line)) (by simp)
      simp [Event.isYes, hy] at this
    intro e he
    simp only [saveIfYes, if_neg hny, List.append_nil, List.mem_append, List.mem_cons,
      List.mem_singleton, List.not_mem_nil, or_false] at he
    rcases he with he | (rfl | rfl) | rfl
    · exact (inMode_flags e (hin e he)).2.2.1
    · rfl
    · rfl
    · rfl
  · have : savesOnlyOnYes (([savePrompt, Event.scan Site.saveChoice (some line)] ++
        (saveIfYes (strings.ToLower (strings.TrimSpace line)) D fs).1 ++ [switchPrompt]) ++
        x :: tail) := by
      apply savesOnlyOnYes_after _ _ (fun e he => (hrest e he).1)
      exact savesOnlyOnYes_after [x] tail
        (fun e he => by rw [List.mem_singleton.mp he]; exact hxa) htail
    exact this s hs

/-- In the main loop a word is saved in its round only on the answer `y`. -/
theorem mainLoop_savesOnlyOnYes (dictKey : GoString) :
    ∀ (fuel : Nat) (mode : GoString) (D : Dictionaries) (d : Dictionary)
      (scanner : bufio.Scanner) (fs : FileSys),
      savesOnlyOnYes (mainLoop fuel mode dictKey D d scanner fs).trace := by
  apply mainLoop_cases dictKey (fun _ _ r => savesOnlyOnYes r.trace)
  · intro D d fs s hs
    simp [eventsAfter] at hs
  · intro D d fs mode s hs
    simp [eventsAfter, printUsage, Event.isAddWord] at hs
  · intro D d fs m hwb hp
    exact savesOnlyOnYes_of_no_switch _ (fun e he => (inMode_flags e (hwb.1 e he)).2.1)
  · intro D d fs m hwb hp
    apply savesOnlyOnYes_of_no_switch
    intro e he
    simp only [Run.after, List.mem_append, List.mem_cons, List.mem_singleton,
      List.not_mem_nil, or_false] at he
    rcases he with (he | rfl | rfl) | he
    · exact (inMode_flags e (hwb.1 e he)).2.1
    · rfl
    · rfl
    · exact (finalSave_no_exit _ _ e he).2.1
  · intro D d fs m line hwb hp hq
    apply savesOnlyOnYes_of_no_switch
    intro e he
    simp only [Run.after, List.mem_append, List.mem_cons, List.mem_singleton,
      List.not_mem_nil, or_false] at he
    rcases he with (he | rfl | rfl) | he
    · exact (inMode_flags e (hwb.1 e he)).2.1
    · rfl
    · rfl
    · exact (finalSave_no_exit _ _ e he).2.1
  · intro D d fs m line hwb hp hq
    have heq : ((finalSave (D.store dictKey m.dict)
          (saveIfYes (strings.ToLower (strings.TrimSpace line))
            (D.store dictKey m.dict) fs).2).after
        (roundEvents m line (D.store dictKey m.dict) fs ++
          [switchPrompt, Event.scan Site.newMode none])).trace =
        (roundEvents m line (D.store dictKey m.dict) fs ++ [switchPrompt]) ++
          Event.scan Site.newMode none :: (finalSave (D.store dictKey m.dict)
            (saveIfYes (strings.ToLower (strings.TrimSpace line))
              (D.store dictKey m.dict) fs).2).trace := by
      simp only [Run.after, List.append_assoc, List.cons_append, List.nil_append]
    rw [heq]
    apply round_savesOnlyOnYes m d line _ fs (Event.scan Site.newMode none) _ hwb rfl rfl
    intro s hs
    rw [eventsAfter_eq_nil _ _ (fun e he => (finalSave_no_exit _ _ e he).2.2)] at hs
    simp at hs
  · intro D d fs m line line2 hwb hp hq hexit
    have heq : roundEvents m line (D.store dictKey m.dict) fs ++
          [switchPrompt, Event.scan Site.newMode (some line2)] =
        (roundEvents m line (D.store dictKey m.dict) fs ++ [switchPrompt]) ++
          Event.scan Site.newMode (some line2) :: [] := by
      simp only [List.append_assoc, List.cons_append, List.nil_append]
    simp only [heq]
    apply round_savesOnlyOnYes m d line _ fs (Event.scan Site.newMode (some line2)) _ hwb
      rfl rfl
    intro s hs
    simp [eventsAfter] at hs
  · intro D d fs m line line2 extra r hwb hp hq hexit hextra ih
    have heq : (r.after (roundEvents m line (D.store dictKey m.dict) fs ++
          [switchPrompt, Event.scan Site.newMode (some line2)] ++ extra)).trace =
        (roundEvents m line (D.store dictKey m.dict) fs ++ [switchPrompt]) ++
          Event.scan Site.newMode (some line2) :: (extra ++ r.trace) := by
      simp only [Run.after, List.append_assoc, List.cons_append, List.nil_append]
    rw [heq]
    apply round_savesOnlyOnYes m d line _ fs (Event.scan Site.newMode (some line2)) _ hwb
      rfl rfl
    apply savesOnlyOnYes_after _ _ _ ih
    intro e he
    obtain ⟨text, rfl⟩ := hextra e he
    rfl

theorem main_exits (osArgs stdin : List GoString) (fs : FileSys) :
    (main osArgs stdin fs).exitsAtOnce ∧ savesOnlyOnYes (main osArgs stdin fs).trace := by
  rcases main_cases osArgs stdin fs with h | ⟨program, dictKey, mode, D, d, _, _, _, h⟩
  · constructor
    · intro s hs
      rw [eventsAfter_eq_nil _ _ (fun e he => (atStart_flags e (h e he)).2.2.2.1)] at hs
      simp at hs
    · exact savesOnlyOnYes_of_no_switch _ (fun e he => (atStart_flags e (h e he)).2.2.1)
  · rw [h]
    have hload := loadOrSeed_events fs
    constructor
    · intro s hs
      simp only [Run.after] at hs ⊢
      rw [eventsAfter_append,
        eventsAfter_eq_nil _ _ (fun e he => (atStart_flags e (hload e he)).2.2.2.1)] at hs
      simp only [List.map_nil, List.nil_append] at hs
      exact mainLoop_exits dictKey _ mode D d _ fs s hs
    · exact savesOnlyOnYes_after _ _ (fun e he => (atStart_flags e (hload e he)).2.1)
        (mainLoop_savesOnlyOnYes dictKey _ mode D d _ fs)

/-- C7: in every session, when a prompt "Switch mode?" is answered `exit` (after
trimming), that answer is the last event of the run, which returns: no line is
read, nothing is printed and `SaveToJson` is not called after it.  And for
every call of `AddWord` of the round that ends so (no answer at a switch
prompt lies between the call and the `exit`), if the save prompt between them
is not answered `y`, no call of `SaveToJson` follows the call of `AddWord`:
the word added is not written to the file. -/
theorem C7_exit_at_switch_prompt (osArgs stdin : List GoString) (fs : FileSys)
    (pre post : List Event) (a : GoString)
    (hrun : (main osArgs stdin fs).trace = pre ++ Event.scan Site.newMode (some a) :: post)
    (hexit : strings.TrimSpace a = str "exit") :
    post = [] ∧ (main osArgs stdin fs).status = Status.exited ∧
    ∀ (pre0 : List Event) (w t : GoString) (mid : List Event),
      pre = pre0 ++ Event.addWord w t :: mid →
      (∀ e ∈ mid, e.isSwitch = false) → (∀ e ∈ mid, e.isYes = false) →
      ∀ e ∈ mid, e.isSave = false := by
  obtain ⟨h1, h2⟩ := main_exits osArgs stdin fs
  have hmem := mem_eventsAfter Event.isExit pre (Event.scan Site.newMode (some a)) post
    (by simp [Event.isExit, hexit])
  rw [← hrun] at hmem
  refine ⟨(h1 _ hmem).1, (h1 _ hmem).2, ?_⟩
  intro pre0 w t mid hpre hsw hyes
  have hadd := mem_eventsAfter Event.isAddWord pre0 (Event.addWord w t)
    (mid ++ Event.scan Site.newMode (some a) :: post) rfl
  have htrace : (main osArgs stdin fs).trace =
      pre0 ++ Event.addWord w t :: (mid ++ Event.scan Site.newMode (some a) :: post) := by
    rw [hrun, hpre]
    simp only [List.append_assoc, List.cons_append]
  rw [← htrace] at hadd
  exact h2 _ hadd mid _ post rfl rfl hsw hyes

/-- C7, witness: a first run in write mode in which a word is added, the save
prompt is answered `n` and the switch prompt ` exit `. -/
theorem C7_exit_at_switch_prompt_witness :
    exitSession.trace = exitSession.trace.take 15 ++
      Event.scan Site.newMode (some (str " exit ")) :: exitSession.trace.drop 16 ∧
    strings.TrimSpace (str " exit ") = str "exit" ∧
    exitSession.trace.drop 16 = [] ∧ exitSession.status = Status.exited ∧
    ∀ (pre0 : List Event) (w t : GoString) (mid : List Event),
      exitSession.trace.take 15 = pre0 ++ Event.addWord w t :: mid →
      (∀ e ∈ mid, e.isSwitch = false) → (∀ e ∈ mid, e.isYes = false) →
      ∀ e ∈ mid, e.isSave = false :=
  ⟨by decide, by decide,
    C7_exit_at_switch_prompt [str "program", str "en-ru", str "-write"]
      [str "bridge", str "мост", str "exit", str "n", str " exit "] firstRun
      (exitSession.trace.take 15) (exitSession.trace.drop 16) (str " exit ")
      (by decide) (by decide)⟩

/-- C5 fails in the code: the answer `q` at the save prompt is followed by a save.
On a first run in find mode with the input `exit`, `q`, the prompt "Save
changes and continue?" is answered `q`; the run goes on with a call of
`SaveToJson`, which succeeds, and its message, and returns; the file, which
could not be opened before the answer, holds the seed after the run. -/
theorem C5_quit_is_followed_by_a_save :
    quitAtOnce.trace = quitAtOnce.trace.take 7 ++
      Event.scan Site.saveChoice (some (str "q")) ::
        [Event.save filename seed none, Event.print (str "Dictionaries saved successfully\n")] ∧
    (∀ e ∈ quitAtOnce.trace.take 7, e.isSave = false) ∧
    strings.ToLower (strings.TrimSpace (str "q")) = str "q" ∧
    quitAtOnce.status = Status.exited ∧
    firstRun.files filename = File.unopenable (str "no such file or directory") ∧
    quitAtOnce.fs.files filename = File.document (json.encode seed) :=
  ⟨by decide, by decide, by decide, by decide, rfl, rfl⟩

/-- C6 fails in the code for a dictionary without a word map.  The file
`{"dicts": {"a": {"from": "A", "to": "B"}}}` is loaded without an error, and the
key `a` has a dictionary, whose word map is nil.  In the session with the
arguments `a` and `-write` the input `x`, `y` holds no answer `q` and no answer
`exit`, and it ends inside write mode; the call `AddWord("x", "y")` writes into
the nil map and the run ends there by a panic: the loop is not left, no call of
`SaveToJson` is made, and the file is as it was. -/
theorem C6_no_final_save_after_panic :
    (loadOrSeed noWordsField).1 =
      some { Dicts := some (AList.singleton (str "a")
        (some { From := str "A", To := str "B", Words := none })) } ∧
    crashSession.trace =
      [Event.load filename, Event.print (str "Write mode for A->B dictionary\n"),
        Event.print (str "Type 'exit' to return to main menu\n"),
        Event.print (str "Enter word: "), Event.scan Site.writeWord (some (str "x")),
        Event.print (str "Enter translation: "),
        Event.scan Site.writeTranslation (some (str "y")),
        Event.addWord (str "x") (str "y")] ∧
    crashSession.status = Status.panicked ∧
    (∀ e ∈ crashSession.trace, e.isSave = false) ∧
    crashSession.fs.files filename = noWordsField.files filename :=
  ⟨rfl, by decide, by decide, by decide, rfl⟩

/-! ## C10: a key without a dictionary -/

theorem shuffle_length {α : Type} :
    ∀ (picks : List Nat) (l : List α), (shuffle picks l).length = l.length := by
  intro picks
  induction picks with
  | nil =>
    intro l
    cases l <;> rfl
  | cons i picks ih =>
    intro l
    cases l with
    | nil => rfl
    | cons x l =>
      simp only [shuffle]
      rw [List.length_insertIdx _ _ (by rw [ih l]; exact Nat.le_of_lt_succ (Nat.mod_lt _ (Nat.succ_pos _))),
        ih l, List.length_cons]

/-- A `range` loop visits every entry of the map once: the order it takes is a
permutation of the entries. -/
theorem shuffle_perm {α : Type} :
    ∀ (picks : List Nat) (l : List α), (shuffle picks l).Perm l := by
  intro picks
  induction picks with
  | nil =>
    intro l
    cases l <;> exact List.Perm.refl _
  | cons i picks ih =>
    intro l
    cases l with
    | nil => exact List.Perm.refl _
    | cons x l =>
      simp only [shuffle]
      exact (List.perm_insertIdx x _ (by
        rw [shuffle_length picks l]
        exact Nat.le_of_lt_succ (Nat.mod_lt _ (Nat.succ_pos _)))).trans ((ih l).cons x)

theorem mem_range {V : Type} (m : GoMap V) (picks : List Nat) (e : GoString × V) :
    e ∈ m.range picks ↔ e ∈ m.entries :=
  (shuffle_perm picks m.entries).mem_iff

theorem listDictionaries_of_no_nil :
    ∀ entries : List (GoString × Option Dictionary), (∀ e ∈ entries, e.2 ≠ none) →
      listDictionaries entries =
        (entries.filterMap (fun e => e.2.map (listingLine e.1)), false) := by
  intro entries
  induction entries with
  | nil => intro _; rfl
  | cons x t ih =>
    intro h
    obtain ⟨key, p⟩ := x
    cases p with
    | none => exact absurd rfl (h (key, none) (List.mem_cons_self _ _))
    | some d =>
      simp only [listDictionaries, ih (fun e he => h e (List.mem_cons_of_mem _ he)),
        List.filterMap_cons, Option.map_some', listingLine]

/-- The listing of a collection without nil entries: with two arguments and a key
that has no dictionary in the collection `main` starts with, when no key of the
collection is bound to nil, `main` prints, after the events of the load,
"Dictionary '<key>' not found", "Available dictionaries:" and one line
"  <k> (<from>-><to>)" for every entry of the collection, in the order in which
the `range` loop visits the entries, and returns: no line is read, no mode is
entered, nothing is saved. -/
theorem listing_without_nil_entries (program dictKey mode : GoString) (stdin : List GoString)
    (fs : FileSys) (dictionaries : Dictionaries)
    (hstart : (loadOrSeed fs).1 = some dictionaries)
    (hkey : dictionaries.GetDictionary dictKey = none)
    (hall : ∀ e ∈ dictionaries.Dicts.entries, e.2 ≠ none) :
    (main [program, dictKey, mode] stdin fs).trace =
      (loadOrSeed fs).2 ++
        [Event.print (str "Dictionary '" ++ dictKey ++ str "' not found\n"),
          Event.print (str "Available dictionaries:\n")] ++
        (dictionaries.Dicts.range fs.picks).filterMap (fun e => e.2.map (listingLine e.1)) ∧
    ((dictionaries.Dicts.range fs.picks).filterMap (fun e => e.2.map (listingLine e.1))).length =
      dictionaries.Dicts.entries.length ∧
    (dictionaries.Dicts.range fs.picks).Perm dictionaries.Dicts.entries ∧
    (main [program, dictKey, mode] stdin fs).status = Status.exited ∧
    (main [program, dictKey, mode] stdin fs).fs = fs := by
  have hall : ∀ e ∈ dictionaries.Dicts.range fs.picks, e.2 ≠ none :=
    fun e he => hall e ((mem_range _ _ e).1 he)
  have hlist := listDictionaries_of_no_nil _ hall
  refine ⟨?_, ?_, shuffle_perm _ _, ?_, ?_⟩
  · simp only [main, hstart, hkey, hlist]
  · rw [← (shuffle_perm fs.picks dictionaries.Dicts.entries).length_eq]
    change _ = (dictionaries.Dicts.range fs.picks).length
    generalize dictionaries.Dicts.range fs.picks = entries at hall
    induction entries with
    | nil => rfl
    | cons x t ih =>
      obtain ⟨key, p⟩ := x
      cases p with
      | none => exact absurd rfl (hall (key, none) (List.mem_cons_self _ _))
      | some d =>
        simp only [List.filterMap_cons, Option.map_some', List.length_cons,
          ih (fun e he => hall e (List.mem_cons_of_mem _ he))]
  · simp only [main, hstart, hkey, hlist]
    rfl
  · simp only [main, hstart, hkey]

/-- The listing on a first run, in one of the orders of the `range` loop: the three
dictionaries of the seed. -/
theorem listing_on_first_run :
    (main [str "program", str "xx-yy", str "-find"] [str "hello"] firstRun).trace =
      (loadOrSeed firstRun).2 ++
        [Event.print (str "Dictionary 'xx-yy' not found\n"),
          Event.print (str "Available dictionaries:\n"),
          Event.print (str "  en-ru (English->Russian)\n"),
          Event.print (str "  de-ru (German->Russian)\n"),
          Event.print (str "  fr-ru (French->Russian)\n")] ∧
    (main [str "program", str "xx-yy", str "-find"] [str "hello"] firstRun).status =
      Status.exited := by
  decide

/-- C10 fails on a loaded collection with a key bound to nil: the file
`{"dicts": {"a": null}}` is loaded without an error, the key `b` has no
dictionary, and after the two lines of the header the listing dereferences the
nil dictionary under `a`: the run ends by a panic, without a line for `a`. -/
theorem C10_listing_panics_on_null_entry :
    LoadDictsFromJson filename nullEntry =
      Except.ok { Dicts := some (AList.singleton (str "a") none) } ∧
    (main [str "program", str "b", str "-find"] [] nullEntry).trace =
      [Event.load filename, Event.print (str "Dictionary 'b' not found\n"),
        Event.print (str "Available dictionaries:\n")] ∧
    (main [str "program", str "b", str "-find"] [] nullEntry).status = Status.panicked :=
  ⟨rfl, by decide, by decide⟩

theorem runMode_wellBehaved (mode : GoString) (d : Dictionary) (scanner : bufio.Scanner) :
    (runMode mode d scanner).wellBehaved d := by
  unfold runMode
  split
  · exact findMode_wellBehaved d scanner
  · exact writeMode_wellBehaved d scanner

theorem mainLoop_unknown (n : Nat) (mode dictKey : GoString) (D : Dictionaries) (d : Dictionary)
    (scanner : bufio.Scanner) (fs : FileSys)
    (hmode : ¬ (mode = str "-find" ∨ mode = str "-write")) :
    mainLoop (n + 1) mode dictKey D d scanner fs =
      { trace := Event.print (str "Unknown mode '" ++ mode ++ str "'\n") :: printUsage,
        fs := fs, status := Status.exited } := by
  simp only [mainLoop, if_neg hmode]

theorem mainLoop_panic (n : Nat) (mode dictKey : GoString) (D : Dictionaries) (d : Dictionary)
    (scanner : bufio.Scanner) (fs : FileSys)
    (hmode : mode = str "-find" ∨ mode = str "-write")
    (hp : (runMode mode d scanner).panicked = true) :
    mainLoop (n + 1) mode dictKey D d scanner fs =
      { trace := (runMode mode d scanner).trace, fs := fs, status := Status.panicked } := by
  unfold runMode at hp ⊢
  simp only [mainLoop, if_pos hmode, hp, if_true]

theorem mainLoop_eof (n : Nat) (mode dictKey : GoString) (D : Dictionaries) (d : Dictionary)
    (scanner : bufio.Scanner) (fs : FileSys)
    (hmode : mode = str "-find" ∨ mode = str "-write")
    (hp : (runMode mode d scanner).panicked = false)
    (hsc : (bufio.Scan (runMode mode d scanner).scanner).1 = none) :
    mainLoop (n + 1) mode dictKey D d scanner fs =
      (finalSave (D.store dictKey (runMode mode d scanner).dict) fs).after
        ((runMode mode d scanner).trace ++ [savePrompt, Event.scan Site.saveChoice none]) := by
  unfold runMode at hp hsc ⊢
  simp only [mainLoop, if_pos hmode, hp, Bool.false_eq_true, if_false]
  generalize (if mode = str "-find" then findMode d scanner else writeMode d scanner) = m
    at hsc ⊢
  rcases hm : m.scanner with _ | ⟨_ | line, rest⟩
  · simp only [bufio.Scan]
  · simp only [bufio.Scan]
  · rw [hm] at hsc
    simp [bufio.Scan] at hsc

theorem mainLoop_quit (n : Nat) (mode dictKey : GoString) (D : Dictionaries) (d : Dictionary)
    (scanner : bufio.Scanner) (fs : FileSys) (line : GoString) (rest : bufio.Scanner)
    (hmode : mode = str "-find" ∨ mode = str "-write")
    (hp : (runMode mode d scanner).panicked = false)
    (hsc : (runMode mode d scanner).scanner = some line :: rest)
    (hq : strings.ToLower (strings.TrimSpace line) = str "q") :
    mainLoop (n + 1) mode dictKey D d scanner fs =
      (finalSave (D.store dictKey (runMode mode d scanner).dict) fs).after
        ((runMode mode d scanner).trace ++
          [savePrompt, Event.scan Site.saveChoice (some line)]) := by
  unfold runMode at hp hsc ⊢
  simp only [mainLoop, if_pos hmode, hp, Bool.false_eq_true, if_false, hsc, bufio.Scan, hq,
    if_true]

theorem mainLoop_eof2 (n : Nat) (mode dictKey : GoString) (D : Dictionaries) (d : Dictionary)
    (scanner : bufio.Scanner) (fs : FileSys) (line : GoString) (rest : bufio.Scanner)
    (hmode : mode = str "-find" ∨ mode = str "-write")
    (hp : (runMode mode d scanner).panicked = false)
    (hsc : (runMode mode d scanner).scanner = some line :: rest)
    (hq : strings.ToLower (strings.TrimSpace line) ≠ str "q")
    (hrest : (bufio.Scan rest).1 = none) :
    mainLoop (n + 1) mode dictKey D d scanner fs =
      (finalSave (D.store dictKey (runMode mode d scanner).dict)
          (saveIfYes (strings.ToLower (strings.TrimSpace line))
            (D.store dictKey (runMode mode d scanner).dict) fs).2).after
        (roundEvents (runMode mode d scanner) line
            (D.store dictKey (runMode mode d scanner).dict) fs ++
          [switchPrompt, Event.scan Site.newMode none]) := by
  unfold runMode at hp hsc ⊢
  rcases rest with _ | ⟨_ | line2, rest⟩
  · simp only [mainLoop, if_pos hmode, hp, Bool.false_eq_true, if_false, hsc, bufio.Scan,
      if_neg hq]
  · simp only [mainLoop, if_pos hmode, hp, Bool.false_eq_true, if_false, hsc, bufio.Scan,
      if_neg hq]
  · simp [bufio.Scan] at hrest

theorem mainLoop_exit (n : Nat) (mode dictKey : GoString) (D : Dictionaries) (d : Dictionary)
    (scanner : bufio.Scanner) (fs : FileSys) (line line2 : GoString) (rest : bufio.Scanner)
    (hmode : mode = str "-find" ∨ mode = str "-write")
    (hp : (runMode mode d scanner).panicked = false)
    (hsc : (runMode mode d scanner).scanner = some line :: some line2 :: rest)
    (hq : strings.ToLower (strings.TrimSpace line) ≠ str "q")
    (hexit : strings.TrimSpace line2 = str "exit") :
    mainLoop (n + 1) mode dictKey D d scanner fs =
      { trace := roundEvents (runMode mode d scanner) line
            (D.store dictKey (runMode mode d scanner).dict) fs ++
          [switchPrompt, Event.scan Site.newMode (some line2)],
        fs := (saveIfYes (strings.ToLower (strings.TrimSpace line))
          (D.store dictKey (runMode mode d scanner).dict) fs).2,
        status := Status.exited } := by
  have h1 : ¬ str "exit" = str "find" := by decide
  have h2 : ¬ str "exit" = str "write" := by decide
  unfold runMode at hp hsc ⊢
  simp only [mainLoop, if_pos hmode, hp, Bool.false_eq_true, if_false, hsc, bufio.Scan,
    if_neg hq, hexit, h1, h2, if_true]

theorem mainLoop_next (n : Nat) (mode dictKey : GoString) (D : Dictionaries) (d : Dictionary)
    (scanner : bufio.Scanner) (fs : FileSys) (line line2 : GoString) (rest : bufio.Scanner)
    (hmode : mode = str "-find" ∨ mode = str "-write")
    (hp : (runMode mode d scanner).panicked = false)
    (hsc : (runMode mode d scanner).scanner = some line :: some line2 :: rest)
    (hq : strings.ToLower (strings.TrimSpace line) ≠ str "q")
    (hexit : strings.TrimSpace line2 ≠ str "exit") :
    mainLoop (n + 1) mode dictKey D d scanner fs =
      (mainLoop n (nextMode mode (strings.TrimSpace line2)) dictKey
          (D.store dictKey (runMode mode d scanner).dict) (runMode mode d scanner).dict rest
          (saveIfYes (strings.ToLower (strings.TrimSpace line))
            (D.store dictKey (runMode mode d scanner).dict) fs).2).after
        (roundEvents (runMode mode d scanner) line
            (D.store dictKey (runMode mode d scanner).dict) fs ++
          [switchPrompt, Event.scan Site.newMode (some line2)] ++
          switchWarning (strings.TrimSpace line2)) := by
  unfold runMode at hp hsc ⊢
  simp only [mainLoop, if_pos hmode, hp, Bool.false_eq_true, if_false, hsc, bufio.Scan,
    if_neg hq, nextMode, switchWarning]
  split
  · simp only [List.append_nil]
  · split
    · simp only [List.append_nil]
    · simp only [if_neg hexit]

/-- Induction over the rounds of the main loop, with the fuel, the mode, the
scanner and the file system of every round in view: a property of all rounds
holds when it holds of each of the eight ways a round goes, given that it holds
of the rounds after it. -/
theorem mainLoop_induct (dictKey : GoString)
    (P : Nat → GoString → Dictionaries → Dictionary → bufio.Scanner → FileSys → Run → Prop)
    (hzero : ∀ mode D d scanner fs,
      P 0 mode D d scanner fs { trace := [], fs := fs, status := Status.running })
    (hunknown : ∀ n mode D d scanner fs, ¬ (mode = str "-find" ∨ mode = str "-write") →
      P (n + 1) mode D d scanner fs
        { trace := Event.print (str "Unknown mode '" ++ mode ++ str "'\n") :: printUsage,
          fs := fs, status := Status.exited })
    (hpanic : ∀ n mode D d scanner fs, (mode = str "-find" ∨ mode = str "-write") →
      (runMode mode d scanner).panicked = true →
      P (n + 1) mode D d scanner fs
        { trace := (runMode mode d scanner).trace, fs := fs, status := Status.panicked })
    (heof : ∀ n mode D d scanner fs, (mode = str "-find" ∨ mode = str "-write") →
      (runMode mode d scanner).panicked = false →
      (bufio.Scan (runMode mode d scanner).scanner).1 = none →
      P (n + 1) mode D d scanner fs
        ((finalSave (D.store dictKey (runMode mode d scanner).dict) fs).after
          ((runMode mode d scanner).trace ++ [savePrompt, Event.scan Site.saveChoice none])))
    (hquit : ∀ n mode D d scanner fs line rest, (mode = str "-find" ∨ mode = str "-write") →
      (runMode mode d scanner).panicked = false →
      (runMode mode d scanner).scanner = some line :: rest →
      strings.ToLower (strings.TrimSpace line) = str "q" →
      P (n + 1) mode D d scanner fs
        ((finalSave (D.store dictKey (runMode mode d scanner).dict) fs).after
          ((runMode mode d scanner).trace ++
            [savePrompt, Event.scan Site.saveChoice (some line)])))
    (heof2 : ∀ n mode D d scanner fs line rest, (mode = str "-find" ∨ mode = str "-write") →
      (runMode mode d scanner).panicked = false →
      (runMode mode d scanner).scanner = some line :: rest →
      strings.ToLower (strings.TrimSpace line) ≠ str "q" →
      (bufio.Scan rest).1 = none →
      P (n + 1) mode D d scanner fs
        ((finalSave (D.store dictKey (runMode mode d scanner).dict)
            (saveIfYes (strings.ToLower (strings.TrimSpace line))
              (D.store dictKey (runMode mode d scanner).dict) fs).2).after
          (roundEvents (runMode mode d scanner) line
              (D.store dictKey (runMode mode d scanner).dict) fs ++
            [switchPrompt, Event.scan Site.newMode none])))
    (hexit : ∀ n mode D d scanner fs line line2 rest,
      (mode = str "-find" ∨ mode = str "-write") →
      (runMode mode d scanner).panicked = false →
      (runMode mode d scanner).scanner = some line :: some line2 :: rest →
      strings.ToLower (strings.TrimSpace line) ≠ str "q" →
      strings.TrimSpace line2 = str "exit" →
      P (n + 1) mode D d scanner fs
        { trace := roundEvents (runMode mode d scanner) line
              (D.store dictKey (runMode mode d scanner).dict) fs ++
            [switchPrompt, Event.scan Site.newMode (some line2)],
          fs := (saveIfYes (strings.ToLower (strings.TrimSpace line))
            (D.store dictKey (runMode mode d scanner).dict) fs).2,
          status := Status.exited })
    (hnext : ∀ n mode D d scanner fs line line2 rest,
      (mode = str "-find" ∨ mode = str "-write") →
      (runMode mode d scanner).panicked = false →
      (runMode mode d scanner).scanner = some line :: some line2 :: rest →
      strings.ToLower (strings.TrimSpace line) ≠ str "q" →
      strings.TrimSpace line2 ≠ str "exit" →
      P n (nextMode mode (strings.TrimSpace line2))
        (D.store dictKey (runMode mode d scanner).dict) (runMode mode d scanner).dict rest
        (saveIfYes (strings.ToLower (strings.TrimSpace line))
          (D.store dictKey (runMode mode d scanner).dict) fs).2
        (mainLoop n (nextMode mode (strings.TrimSpace line2)) dictKey
          (D.store dictKey (runMode mode d scanner).dict) (runMode mode d scanner).dict rest
          (saveIfYes (strings.ToLower (strings.TrimSpace line))
            (D.store dictKey (runMode mode d scanner).dict) fs).2) →
      P (n + 1) mode D d scanner fs
        ((mainLoop n (nextMode mode (strings.TrimSpace line2)) dictKey
            (D.store dictKey (runMode mode d scanner).dict) (runMode mode d scanner).dict rest
            (saveIfYes (strings.ToLower (strings.TrimSpace line))
              (D.store dictKey (runMode mode d scanner).dict) fs).2).after
          (roundEvents (runMode mode d scanner) line
              (D.store dictKey (runMode mode d scanner).dict) fs ++
            [switchPrompt, Event.scan Site.newMode (some line2)] ++
            switchWarning (strings.TrimSpace line2)))) :
    ∀ n mode D d scanner fs, P n mode D d scanner fs (mainLoop n mode dictKey D d scanner fs) := by
  intro n
  induction n with
  | zero =>
    intro mode D d scanner fs
    simp only [mainLoop]
    exact hzero mode D d scanner fs
  | succ n ih =>
    intro mode D d scanner fs
    by_cases hmode : mode = str "-find" ∨ mode = str "-write"
    · cases hp : (runMode mode d scanner).panicked with
      | true =>
        rw [mainLoop_panic n mode dictKey D d scanner fs hmode hp]
        exact hpanic n mode D d scanner fs hmode hp
      | false =>
        rcases hsc : (runMode mode d scanner).scanner with _ | ⟨_ | line, rest⟩
        · have h : (bufio.Scan (runMode mode d scanner).scanner).1 = none := by rw [hsc]; rfl
          rw [mainLoop_eof n mode dictKey D d scanner fs hmode hp h]
          exact heof n mode D d scanner fs hmode hp h
        · have h : (bufio.Scan (runMode mode d scanner).scanner).1 = none := by rw [hsc]; rfl
          rw [mainLoop_eof n mode dictKey D d scanner fs hmode hp h]
          exact heof n mode D d scanner fs hmode hp h
        · by_cases hq : strings.ToLower (strings.TrimSpace line) = str "q"
          · rw [mainLoop_quit n mode dictKey D d scanner fs line rest hmode hp hsc hq]
            exact hquit n mode D d scanner fs line rest hmode hp hsc hq
          · rcases rest with _ | ⟨_ | line2, rest⟩
            · rw [mainLoop_eof2 n mode dictKey D d scanner fs line [] hmode hp hsc hq rfl]
              exact heof2 n mode D d scanner fs line [] hmode hp hsc hq rfl
            · rw [mainLoop_eof2 n mode dictKey D d scanner fs line _ hmode hp hsc hq rfl]
              exact heof2 n mode D d scanner fs line _ hmode hp hsc hq rfl
            · by_cases hx : strings.TrimSpace line2 = str "exit"
              · rw [mainLoop_exit n mode dictKey D d scanner fs line line2 rest hmode hp hsc hq hx]
                exact hexit n mode D d scanner fs line line2 rest hmode hp hsc hq hx
              · rw [mainLoop_next n mode dictKey D d scanner fs line line2 rest hmode hp hsc hq hx]
                exact hnext n mode D d scanner fs line line2 rest hmode hp hsc hq hx (ih _ _ _ _ _)
    · rw [mainLoop_unknown n mode dictKey D d scanner fs hmode]
      exact hunknown n mode D d scanner fs hmode

theorem nextMode_valid (mode newMode : GoString)
    (hmode : mode = str "-find" ∨ mode = str "-write") :
    nextMode mode newMode = str "-find" ∨ nextMode mode newMode = str "-write" := by
  unfold nextMode
  split
  · exact Or.inl rfl
  · split
    · exact Or.inr rfl
    · exact hmode

/-- A round in a mode that is `-find` or `-write` begins with the events of that
mode. -/
theorem mainLoop_starts_with_mode (n : Nat) (mode dictKey : GoString) (D : Dictionaries)
    (d : Dictionary) (scanner : bufio.Scanner) (fs : FileSys)
    (hmode : mode = str "-find" ∨ mode = str "-write") :
    (runMode mode d scanner).trace <+: (mainLoop (n + 1) mode dictKey D d scanner fs).trace := by
  refine mainLoop_induct dictKey
    (fun n mode _ d scanner _ r => n ≠ 0 → (mode = str "-find" ∨ mode = str "-write") →
      (runMode mode d scanner).trace <+: r.trace) ?_ ?_ ?_ ?_ ?_ ?_ ?_ ?_ (n + 1) mode D d scanner fs
    (Nat.succ_ne_zero n) hmode
  · intro mode D d scanner fs h
    exact absurd rfl h
  · intro n mode D d scanner fs h _ hm
    exact absurd hm h
  · intro n mode D d scanner fs _ _ _ _
    exact List.prefix_refl _
  · intro n mode D d scanner fs _ _ _ _ _
    simp only [Run.after, List.append_assoc]
    exact List.prefix_append _ _
  · intro n mode D d scanner fs line rest _ _ _ _ _ _
    simp only [Run.after, List.append_assoc]
    exact List.prefix_append _ _
  · intro n mode D d scanner fs line rest _ _ _ _ _ _ _
    simp only [Run.after, roundEvents, List.append_assoc]
    exact List.prefix_append _ _
  · intro n mode D d scanner fs line line2 rest _ _ _ _ _ _ _
    simp only [roundEvents, List.append_assoc]
    exact List.prefix_append _ _
  · intro n mode D d scanner fs line line2 rest _ _ _ _ _ _ _ _
    simp only [Run.after, roundEvents, List.append_assoc]
    exact List.prefix_append _ _

/-- C17: in a round of the main loop (mode `-find` or `-write`) whose mode returns
without panic, whose save prompt is answered by a line that is not `q` and whose
switch prompt is answered by a line `a` that does not trim to `exit`, the loop
goes on with another round on the dictionary and the scanner the mode left: in
mode `-find` when `a` trims to `find`, in mode `-write` when it trims to
`write`, and otherwise in the mode of this round, after printing "Unknown mode
'<a trimmed>', keeping current mode".  That next round begins with the events of
its mode run on that same dictionary. -/
theorem C17_switch_mode (n : Nat) (mode dictKey : GoString) (D : Dictionaries) (d : Dictionary)
    (scanner : bufio.Scanner) (fs : FileSys) (line a : GoString) (rest : bufio.Scanner)
    (hmode : mode = str "-find" ∨ mode = str "-write")
    (hp : (runMode mode d scanner).panicked = false)
    (hsc : (runMode mode d scanner).scanner = some line :: some a :: rest)
    (hq : strings.ToLower (strings.TrimSpace line) ≠ str "q")
    (hexit : strings.TrimSpace a ≠ str "exit") :
    ∃ (next : GoString) (warning : List Event),
      (strings.TrimSpace a = str "find" → next = str "-find" ∧ warning = []) ∧
      (strings.TrimSpace a = str "write" → next = str "-write" ∧ warning = []) ∧
      (strings.TrimSpace a ≠ str "find" → strings.TrimSpace a ≠ str "write" →
        next = mode ∧
        warning = [Event.print (str "Unknown mode '" ++ strings.TrimSpace a ++
          str "', keeping current mode\n")]) ∧
      mainLoop (n + 2) mode dictKey D d scanner fs =
        (mainLoop (n + 1) next dictKey (D.store dictKey (runMode mode d scanner).dict)
            (runMode mode d scanner).dict rest
            (saveIfYes (strings.ToLower (strings.TrimSpace line))
              (D.store dictKey (runMode mode d scanner).dict) fs).2).after
          (roundEvents (runMode mode d scanner) line
              (D.store dictKey (runMode mode d scanner).dict) fs ++
            [switchPrompt, Event.scan Site.newMode (some a)] ++ warning) ∧
      (runMode next (runMode mode d scanner).dict rest).trace <+:
        (mainLoop (n + 1) next dictKey (D.store dictKey (runMode mode d scanner).dict)
          (runMode mode d scanner).dict rest
          (saveIfYes (strings.ToLower (strings.TrimSpace line))
            (D.store dictKey (runMode mode d scanner).dict) fs).2).trace := by
  refine ⟨nextMode mode (strings.TrimSpace a), switchWarning (strings.TrimSpace a), ?_, ?_, ?_,
    mainLoop_next (n + 1) mode dictKey D d scanner fs line a rest hmode hp hsc hq hexit,
    mainLoop_starts_with_mode n _ dictKey _ _ rest _ (nextMode_valid mode _ hmode)⟩
  · intro h
    simp only [nextMode, switchWarning, h, if_true, and_self]
  · intro h
    have h1 : ¬ str "write" = str "find" := by decide
    simp only [nextMode, switchWarning, h, h1, if_true, if_false, and_self]
  · intro h1 h2
    simp only [nextMode, switchWarning, if_neg h1, if_neg h2, and_self]

/-- C17, witness: a round in write mode on the seed in which a word is added, the
save prompt is answered `n` and the switch prompt `look`, which is no mode. -/
theorem C17_switch_mode_witness :
    ∃ (next : GoString) (warning : List Event),
      (strings.TrimSpace (str "look") = str "find" → next = str "-find" ∧ warning = []) ∧
      (strings.TrimSpace (str "look") = str "write" → next = str "-write" ∧ warning = []) ∧
      (strings.TrimSpace (str "look") ≠ str "find" →
        strings.TrimSpace (str "look") ≠ str "write" →
        next = str "-write" ∧
        warning = [Event.print (str "Unknown mode '" ++ strings.TrimSpace (str "look") ++
          str "', keeping current mode\n")]) ∧
      mainLoop 2 (str "-write") (str "en-ru") seed enRu (bufio.NewScanner lookLines) firstRun =
        (mainLoop 1 next (str "en-ru")
            (seed.store (str "en-ru") (runMode (str "-write") enRu (bufio.NewScanner lookLines)).dict)
            (runMode (str "-write") enRu (bufio.NewScanner lookLines)).dict [some (str "exit")]
            (saveIfYes (strings.ToLower (strings.TrimSpace (str "n")))
              (seed.store (str "en-ru") (runMode (str "-write") enRu (bufio.NewScanner lookLines)).dict)
              firstRun).2).after
          (roundEvents (runMode (str "-write") enRu (bufio.NewScanner lookLines)) (str "n")
              (seed.store (str "en-ru") (runMode (str "-write") enRu (bufio.NewScanner lookLines)).dict)
              firstRun ++
            [switchPrompt, Event.scan Site.newMode (some (str "look"))] ++ warning) ∧
      (runMode next (runMode (str "-write") enRu (bufio.NewScanner lookLines)).dict [some (str "exit")]).trace <+:
        (mainLoop 1 next (str "en-ru")
          (seed.store (str "en-ru") (runMode (str "-write") enRu (bufio.NewScanner lookLines)).dict)
          (runMode (str "-write") enRu (bufio.NewScanner lookLines)).dict [some (str "exit")]
          (saveIfYes (strings.ToLower (strings.TrimSpace (str "n")))
            (seed.store (str "en-ru") (runMode (str "-write") enRu (bufio.NewScanner lookLines)).dict)
            firstRun).2).trace :=
  C17_switch_mode 0 (str "-write") (str "en-ru") seed enRu (bufio.NewScanner lookLines)
    firstRun (str "n") (str "look") [some (str "exit")] (by decide) (by decide) (by decide) (by decide)
    (by decide)

theorem eventsAfter_cons_mem (p : Event → Bool) (x : Event) (tail : List Event)
    (s : Event × List Event) (h : s ∈ eventsAfter p (x :: tail)) :
    (p x = true ∧ s = (x, tail)) ∨ s ∈ eventsAfter p tail := by
  simp only [eventsAfter] at h
  split at h
  · rename_i hx
    rcases List.mem_cons.1 h with h | h
    · exact Or.inl ⟨hx, h⟩
    · exact Or.inr h
  · exact Or.inr h

theorem store_keys (D : Dictionaries) (k : GoString) (d : Dictionary) :
    (D.store k d).keys = D.keys := by
  obtain ⟨m⟩ := D
  cases m with
  | none => rfl
  | some a =>
    have h := AList.keys_replace k (some d) a
    simp only [AList.keys, List.keys] at h
    simp only [Dictionaries.keys, Dictionaries.store, Option.map_some', GoMap.entries,
      List.map_map]
    exact h

theorem kreplace_self {V : Type} (a : GoString) (b : V) :
    ∀ l : List (Sigma (fun _ : GoString => V)), List.dlookup a l = some b →
      List.kreplace a b l = l := by
  intro l
  induction l with
  | nil => intro _; rfl
  | cons s t ih =>
    intro h
    obtain ⟨k, v⟩ := s
    by_cases hs : a = k
    · subst hs
      rw [List.dlookup_cons_eq] at h
      rw [kreplace_cons_eq a b ⟨a, v⟩ t rfl]
      simp only [Option.some.injEq] at h
      rw [h]
    · rw [List.dlookup_cons_ne _ _ hs] at h
      rw [kreplace_cons_ne a b ⟨k, v⟩ t hs, ih h]

/-- A store of the dictionary that is under the key already changes nothing. -/
theorem store_self (D : Dictionaries) (k : GoString) (d : Dictionary)
    (h : D.GetDictionary k = some d) : D.store k d = D := by
  obtain ⟨m⟩ := D
  cases m with
  | none => rfl
  | some a =>
    have hl : List.dlookup k a.entries = some (some d) := by
      simp only [Dictionaries.GetDictionary, GoMap.get, AList.lookup] at h
      cases hd : List.dlookup k a.entries with
      | none => rw [hd] at h; simp at h
      | some v =>
        rw [hd] at h
        simp only [Option.join] at h
        cases v with
        | none => simp at h
        | some d2 =>
          simp at h
          rw [h]
    simp only [Dictionaries.store, Option.map_some', Dictionaries.mk.injEq, Option.some.injEq]
    apply AList.ext
    exact kreplace_self k (some d) a.entries hl

theorem saveIfYes_saves (choice : GoString) (D : Dictionaries) (fs : FileSys) :
    ∀ e ∈ (saveIfYes choice D fs).1, e.isSave = true → ∃ err, e = Event.save filename D err := by
  intro e he hs
  unfold saveIfYes at he
  split at he
  · rw [saveAndReport_eq] at he
    simp only [List.mem_cons, List.mem_singleton, List.not_mem_nil, or_false] at he
    rcases he with rfl | rfl
    · exact ⟨_, rfl⟩
    · rw [(report_flags _).2.2.2.2] at hs
      exact absurd hs (by decide)
  · simp only [List.not_mem_nil] at he

theorem finalSave_saves (D : Dictionaries) (fs : FileSys) :
    ∀ e ∈ (finalSave D fs).trace, e.isSave = true → ∃ err, e = Event.save filename D err := by
  intro e he hs
  rw [finalSave_eq] at he
  simp only [List.mem_cons, List.mem_singleton, List.not_mem_nil, or_false] at he
  rcases he with rfl | rfl
  · exact ⟨_, rfl⟩
  · rw [(report_flags _).2.2.2.2] at hs
    exact absurd hs (by decide)

theorem switchWarning_events (newMode : GoString) :
    ∀ e ∈ switchWarning newMode, ∃ text, e = Event.print text := by
  intro e he
  unfold switchWarning at he
  split at he
  · simp only [List.not_mem_nil] at he
  · split at he
    · simp only [List.not_mem_nil] at he
    · simp only [List.mem_singleton] at he
      exact ⟨_, he⟩

/-- The calls of `SaveToJson` among the events of a round up to the answer at the
switch prompt and the warning after it are the save at the save prompt. -/
theorem round_saves (mode : GoString) (d : Dictionary) (scanner : bufio.Scanner)
    (line : GoString) (D : Dictionaries) (fs : FileSys) (x : Option GoString)
    (extra : List Event) (hextra : ∀ e ∈ extra, ∃ text, e = Event.print text) :
    ∀ e ∈ roundEvents (runMode mode d scanner) line D fs ++
        [switchPrompt, Event.scan Site.newMode x] ++ extra,
      e.isSave = true → ∃ err, e = Event.save filename D err := by
  intro e he hs
  simp only [roundEvents, List.mem_append, List.mem_cons, List.mem_singleton,
    List.not_mem_nil, or_false] at he
  rcases he with (((he | he | he) | he) | he | he) | he
  · rw [(inMode_flags e ((runMode_wellBehaved mode d scanner).1 e he)).2.2.1] at hs
    exact absurd hs (by decide)
  · subst he; exact absurd hs Bool.false_ne_true
  · subst he; exact absurd hs Bool.false_ne_true
  · exact saveIfYes_saves _ _ _ e he hs
  · subst he; exact absurd hs Bool.false_ne_true
  · subst he; exact absurd hs Bool.false_ne_true
  · obtain ⟨text, rfl⟩ := hextra e he
    exact absurd hs Bool.false_ne_true

/-- Every collection the main loop hands to `SaveToJson` is the collection of the
start with, under the selected key, a dictionary with the languages of the
start. -/
theorem mainLoop_saves (dictKey : GoString) :
    ∀ n mode D d scanner fs,
      ∀ e ∈ (mainLoop n mode dictKey D d scanner fs).trace, e.isSave = true →
        ∃ d' err, e = Event.save filename (D.store dictKey d') err ∧
          d'.From = d.From ∧ d'.To = d.To := by
  refine mainLoop_induct dictKey
    (fun _ _ D d _ _ r => ∀ e ∈ r.trace, e.isSave = true →
        ∃ d' err, e = Event.save filename (D.store dictKey d') err ∧
          d'.From = d.From ∧ d'.To = d.To) ?_ ?_ ?_ ?_ ?_ ?_ ?_ ?_
  · intro mode D d scanner fs e he
    simp only [List.not_mem_nil] at he
  · intro n mode D d scanner fs _ e he hs
    simp only [printUsage, List.mem_cons, List.mem_singleton, List.not_mem_nil,
      or_false] at he
    rcases he with rfl | rfl | rfl | rfl | rfl <;> exact absurd hs Bool.false_ne_true
  · intro n mode D d scanner fs _ _ e he hs
    rw [(inMode_flags e ((runMode_wellBehaved mode d scanner).1 e he)).2.2.1] at hs
    exact absurd hs (by decide)
  · intro n mode D d scanner fs _ _ _ e he hs
    have hwb := runMode_wellBehaved mode d scanner
    simp only [Run.after, List.mem_append, List.mem_cons, List.mem_singleton,
      List.not_mem_nil, or_false] at he
    rcases he with (he | he | he) | he
    · rw [(inMode_flags e (hwb.1 e he)).2.2.1] at hs
      exact absurd hs (by decide)
    · subst he; exact absurd hs Bool.false_ne_true
    · subst he; exact absurd hs Bool.false_ne_true
    · obtain ⟨err, rfl⟩ := finalSave_saves _ _ e he hs
      exact ⟨_, err, rfl, hwb.2.1, hwb.2.2.1⟩
  · intro n mode D d scanner fs line rest _ _ _ _ e he hs
    have hwb := runMode_wellBehaved mode d scanner
    simp only [Run.after, List.mem_append, List.mem_cons, List.mem_singleton,
      List.not_mem_nil, or_false] at he
    rcases he with (he | he | he) | he
    · rw [(inMode_flags e (hwb.1 e he)).2.2.1] at hs
      exact absurd hs (by decide)
    · subst he; exact absurd hs Bool.false_ne_true
    · subst he; exact absurd hs Bool.false_ne_true
    · obtain ⟨err, rfl⟩ := finalSave_saves _ _ e he hs
      exact ⟨_, err, rfl, hwb.2.1, hwb.2.2.1⟩
  · intro n mode D d scanner fs line rest _ _ _ _ _ e he hs
    have hwb := runMode_wellBehaved mode d scanner
    simp only [Run.after] at he
    rcases List.mem_append.1 he with he | he
    · obtain ⟨err, rfl⟩ := round_saves mode d scanner line _ fs none [] (by simp) e
        (by rw [List.append_nil]; exact he) hs
      exact ⟨_, err, rfl, hwb.2.1, hwb.2.2.1⟩
    · obtain ⟨err, rfl⟩ := finalSave_saves _ _ e he hs
      exact ⟨_, err, rfl, hwb.2.1, hwb.2.2.1⟩
  · intro n mode D d scanner fs line line2 rest _ _ _ _ _ e he hs
    have hwb := runMode_wellBehaved mode d scanner
    obtain ⟨err, rfl⟩ := round_saves mode d scanner line _ fs (some line2) [] (by simp) e
      (by rw [List.append_nil]; exact he) hs
    exact ⟨_, err, rfl, hwb.2.1, hwb.2.2.1⟩
  · intro n mode D d scanner fs line line2 rest _ _ _ _ _ ih e he hs
    have hwb := runMode_wellBehaved mode d scanner
    simp only [Run.after] at he
    rcases List.mem_append.1 he with he | he
    · obtain ⟨err, rfl⟩ := round_saves mode d scanner line _ fs (some line2) _
        (switchWarning_events _) e he hs
      exact ⟨_, err, rfl, hwb.2.1, hwb.2.2.1⟩
    · obtain ⟨d', err, rfl, h1, h2⟩ := ih e he hs
      rw [store_store]
      exact ⟨d', err, rfl, h1.trans hwb.2.1, h2.trans hwb.2.2.1⟩
theorem findMode_dict (dict : Dictionary) (scanner : bufio.Scanner) :
    (findMode dict scanner).dict = dict ∧ (findMode dict scanner).panicked = false :=
  findLoop_dict dict scanner

/-- While the mode is not `-write`, every collection the main loop hands to
`SaveToJson` is the collection of the start. -/
theorem mainLoop_find_saves (dictKey : GoString) :
    ∀ n mode D d scanner fs, mode ≠ str "-write" → D.store dictKey d = D →
      (∀ a, Event.scan Site.newMode (some a) ∈ (mainLoop n mode dictKey D d scanner fs).trace →
        strings.TrimSpace a ≠ str "write") →
      ∀ e ∈ (mainLoop n mode dictKey D d scanner fs).trace, e.isSave = true →
        ∃ err, e = Event.save filename D err := by
  have hfind : ∀ (mode : GoString) (D : Dictionaries) (d : Dictionary)
      (scanner : bufio.Scanner), (mode = str "-find" ∨ mode = str "-write") →
      mode ≠ str "-write" → D.store dictKey d = D →
      D.store dictKey (runMode mode d scanner).dict = D ∧ (runMode mode d scanner).dict = d := by
    intro mode D d scanner hmode hw hD
    rcases hmode with h | h
    · subst h
      have : (runMode (str "-find") d scanner).dict = d := by
        unfold runMode
        rw [if_pos rfl]
        exact (findMode_dict d scanner).1
      rw [this]
      exact ⟨hD, rfl⟩
    · exact absurd h hw
  refine mainLoop_induct dictKey
    (fun _ mode D d _ _ r => mode ≠ str "-write" → D.store dictKey d = D →
      (∀ a, Event.scan Site.newMode (some a) ∈ r.trace → strings.TrimSpace a ≠ str "write") →
      ∀ e ∈ r.trace, e.isSave = true → ∃ err, e = Event.save filename D err)
    ?_ ?_ ?_ ?_ ?_ ?_ ?_ ?_
  · intro mode D d scanner fs _ _ _ e he
    simp only [List.not_mem_nil] at he
  · intro n mode D d scanner fs _ _ _ _ e he hs
    simp only [printUsage, List.mem_cons, List.mem_singleton, List.not_mem_nil,
      or_false] at he
    rcases he with rfl | rfl | rfl | rfl | rfl <;> exact absurd hs Bool.false_ne_true
  · intro n mode D d scanner fs _ _ _ _ _ e he hs
    rw [(inMode_flags e ((runMode_wellBehaved mode d scanner).1 e he)).2.2.1] at hs
    exact absurd hs (by decide)
  · intro n mode D d scanner fs hmode _ _ hw hD _ e he hs
    have hwb := runMode_wellBehaved mode d scanner
    rw [(hfind mode D d scanner hmode hw hD).1] at he
    simp only [Run.after, List.mem_append, List.mem_cons, List.mem_singleton,
      List.not_mem_nil, or_false] at he
    rcases he with (he | he | he) | he
    · rw [(inMode_flags e (hwb.1 e he)).2.2.1] at hs
      exact absurd hs (by decide)
    · subst he; exact absurd hs Bool.false_ne_true
    · subst he; exact absurd hs Bool.false_ne_true
    · exact finalSave_saves _ _ e he hs
  · intro n mode D d scanner fs line rest hmode _ _ _ hw hD _ e he hs
    have hwb := runMode_wellBehaved mode d scanner
    rw [(hfind mode D d scanner hmode hw hD).1] at he
    simp only [Run.after, List.mem_append, List.mem_cons, List.mem_singleton,
      List.not_mem_nil, or_false] at he
    rcases he with (he | he | he) | he
    · rw [(inMode_flags e (hwb.1 e he)).2.2.1] at hs
      exact absurd hs (by decide)
    · subst he; exact absurd hs Bool.false_ne_true
    · subst he; exact absurd hs Bool.false_ne_true
    · exact finalSave_saves _ _ e he hs
  · intro n mode D d scanner fs line rest hmode _ _ _ _ hw hD _ e he hs
    rw [(hfind mode D d scanner hmode hw hD).1] at he
    simp only [Run.after] at he
    rcases List.mem_append.1 he with he | he
    · exact round_saves mode d scanner line _ fs none [] (by simp) e
        (by rw [List.append_nil]; exact he) hs
    · exact finalSave_saves _ _ e he hs
  · intro n mode D d scanner fs line line2 rest hmode _ _ _ _ hw hD _ e he hs
    rw [(hfind mode D d scanner hmode hw hD).1] at he
    exact round_saves mode d scanner line _ fs (some line2) [] (by simp) e
      (by rw [List.append_nil]; exact he) hs
  · intro n mode D d scanner fs line line2 rest hmode _ _ _ _ ih hw hD hsw e he hs
    obtain ⟨hD1, hd1⟩ := hfind mode D d scanner hmode hw hD
    rw [hD1] at he ih
    rw [hD1] at hsw
    simp only [Run.after] at he hsw
    rcases List.mem_append.1 he with he | he
    · exact round_saves mode d scanner line _ fs (some line2) _
        (switchWarning_events _) e he hs
    · have hline2 : strings.TrimSpace line2 ≠ str "write" :=
        hsw line2 (List.mem_append_left _ (by simp))
      have hnext : nextMode mode (strings.TrimSpace line2) ≠ str "-write" := by
        by_cases hf : strings.TrimSpace line2 = str "find"
        · simp only [nextMode, if_pos hf]
          decide
        · simp only [nextMode, if_neg hf, if_neg hline2]
          exact hw
      exact ih hnext hD1 (fun a ha => hsw a (List.mem_append_right _ ha)) e he hs
theorem atStart_not_save (trace : List Event) (h : ∀ e ∈ trace, e.atStart = true)
    (fname : GoString) (D : Dictionaries) (err : Option Error) :
    Event.save fname D err ∉ trace :=
  fun hmem => absurd (h _ hmem) Bool.false_ne_true

/-- Every call of `SaveToJson` in a session is made by the main loop, started on
the collection of the start and the dictionary under the selected key. -/
theorem main_saves (osArgs stdin : List GoString) (fs : FileSys) (fname : GoString)
    (D' : Dictionaries) (err : Option Error)
    (hsave : Event.save fname D' err ∈ (main osArgs stdin fs).trace) :
    ∃ program dictKey mode dictionaries dict, osArgs = [program, dictKey, mode] ∧
      (loadOrSeed fs).1 = some dictionaries ∧
      dictionaries.GetDictionary dictKey = some dict ∧
      (main osArgs stdin fs).trace = (loadOrSeed fs).2 ++
        (mainLoop ((bufio.NewScanner stdin).length + 1) mode dictKey dictionaries dict
          (bufio.NewScanner stdin) fs).trace ∧
      Event.save fname D' err ∈
        (mainLoop ((bufio.NewScanner stdin).length + 1) mode dictKey dictionaries dict
          (bufio.NewScanner stdin) fs).trace := by
  rcases main_cases osArgs stdin fs with hstart | ⟨program, dictKey, mode, D, d, h1, h2, h3, h4⟩
  · exact absurd hsave (atStart_not_save _ hstart fname D' err)
  · refine ⟨program, dictKey, mode, D, d, h1, h2, h3, by rw [h4]; rfl, ?_⟩
    rw [h4] at hsave
    simp only [Run.after] at hsave
    rcases List.mem_append.1 hsave with h | h
    · exact absurd h (atStart_not_save _ (loadOrSeed_events fs) fname D' err)
    · exact h

/-- C19: in every session with a key `k` selected and the collection `D` loaded or
seeded at the start, every collection `D'` handed to `SaveToJson` has under every
key other than `k` what `D` has there (the same dictionary, with the same `from`,
`to` and words, or the same absence), has the keys of `D`, and has under `k` a
dictionary with the `from` and the `to` of the dictionary `D` has under `k`. -/
theorem C19_only_selected_dictionary_changes (program k mode : GoString)
    (stdin : List GoString) (fs : FileSys) (D : Dictionaries)
    (hstart : (loadOrSeed fs).1 = some D)
    (fname : GoString) (D' : Dictionaries) (err : Option Error)
    (hsave : Event.save fname D' err ∈ (main [program, k, mode] stdin fs).trace) :
    (∀ k', k' ≠ k → D'.Dicts.get k' = D.Dicts.get k') ∧ D'.keys = D.keys ∧
    ∃ d d', D.GetDictionary k = some d ∧ D'.GetDictionary k = some d' ∧
      d'.From = d.From ∧ d'.To = d.To := by
  obtain ⟨_, dictKey, _, D0, d, hargs, hD0, hd, _, hmem⟩ :=
    main_saves [program, k, mode] stdin fs fname D' err hsave
  simp only [List.cons.injEq, and_true] at hargs
  obtain ⟨_, rfl, rfl⟩ := hargs
  rw [hstart] at hD0
  simp only [Option.some.injEq] at hD0
  subst hD0
  obtain ⟨d', err', he, hfrom, hto⟩ := mainLoop_saves k _ _ D d _ fs _ hmem rfl
  simp only [Event.save.injEq] at he
  obtain ⟨_, rfl, _⟩ := he
  exact ⟨fun k' hk => store_get_other D k k' d' hk, store_keys D k d',
    d, d', hd, store_get_self D k d d' hd, hfrom, hto⟩

/-- C19, witness: a first run in write mode in which a word is added under `en-ru`
and the save prompt is answered ` Y `. -/
theorem C19_only_selected_dictionary_changes_witness :
    (loadOrSeed firstRun).1 = some seed ∧
    Event.save filename (seed.store (str "en-ru") withBridge) none ∈ yesSession.trace ∧
    (∀ k', k' ≠ str "en-ru" →
      (seed.store (str "en-ru") withBridge).Dicts.get k' = seed.Dicts.get k') ∧
    (seed.store (str "en-ru") withBridge).keys = seed.keys ∧
    ∃ d d', seed.GetDictionary (str "en-ru") = some d ∧
      (seed.store (str "en-ru") withBridge).GetDictionary (str "en-ru") = some d' ∧
      d'.From = d.From ∧ d'.To = d.To :=
  ⟨rfl, by decide,
    C19_only_selected_dictionary_changes (str "program") (str "en-ru") (str "-write")
      [str "bridge", str "мост", str "exit", str " Y ", str "exit"] firstRun seed rfl
      filename (seed.store (str "en-ru") withBridge) none (by decide)⟩

/-- C15: `findMode` returns, on every dictionary and every list of lines, with the
dictionary it was given (`from`, `to` and words) and without a panic.  And in a
session whose mode argument (`os.Args[2]`) is not `-write` and in which no answer
at the prompt "Switch mode?" trims to `write`, every call of `SaveToJson` is on the
file `dictionaries.json` with the collection that was loaded or seeded at the
start. -/
theorem C15_find_mode_read_only (osArgs stdin : List GoString) (fs : FileSys)
    (hmode : osArgs[2]? ≠ some (str "-write"))
    (hswitch : ∀ e ∈ (main osArgs stdin fs).trace, e.isSwitchTo (str "write") = false) :
    (∀ d lines, (findMode d lines).dict = d ∧ (findMode d lines).panicked = false) ∧
    ∀ fname D' err, Event.save fname D' err ∈ (main osArgs stdin fs).trace →
      fname = filename ∧ (loadOrSeed fs).1 = some D' := by
  refine ⟨findMode_dict, ?_⟩
  intro fname D' err hsave
  obtain ⟨program, dictKey, mode, D, d, hargs, hD, hd, htrace, hmem⟩ :=
    main_saves osArgs stdin fs fname D' err hsave
  have hw : mode ≠ str "-write" := by
    intro h
    rw [hargs, h] at hmode
    exact hmode rfl
  obtain ⟨err', he⟩ := mainLoop_find_saves dictKey _ mode D d _ fs hw
    (store_self D dictKey d hd)
    (fun a ha => by
      have := hswitch _ (by rw [htrace]; exact List.mem_append_right _ ha)
      simpa [Event.isSwitchTo] using this) _ hmem rfl
  simp only [Event.save.injEq] at he
  obtain ⟨rfl, rfl, _⟩ := he
  exact ⟨rfl, hD⟩

/-- C15, witness: a first run in find mode with two rounds of find mode, a save at
the save prompt and the final save; both write the seed. -/
theorem C15_find_mode_read_only_witness :
    [str "program", str "en-ru", str "-find"][2]? ≠ some (str "-write") ∧
    (∀ e ∈ findSession.trace, e.isSwitchTo (str "write") = false) ∧
    Event.save filename seed none ∈ findSession.trace ∧
    (∀ d lines, (findMode d lines).dict = d ∧ (findMode d lines).panicked = false) ∧
    ∀ fname D' err, Event.save fname D' err ∈ findSession.trace →
      fname = filename ∧ (loadOrSeed firstRun).1 = some D' :=
  ⟨by decide, by decide, by decide,
    C15_find_mode_read_only [str "program", str "en-ru", str "-find"]
      [str "hello", str "exit", str "y", str "find", str "exit", str "q"] firstRun
      (by decide) (by decide)⟩

/-! ## Prompts and calls of `Scan` -/

theorem head_append (a b : GoString) (c : Nat) (h : a.head? = some c) :
    (a ++ b).head? = some c := by
  cases a with
  | nil => simp at h
  | cons x t => simpa using h

theorem not_prompt_of_head (text : GoString) (c : Nat) (h : text.head? = some c)
    (h1 : c ≠ 69) (h2 : c ≠ 83) : (Event.print text).isPrompt = false := by
  have hp : ∀ p ∈ promptTexts, p.head? = some 69 ∨ p.head? = some 83 := by decide
  simp only [Event.isPrompt, decide_eq_false_iff_not]
  intro hmem
  rcases hp text hmem with h3 | h3
  · rw [h] at h3
    exact h1 (Option.some.inj h3)
  · rw [h] at h3
    exact h2 (Option.some.inj h3)

theorem isPrompt_scan (site : Site) (line : Option GoString) :
    (Event.scan site line).isPrompt = false := rfl

theorem isAnswer_print (text : GoString) : (Event.print text).isAnswer = false := rfl

theorem isEOF_print (text : GoString) : (Event.print text).isEOF = false := rfl

theorem isAnswer_scan (site : Site) (line : GoString) :
    (Event.scan site (some line)).isAnswer = true := rfl

theorem isEOF_scan (site : Site) (line : GoString) :
    (Event.scan site (some line)).isEOF = false := rfl

theorem isAnswer_eof (site : Site) : (Event.scan site none).isAnswer = false := rfl

theorem isEOF_eof (site : Site) : (Event.scan site none).isEOF = true := rfl

/-- The counts of a run without an event. -/
theorem counted_nil (d : Dictionary) (s : bufio.Scanner) (p : Bool) :
    ModeRun.counted { trace := [], dict := d, scanner := s, panicked := p } s :=
  ⟨Nat.zero_add _, Nat.le_of_eq (Nat.zero_add _), Nat.zero_le _, fun h => ⟨h, Or.inl rfl⟩, rfl⟩

/-- The counts of a run that ends at a prompt where the call of `Scan` returns
false. -/
theorem counted_stop (d : Dictionary) (s : bufio.Scanner) (text : GoString) (site : Site)
    (hs : (bufio.Scan s).1 = none) (hp : (Event.print text).isPrompt = true) :
    ModeRun.counted
      { trace := [Event.print text, Event.scan site none], dict := d,
        scanner := (bufio.Scan s).2, panicked := false } s := by
  have hcount : (bufio.Scan s).2.countP Option.isSome = s.countP Option.isSome := by
    rcases bufio.Scan_none s hs with ⟨h1, h2⟩ | h
    · rw [h2, h1]
    · conv => rhs; rw [h]
      simp
  refine ⟨?_, ?_, ?_, ?_, ?_⟩
  · simp only [List.countP_cons, List.countP_nil, isAnswer_print, isAnswer_eof,
      Bool.false_eq_true, if_false, Nat.zero_add, hcount]
  · simp only [List.countP_cons, List.countP_nil, isAnswer_print, isAnswer_eof,
      Bool.false_eq_true, if_false, Nat.zero_add]
    exact bufio.Scan_length s
  · simp only [List.countP_cons, List.countP_nil, isEOF_print, isEOF_eof,
      Bool.false_eq_true, if_false, if_true, Nat.zero_add, Nat.le_refl]
  · intro h
    exact ⟨bufio.reachable_Scan s h, Or.inr (bufio.reachable_Scan_none s h hs)⟩
  · simp only [List.countP_cons, List.countP_nil, hp, isPrompt_scan, isAnswer_print,
      isAnswer_eof, isEOF_print, isEOF_eof, Bool.false_eq_true, if_false, if_true, Nat.zero_add]

/-- The counts of a run that goes on after a prompt, the line read at it and the
prints and calls of `AddWord` that follow. -/
theorem counted_after (m : ModeRun) (rest : bufio.Scanner) (text : GoString) (site : Site)
    (line : GoString) (extra : List Event) (h : m.counted rest)
    (hp : (Event.print text).isPrompt = true)
    (h1 : ∀ e ∈ extra, e.isAnswer = false) (h2 : ∀ e ∈ extra, e.isEOF = false)
    (h3 : ∀ e ∈ extra, e.isPrompt = false) :
    (m.after ([Event.print text, Event.scan site (some line)] ++ extra)).counted
      (some line :: rest) := by
  obtain ⟨ha, hb, hc, hd, he⟩ := h
  have e1 : extra.countP Event.isAnswer = 0 := List.countP_eq_zero.2 (by simpa using h1)
  have e2 : extra.countP Event.isEOF = 0 := List.countP_eq_zero.2 (by simpa using h2)
  have e3 : extra.countP Event.isPrompt = 0 := List.countP_eq_zero.2 (by simpa using h3)
  simp only [ModeRun.counted, ModeRun.after, List.cons_append, List.nil_append,
    List.countP_cons, List.countP_append, hp, isPrompt_scan, isAnswer_print, isEOF_print,
    isAnswer_scan, isEOF_scan, e1, e2, e3, List.length_cons, if_true, Bool.false_eq_true,
    if_false, Option.isSome_some, bufio.reachable]
  refine ⟨by omega, by omega, by omega, fun h => ?_, by omega⟩
  obtain ⟨h4, h5⟩ := hd h
  refine ⟨h4, ?_⟩
  rcases h5 with h5 | h5
  · exact Or.inl (by omega)
  · exact Or.inr h5

/-- The counts of a run that goes on after two prompts, the lines read at them and
the prints and calls of `AddWord` that follow. -/
theorem counted_after_two (m : ModeRun) (rest : bufio.Scanner) (text text2 : GoString)
    (site site2 : Site) (line line2 : GoString) (extra : List Event) (h : m.counted rest)
    (hp : (Event.print text).isPrompt = true) (hp2 : (Event.print text2).isPrompt = true)
    (h1 : ∀ e ∈ extra, e.isAnswer = false) (h2 : ∀ e ∈ extra, e.isEOF = false)
    (h3 : ∀ e ∈ extra, e.isPrompt = false) :
    (m.after ([Event.print text, Event.scan site (some line)] ++
      [Event.print text2, Event.scan site2 (some line2)] ++ extra)).counted
      (some line :: some line2 :: rest) := by
  have := counted_after _ (some line2 :: rest) text site line []
    (counted_after m rest text2 site2 line2 extra h hp2 h1 h2 h3) hp (by simp) (by simp)
    (by simp)
  simpa only [ModeRun.after, List.append_nil, List.append_assoc] using this

theorem findLoop_counted (d : Dictionary) :
    ∀ s, (findLoop d s).counted s := by
  have hp : (Event.print (str "Enter word to translate: ")).isPrompt = true := by decide
  have ht : (str "Translation: ").head? = some 84 := by decide
  have hw : (str "Word '").head? = some 87 := by decide
  refine findLoop_induct d (fun s m => m.counted s) ?_ ?_ ?_ ?_ ?_
  · intro s hs
    exact counted_stop d s _ _ hs hp
  · intro line rest _
    have := counted_after _ rest _ Site.findWord line [] (counted_nil d rest false) hp
      (by simp) (by simp) (by simp)
    simpa only [ModeRun.after, List.append_nil] using this
  · intro line rest _ _ ih
    have := counted_after _ rest _ Site.findWord line [] ih hp (by simp) (by simp) (by simp)
    simpa only [List.append_nil] using this
  · intro line rest translation _ _ _ ih
    refine counted_after _ rest _ Site.findWord line _ ih hp ?_ ?_ ?_ <;>
      intro e he <;> rw [List.mem_singleton] at he <;> subst he
    · rfl
    · rfl
    · exact not_prompt_of_head _ 84
        (head_append _ _ _ (head_append _ _ _ (head_append _ _ _ (head_append _ _ _ ht))))
        (by decide) (by decide)
  · intro line rest _ _ _ ih
    refine counted_after _ rest _ Site.findWord line _ ih hp ?_ ?_ ?_ <;>
      intro e he <;> rw [List.mem_singleton] at he <;> subst he
    · rfl
    · rfl
    · exact not_prompt_of_head _ 87 (head_append _ _ _ (head_append _ _ _ hw))
        (by decide) (by decide)

theorem writeLoop_counted : ∀ s d, (writeLoop d s).counted s := by
  have hp : (Event.print (str "Enter word: ")).isPrompt = true := by decide
  have hp2 : (Event.print (str "Enter translation: ")).isPrompt = true := by decide
  have hn : (Event.print (str "Translation cannot be empty\n")).isPrompt = false := by decide
  have ha : (str "Added: ").head? = some 65 := by decide
  refine writeLoop_induct (fun _ s m => m.counted s) ?_ ?_ ?_ ?_ ?_ ?_ ?_
  · intro d s hs
    exact counted_stop d s _ _ hs hp
  · intro d line rest _
    have := counted_after _ rest _ Site.writeWord line [] (counted_nil d rest false) hp
      (by simp) (by simp) (by simp)
    simpa only [ModeRun.after, List.append_nil] using this
  · intro d line rest _ _ ih
    have := counted_after _ rest _ Site.writeWord line [] ih hp (by simp) (by simp) (by simp)
    simpa only [List.append_nil] using this
  · intro d line s _ _ hs
    have := counted_after _ s _ Site.writeWord line []
      (counted_stop d s _ Site.writeTranslation hs hp2) hp (by simp) (by simp) (by simp)
    simpa only [ModeRun.after, List.append_nil] using this
  · intro d line line2 rest _ _ _ ih
    refine counted_after_two _ rest _ _ Site.writeWord Site.writeTranslation line line2 _ ih
      hp hp2 ?_ ?_ ?_ <;> intro e he <;> rw [List.mem_singleton] at he <;> subst he
    · rfl
    · rfl
    · exact hn
  · intro d line line2 rest _ _ _ _
    have := counted_after_two _ rest _ _ Site.writeWord Site.writeTranslation line line2
      [Event.addWord (strings.TrimSpace line) (strings.TrimSpace line2)]
      (counted_nil d rest true) hp hp2 (by simp [Event.isAnswer]) (by simp [Event.isEOF])
      (by simp [Event.isPrompt])
    simpa only [ModeRun.after, List.append_nil] using this
  · intro d d' line line2 rest _ _ _ _ ih
    refine counted_after_two _ rest _ _ Site.writeWord Site.writeTranslation line line2 _ ih
      hp hp2 ?_ ?_ ?_ <;> intro e he <;>
      simp only [List.mem_cons, List.mem_singleton, List.not_mem_nil, or_false] at he <;>
      rcases he with rfl | rfl
    · rfl
    · rfl
    · rfl
    · rfl
    · rfl
    · exact not_prompt_of_head _ 65
        (head_append _ _ _ (head_append _ _ _ (head_append _ _ _ (head_append _ _ _ ha))))
        (by decide) (by decide)

theorem counted_header (m : ModeRun) (s : bufio.Scanner) (text text2 : GoString)
    (h : m.counted s) (h1 : (Event.print text).isPrompt = false)
    (h2 : (Event.print text2).isPrompt = false) :
    (m.after [Event.print text, Event.print text2]).counted s := by
  obtain ⟨ha, hb, hc, hd, he⟩ := h
  refine ⟨?_, ?_, ?_, ?_, ?_⟩ <;>
    simp only [ModeRun.after, List.cons_append, List.nil_append, List.countP_cons, h1, h2,
      isAnswer_print, isEOF_print, Bool.false_eq_true, if_false, Nat.add_zero]
  · exact ha
  · exact hb
  · exact hc
  · exact hd
  · exact he

theorem runMode_counted (mode : GoString) (d : Dictionary) (s : bufio.Scanner) :
    (runMode mode d s).counted s := by
  have hf : (str "Find mode for ").head? = some 70 := by decide
  have hw : (str "Write mode for ").head? = some 87 := by decide
  have ht : (Event.print (str "Type 'exit' to return to main menu\n")).isPrompt = false := by
    decide
  unfold runMode
  split
  · exact counted_header _ s _ _ (findLoop_counted d s)
      (not_prompt_of_head _ 70
        (head_append _ _ _ (head_append _ _ _ (head_append _ _ _ (head_append _ _ _ hf))))
        (by decide) (by decide)) ht
  · exact counted_header _ s _ _ (writeLoop_counted s d)
      (not_prompt_of_head _ 87
        (head_append _ _ _ (head_append _ _ _ (head_append _ _ _ (head_append _ _ _ hw))))
        (by decide) (by decide)) ht

theorem countP_quiet (p : Event → Bool) (l : List Event) (h : ∀ e ∈ l, p e = false) :
    l.countP p = 0 :=
  List.countP_eq_zero.2 (by simpa using h)

theorem report_counts (err : Option Error) :
    (report err).isAnswer = false ∧ (report err).isEOF = false ∧
      (report err).isPrompt = false := by
  cases err with
  | none => exact ⟨rfl, rfl, by decide⟩
  | some e => exact ⟨rfl, rfl, rfl⟩

theorem finalSave_counts (D : Dictionaries) (fs : FileSys) :
    ∀ e ∈ (finalSave D fs).trace,
      e.isAnswer = false ∧ e.isEOF = false ∧ e.isPrompt = false := by
  intro e he
  rw [finalSave_eq] at he
  simp only [List.mem_cons, List.mem_singleton, List.not_mem_nil, or_false] at he
  rcases he with rfl | rfl
  · exact ⟨rfl, rfl, rfl⟩
  · exact report_counts _

theorem saveIfYes_counts (choice : GoString) (D : Dictionaries) (fs : FileSys) :
    ∀ e ∈ (saveIfYes choice D fs).1,
      e.isAnswer = false ∧ e.isEOF = false ∧ e.isPrompt = false := by
  intro e he
  unfold saveIfYes at he
  split at he
  · rw [saveAndReport_eq] at he
    simp only [List.mem_cons, List.mem_singleton, List.not_mem_nil, or_false] at he
    rcases he with rfl | rfl
    · exact ⟨rfl, rfl, rfl⟩
    · exact report_counts _
  · simp only [List.not_mem_nil] at he

theorem switchWarning_counts (newMode : GoString) :
    ∀ e ∈ switchWarning newMode,
      e.isAnswer = false ∧ e.isEOF = false ∧ e.isPrompt = false := by
  have hu : (str "Unknown mode '").head? = some 85 := by decide
  intro e he
  unfold switchWarning at he
  split at he
  · simp only [List.not_mem_nil] at he
  · split at he
    · simp only [List.not_mem_nil] at he
    · simp only [List.mem_singleton] at he
      subst he
      exact ⟨rfl, rfl, not_prompt_of_head _ 85 (head_append _ _ _ (head_append _ _ _ hu))
        (by decide) (by decide)⟩

/-- What is counted in a run of the main loop on the scanner `s` with fuel `n`: the
calls of `Scan` that read a line are at most as many as the lines the scanner
holds; on a scanner made by `bufio.NewScanner` at most two calls return false;
there are as many prompts as calls of `Scan`; and with more fuel than calls in
the scanner the run ends. -/
theorem mainLoop_counted (dictKey : GoString) :
    ∀ n mode D d s fs,
      (mainLoop n mode dictKey D d s fs).trace.countP Event.isAnswer ≤
        s.countP Option.isSome ∧
      (bufio.reachable s → (mainLoop n mode dictKey D d s fs).trace.countP Event.isEOF ≤ 2) ∧
      (mainLoop n mode dictKey D d s fs).trace.countP Event.isPrompt =
        (mainLoop n mode dictKey D d s fs).trace.countP Event.isAnswer +
          (mainLoop n mode dictKey D d s fs).trace.countP Event.isEOF ∧
      (s.length < n → (mainLoop n mode dictKey D d s fs).status ≠ Status.running) := by
  have hsp : savePrompt.isPrompt = true := by decide
  have hwp : switchPrompt.isPrompt = true := by decide
  have hsa : savePrompt.isAnswer = false := rfl
  have hse : savePrompt.isEOF = false := rfl
  have hwa : switchPrompt.isAnswer = false := rfl
  have hwe : switchPrompt.isEOF = false := rfl
  have hfa := fun D fs => countP_quiet Event.isAnswer _ (fun e he => (finalSave_counts D fs e he).1)
  have hfe := fun D fs => countP_quiet Event.isEOF _ (fun e he => (finalSave_counts D fs e he).2.1)
  have hfp := fun D fs =>
    countP_quiet Event.isPrompt _ (fun e he => (finalSave_counts D fs e he).2.2)
  have hya := fun c D fs =>
    countP_quiet Event.isAnswer _ (fun e he => (saveIfYes_counts c D fs e he).1)
  have hye := fun c D fs =>
    countP_quiet Event.isEOF _ (fun e he => (saveIfYes_counts c D fs e he).2.1)
  have hyp := fun c D fs =>
    countP_quiet Event.isPrompt _ (fun e he => (saveIfYes_counts c D fs e he).2.2)
  have hxa := fun s => countP_quiet Event.isAnswer _ (fun e he => (switchWarning_counts s e he).1)
  have hxe := fun s => countP_quiet Event.isEOF _ (fun e he => (switchWarning_counts s e he).2.1)
  have hxp := fun s =>
    countP_quiet Event.isPrompt _ (fun e he => (switchWarning_counts s e he).2.2)
  refine mainLoop_induct dictKey
    (fun n _ _ _ s _ r =>
      r.trace.countP Event.isAnswer ≤ s.countP Option.isSome ∧
      (bufio.reachable s → r.trace.countP Event.isEOF ≤ 2) ∧
      r.trace.countP Event.isPrompt =
        r.trace.countP Event.isAnswer + r.trace.countP Event.isEOF ∧
      (s.length < n → r.status ≠ Status.running)) ?_ ?_ ?_ ?_ ?_ ?_ ?_ ?_
  · intro mode D d s fs
    exact ⟨Nat.zero_le _, fun _ => Nat.zero_le _, rfl, fun h => absurd h (Nat.not_lt_zero _)⟩
  · intro n mode D d s fs _
    have hu : (str "Unknown mode '").head? = some 85 := by decide
    have h1 := not_prompt_of_head _ 85 (head_append _ (str "'\n") _ (head_append _ mode _ hu))
      (by decide) (by decide)
    have h2 : printUsage.countP Event.isPrompt = 0 := by decide
    have h3 : printUsage.countP Event.isAnswer = 0 := by decide
    have h4 : printUsage.countP Event.isEOF = 0 := by decide
    simp only [List.countP_cons, h1, h2, h3, h4, isAnswer_print, isEOF_print,
      Bool.false_eq_true, if_false]
    exact ⟨Nat.zero_le _, fun _ => Nat.zero_le _, trivial, fun _ h => Status.noConfusion h⟩
  · intro n mode D d s fs _ _
    obtain ⟨ha, _, hc, _, he⟩ := runMode_counted mode d s
    dsimp only
    exact ⟨by omega, fun _ => by omega, he, fun _ h => Status.noConfusion h⟩
  · intro n mode D d s fs _ _ hsc
    obtain ⟨ha, _, hc, _, he⟩ := runMode_counted mode d s
    simp only [Run.after, List.countP_append, List.countP_cons, List.countP_nil, hsp, hsa, hse,
      isPrompt_scan, isAnswer_eof, isEOF_eof, hfa, hfe, hfp, if_true, Bool.false_eq_true,
      if_false]
    exact ⟨by omega, fun _ => by omega, by omega, fun _ h => Status.noConfusion h⟩
  · intro n mode D d s fs line rest _ _ hsc _
    obtain ⟨ha, _, hc, _, he⟩ := runMode_counted mode d s
    rw [hsc] at ha
    simp only [List.countP_cons, Option.isSome_some, if_true] at ha
    simp only [Run.after, List.countP_append, List.countP_cons, List.countP_nil, hsp, hsa, hse,
      isPrompt_scan, isAnswer_scan, isEOF_scan, hfa, hfe, hfp, if_true, Bool.false_eq_true,
      if_false]
    exact ⟨by omega, fun _ => by omega, by omega, fun _ h => Status.noConfusion h⟩
  · intro n mode D d s fs line rest _ _ hsc _ _
    obtain ⟨ha, _, hc, _, he⟩ := runMode_counted mode d s
    rw [hsc] at ha
    simp only [List.countP_cons, Option.isSome_some, if_true] at ha
    simp only [Run.after, roundEvents, List.countP_append, List.countP_cons, List.countP_nil,
      hsp, hsa, hse, hwp, hwa, hwe, isPrompt_scan, isAnswer_scan, isEOF_scan, isAnswer_eof,
      isEOF_eof, hfa, hfe, hfp, hya, hye, hyp, if_true, Bool.false_eq_true, if_false]
    exact ⟨by omega, fun _ => by omega, by omega, fun _ h => Status.noConfusion h⟩
  · intro n mode D d s fs line line2 rest _ _ hsc _ _
    obtain ⟨ha, _, hc, _, he⟩ := runMode_counted mode d s
    rw [hsc] at ha
    simp only [List.countP_cons, Option.isSome_some, if_true] at ha
    simp only [roundEvents, List.countP_append, List.countP_cons, List.countP_nil,
      hsp, hsa, hse, hwp, hwa, hwe, isPrompt_scan, isAnswer_scan, isEOF_scan,
      hya, hye, hyp, if_true, Bool.false_eq_true, if_false]
    exact ⟨by omega, fun _ => by omega, by omega, fun _ h => Status.noConfusion h⟩
  · intro n mode D d s fs line line2 rest _ _ hsc _ _ ih
    obtain ⟨ha, hb, hc, hd, he⟩ := runMode_counted mode d s
    obtain ⟨i1, i2, i3, i4⟩ := ih
    rw [hsc] at ha hb hd
    simp only [List.countP_cons, Option.isSome_some, if_true] at ha
    simp only [List.length_cons] at hb hd
    simp only [Run.after, roundEvents, List.countP_append, List.countP_cons, List.countP_nil,
      hsp, hsa, hse, hwp, hwa, hwe, isPrompt_scan, isAnswer_scan, isEOF_scan,
      hya, hye, hyp, hxa, hxe, hxp, if_true, Bool.false_eq_true, if_false]
    refine ⟨by omega, fun hr => ?_, by omega, fun h => i4 (by omega)⟩
    obtain ⟨h1, h2⟩ := hd hr
    have h3 := i2 (bufio.reachable_tail _ _ (bufio.reachable_tail _ _ h1))
    omega

theorem loadOrSeed_counts (fs : FileSys) :
    ∀ e ∈ (loadOrSeed fs).2, e.isAnswer = false ∧ e.isEOF = false ∧ e.isPrompt = false := by
  intro e he
  unfold loadOrSeed at he
  split at he
  · simp only [List.mem_singleton] at he
    subst he
    exact ⟨rfl, rfl, rfl⟩
  · simp only [List.mem_cons, List.mem_singleton, List.not_mem_nil, or_false] at he
    rcases he with rfl | rfl <;> exact ⟨rfl, rfl, rfl⟩

theorem listDictionaries_counts :
    ∀ (entries : List (GoString × Option Dictionary)),
      ∀ e ∈ (listDictionaries entries).1,
        e.isAnswer = false ∧ e.isEOF = false ∧ e.isPrompt = false := by
  have hs : (str "  ").head? = some 32 := by decide
  intro entries
  induction entries with
  | nil => intro e he; simp [listDictionaries] at he
  | cons x t ih =>
    obtain ⟨key, p⟩ := x
    cases p with
    | none => intro e he; simp [listDictionaries] at he
    | some d =>
      intro e he
      simp only [listDictionaries, List.mem_cons] at he
      rcases he with rfl | he
      · exact ⟨rfl, rfl, not_prompt_of_head _ 32
          (head_append _ _ _ (head_append _ _ _ (head_append _ _ _ (head_append _ _ _
            (head_append _ _ _ (head_append _ _ _ hs))))))
          (by decide) (by decide)⟩
      · exact ih e he

/-- A run of `main` that does not reach the main loop has no prompt and no call of
`Scan`, and ends. -/
theorem main_counts_cases (osArgs stdin : List GoString) (fs : FileSys) :
    ((∀ e ∈ (main osArgs stdin fs).trace,
        e.isAnswer = false ∧ e.isEOF = false ∧ e.isPrompt = false) ∧
      (main osArgs stdin fs).status ≠ Status.running) ∨
    ∃ dictKey mode dictionaries dict,
      main osArgs stdin fs =
        (mainLoop ((bufio.NewScanner stdin).length + 1) mode dictKey dictionaries dict
          (bufio.NewScanner stdin) fs).after
          (loadOrSeed fs).2 := by
  have hd : (str "Dictionary '").head? = some 68 := by decide
  unfold main
  split
  · rename_i program dictKey mode
    simp only
    cases hstart : (loadOrSeed fs).1 with
    | none =>
      left
      exact ⟨loadOrSeed_counts fs, fun h => Status.noConfusion h⟩
    | some dictionaries =>
      simp only
      cases hkey : dictionaries.GetDictionary dictKey with
      | none =>
        left
        refine ⟨?_, ?_⟩
        · intro e he
          simp only [List.mem_append, List.mem_cons, List.mem_singleton, List.not_mem_nil,
            or_false] at he
          rcases he with (he | rfl | rfl) | he
          · exact loadOrSeed_counts fs e he
          · exact ⟨rfl, rfl, not_prompt_of_head _ 68
              (head_append _ _ _ (head_append _ _ _ hd)) (by decide) (by decide)⟩
          · exact ⟨rfl, rfl, by decide⟩
          · exact listDictionaries_counts _ e he
        · simp only
          split <;> exact fun h => Status.noConfusion h
      | some dict =>
        right
        exact ⟨dictKey, mode, dictionaries, dict, rfl⟩
  · left
    refine ⟨?_, fun h => Status.noConfusion h⟩
    intro e he
    simp only [printUsage, List.mem_cons, List.mem_singleton, List.not_mem_nil, or_false] at he
    rcases he with rfl | rfl | rfl | rfl <;> exact ⟨rfl, rfl, by decide⟩

/-- C20: every session ends, by a return or by a panic: the bound on the rounds of
the main loop is never reached.  In its events, the calls of `Scan` that read a
line are at most as many as the lines of the input, at most two calls of `Scan`
return false, and the prompts printed are as many as the calls of `Scan`: so
the prompts are at most the number of lines plus two.  And a run of `findMode`
or of `writeMode` on a scanner reads by each call of `Scan` that returns true
one line of those the scanner holds, the others being left to it; it uses up
one call of the scanner for every line it reads, so that on a scanner all of
whose calls read a line the lines it reads and the lines it leaves are the
lines it was given; and it has at most one call of `Scan` that returns
false. -/
theorem C20_termination (osArgs stdin : List GoString) (fs : FileSys) :
    (main osArgs stdin fs).status ≠ Status.running ∧
    (main osArgs stdin fs).trace.countP Event.isAnswer ≤ stdin.length ∧
    (main osArgs stdin fs).trace.countP Event.isEOF ≤ 2 ∧
    (main osArgs stdin fs).trace.countP Event.isPrompt =
      (main osArgs stdin fs).trace.countP Event.isAnswer +
        (main osArgs stdin fs).trace.countP Event.isEOF ∧
    (main osArgs stdin fs).trace.countP Event.isPrompt ≤ stdin.length + 2 ∧
    (∀ (d : Dictionary) (s : bufio.Scanner),
      (findMode d s).trace.countP Event.isAnswer +
          (findMode d s).scanner.countP Option.isSome = s.countP Option.isSome ∧
      (findMode d s).trace.countP Event.isAnswer + (findMode d s).scanner.length ≤ s.length ∧
      ((∀ call ∈ s, call.isSome = true) →
        (findMode d s).trace.countP Event.isAnswer + (findMode d s).scanner.length =
          s.length) ∧
      (findMode d s).trace.countP Event.isEOF ≤ 1) ∧
    (∀ (d : Dictionary) (s : bufio.Scanner),
      (writeMode d s).trace.countP Event.isAnswer +
          (writeMode d s).scanner.countP Option.isSome = s.countP Option.isSome ∧
      (writeMode d s).trace.countP Event.isAnswer + (writeMode d s).scanner.length ≤ s.length ∧
      ((∀ call ∈ s, call.isSome = true) →
        (writeMode d s).trace.countP Event.isAnswer + (writeMode d s).scanner.length =
          s.length) ∧
      (writeMode d s).trace.countP Event.isEOF ≤ 1) := by
  have hmain : (main osArgs stdin fs).status ≠ Status.running ∧
      (main osArgs stdin fs).trace.countP Event.isAnswer ≤ stdin.length ∧
      (main osArgs stdin fs).trace.countP Event.isEOF ≤ 2 ∧
      (main osArgs stdin fs).trace.countP Event.isPrompt =
        (main osArgs stdin fs).trace.countP Event.isAnswer +
          (main osArgs stdin fs).trace.countP Event.isEOF := by
    rcases main_counts_cases osArgs stdin fs with ⟨hq, hs⟩ | ⟨dictKey, mode, D, d, hrun⟩
    · rw [countP_quiet _ _ (fun e he => (hq e he).1), countP_quiet _ _ (fun e he => (hq e he).2.1),
        countP_quiet _ _ (fun e he => (hq e he).2.2)]
      exact ⟨hs, Nat.zero_le _, Nat.zero_le _, rfl⟩
    · obtain ⟨h1, h2, h3, h4⟩ := mainLoop_counted dictKey ((bufio.NewScanner stdin).length + 1)
        mode D d (bufio.NewScanner stdin) fs
      rw [hrun]
      simp only [Run.after, List.countP_append,
        countP_quiet _ _ (fun e he => (loadOrSeed_counts fs e he).1),
        countP_quiet _ _ (fun e he => (loadOrSeed_counts fs e he).2.1),
        countP_quiet _ _ (fun e he => (loadOrSeed_counts fs e he).2.2), Nat.zero_add]
      exact ⟨h4 (Nat.lt_succ_self _), Nat.le_trans h1 (bufio.NewScanner_lines stdin),
        h2 (bufio.reachable_NewScanner stdin), h3⟩
  obtain ⟨h1, h2, h3, h4⟩ := hmain
  refine ⟨h1, h2, h3, h4, by omega, ?_, ?_⟩
  · intro d s
    have h := runMode_counted (str "-find") d s
    unfold runMode at h
    rw [if_pos rfl] at h
    refine ⟨h.1, h.2.1, fun hall => ?_, h.2.2.1⟩
    have h1 : s.countP Option.isSome = s.length := List.countP_eq_length.2 hall
    have h2 := List.countP_le_length Option.isSome (l := (findMode d s).scanner)
    have h3 := h.1
    have h4 := h.2.1
    omega
  · intro d s
    have h := runMode_counted (str "-write") d s
    unfold runMode at h
    rw [if_neg (by decide)] at h
    refine ⟨h.1, h.2.1, fun hall => ?_, h.2.2.1⟩
    have h1 : s.countP Option.isSome = s.length := List.countP_eq_length.2 hall
    have h2 := List.countP_le_length Option.isSome (l := (writeMode d s).scanner)
    have h3 := h.1
    have h4 := h.2.1
    omega

/-! ## The final save when the input runs out -/

theorem countP_pos_of_mem (p : Event → Bool) (l : List Event) (e : Event) (he : e ∈ l)
    (hp : p e = true) : 0 < l.countP p :=
  List.countP_pos_iff.2 ⟨e, he, hp⟩

/-- A run of a mode after which the scanner holds two calls or more has no call of
`Scan` that returns false, on a scanner made by `bufio.NewScanner`. -/
theorem runMode_no_eof (mode : GoString) (d : Dictionary) (s : bufio.Scanner)
    (hs : bufio.reachable s) (x y : Option GoString) (rest : bufio.Scanner)
    (hsc : (runMode mode d s).scanner = x :: y :: rest) :
    bufio.reachable rest ∧ ∀ e ∈ (runMode mode d s).trace, e.isEOF = false := by
  obtain ⟨_, _, _, hd, _⟩ := runMode_counted mode d s
  obtain ⟨h1, h2⟩ := hd hs
  rw [hsc] at h1 h2
  refine ⟨bufio.reachable_tail _ _ (bufio.reachable_tail _ _ h1), ?_⟩
  intro e he
  cases hp : e.isEOF with
  | false => rfl
  | true =>
    have := countP_pos_of_mem Event.isEOF _ e he hp
    simp only [List.length_cons] at h2
    omega

/-- A final save after a mode and the events `answer` of the prompts ends the run by
the final save. -/
theorem finalSave_ends (dictKey : GoString) (D : Dictionaries) (d : Dictionary) (fs : FileSys)
    (m : ModeRun) (answer : List Event) (hwb : m.wellBehaved d) (hp : m.panicked = false)
    (hadd : ∀ e ∈ answer, e.isAddWord = false) :
    ((finalSave (D.store dictKey m.dict) fs).after (m.trace ++ answer)).endsByFinalSave
      dictKey D d := by
  rw [finalSave_eq]
  refine ⟨rfl, m.trace ++ answer, m.dict, _, rfl, hwb.2.1, hwb.2.2.1, ?_⟩
  intro w
  have hl : lastAdded w (m.trace ++ answer ++
      [Event.save filename (D.store dictKey m.dict)
          ((D.store dictKey m.dict).SaveToJson filename fs).2,
        report ((D.store dictKey m.dict).SaveToJson filename fs).2]) = lastAdded w m.trace := by
    rw [List.append_assoc, lastAdded_append, lastAdded_eq_none w (answer ++ _)]
    · rfl
    · intro e he
      rcases List.mem_append.mp he with h | h
      · exact hadd e h
      · simp only [List.mem_cons, List.mem_singleton, List.not_mem_nil, or_false] at h
        rcases h with rfl | rfl
        · rfl
        · exact (report_flags _).2.1
  simp only [Run.after]
  rw [hl]
  exact hwb.2.2.2.1 hp w

/-- On a scanner made by `bufio.NewScanner`, a run of the main loop in which a call
of `Scan` returns false ends by the final save of the collection in memory. -/
theorem mainLoop_ends (dictKey : GoString) :
    ∀ n mode D d s fs, bufio.reachable s →
      (∃ e ∈ (mainLoop n mode dictKey D d s fs).trace, e.isEOF = true) →
      (mainLoop n mode dictKey D d s fs).endsByFinalSave dictKey D d := by
  refine mainLoop_induct dictKey
    (fun _ _ D d s _ r => bufio.reachable s → (∃ e ∈ r.trace, e.isEOF = true) →
      r.endsByFinalSave dictKey D d) ?_ ?_ ?_ ?_ ?_ ?_ ?_ ?_
  · intro mode D d s fs _ h
    obtain ⟨e, he, _⟩ := h
    exact absurd he (List.not_mem_nil e)
  · intro n mode D d s fs _ _ h
    obtain ⟨e, he, hp⟩ := h
    simp only [printUsage, List.mem_cons, List.mem_singleton, List.not_mem_nil,
      or_false] at he
    rcases he with rfl | rfl | rfl | rfl | rfl <;> exact absurd hp Bool.false_ne_true
  · intro n mode D d s fs _ hp _ h
    obtain ⟨e, he, hpe⟩ := h
    obtain ⟨pre, post, hsplit⟩ := List.append_of_mem he
    have hmem := mem_eventsAfter Event.isEOF pre e post hpe
    rw [← hsplit] at hmem
    have := ((runMode_wellBehaved mode d s).2.2.2.2 _ hmem).2
    rw [hp] at this
    exact absurd this (by decide)
  · intro n mode D d s fs _ hp _ _ _
    apply finalSave_ends dictKey D d fs _ _ (runMode_wellBehaved mode d s) hp
    intro e he
    simp only [List.mem_cons, List.mem_singleton, List.not_mem_nil, or_false] at he
    rcases he with rfl | rfl <;> rfl
  · intro n mode D d s fs line rest _ hp _ _ _ _
    apply finalSave_ends dictKey D d fs _ _ (runMode_wellBehaved mode d s) hp
    intro e he
    simp only [List.mem_cons, List.mem_singleton, List.not_mem_nil, or_false] at he
    rcases he with rfl | rfl <;> rfl
  · intro n mode D d s fs line rest _ hp _ _ _ _ _
    have := finalSave_ends dictKey D d
      (saveIfYes (strings.ToLower (strings.TrimSpace line))
        (D.store dictKey (runMode mode d s).dict) fs).2 (runMode mode d s)
      ([savePrompt, Event.scan Site.saveChoice (some line)] ++
        (saveIfYes (strings.ToLower (strings.TrimSpace line))
          (D.store dictKey (runMode mode d s).dict) fs).1 ++
        [switchPrompt, Event.scan Site.newMode none]) (runMode_wellBehaved mode d s) hp ?_
    · simpa only [roundEvents, List.append_assoc] using this
    · intro e he
      simp only [List.mem_append, List.mem_cons, List.mem_singleton, List.not_mem_nil,
        or_false] at he
      rcases he with ((rfl | rfl) | he) | rfl | rfl
      · rfl
      · rfl
      · exact (saveIfYes_events _ _ _ e he).2.1
      · rfl
      · rfl
  · intro n mode D d s fs line line2 rest _ _ hsc _ _ hs h
    obtain ⟨e, he, hpe⟩ := h
    obtain ⟨_, hno⟩ := runMode_no_eof mode d s hs _ _ rest hsc
    simp only [roundEvents, List.mem_append, List.mem_cons, List.mem_singleton,
      List.not_mem_nil, or_false] at he
    rcases he with ((he | rfl | rfl) | he) | rfl | rfl
    · rw [hno e he] at hpe
      exact absurd hpe Bool.false_ne_true
    · exact absurd hpe Bool.false_ne_true
    · exact absurd hpe Bool.false_ne_true
    · exact absurd hpe (by rw [(saveIfYes_counts _ _ _ e he).2.1]; exact Bool.false_ne_true)
    · exact absurd hpe Bool.false_ne_true
    · exact absurd hpe Bool.false_ne_true
  · intro n mode D d s fs line line2 rest _ hp hsc _ _ ih hs h
    obtain ⟨e, he, hpe⟩ := h
    obtain ⟨hrest, hno⟩ := runMode_no_eof mode d s hs _ _ rest hsc
    have hwb := runMode_wellBehaved mode d s
    have hextra := switchWarning_events (strings.TrimSpace line2)
    have hin : ∃ e ∈ (mainLoop n (nextMode mode (strings.TrimSpace line2)) dictKey
        (D.store dictKey (runMode mode d s).dict) (runMode mode d s).dict rest
        (saveIfYes (strings.ToLower (strings.TrimSpace line))
          (D.store dictKey (runMode mode d s).dict) fs).2).trace, e.isEOF = true := by
      simp only [Run.after, roundEvents, List.mem_append, List.mem_cons, List.mem_singleton,
        List.not_mem_nil, or_false] at he
      rcases he with ((((he | rfl | rfl) | he) | rfl | rfl) | he) | he
      · rw [hno e he] at hpe
        exact absurd hpe Bool.false_ne_true
      · exact absurd hpe Bool.false_ne_true
      · exact absurd hpe Bool.false_ne_true
      · exact absurd hpe (by rw [(saveIfYes_counts _ _ _ e he).2.1]; exact Bool.false_ne_true)
      · exact absurd hpe Bool.false_ne_true
      · exact absurd hpe Bool.false_ne_true
      · obtain ⟨text, rfl⟩ := hextra e he
        exact absurd hpe Bool.false_ne_true
      · exact ⟨e, he, hpe⟩
    obtain ⟨hst, init, dict', err, h1, h3, h4, h5⟩ := ih hrest hin
    refine ⟨hst, (roundEvents (runMode mode d s) line (D.store dictKey (runMode mode d s).dict)
        fs ++ [switchPrompt, Event.scan Site.newMode (some line2)] ++
        switchWarning (strings.TrimSpace line2)) ++ init, dict', err, ?_, h3.trans hwb.2.1,
      h4.trans hwb.2.2.1, ?_⟩
    · simp only [Run.after, h1, store_store, List.append_assoc]
    · intro w
      have htail : ∀ e ∈ [switchPrompt, Event.scan Site.newMode (some line2)] ++
          switchWarning (strings.TrimSpace line2), e.isAddWord = false := by
        intro e he
        simp only [List.mem_append, List.mem_cons, List.mem_singleton, List.not_mem_nil,
          or_false] at he
        rcases he with (rfl | rfl) | he
        · rfl
        · rfl
        · obtain ⟨text, rfl⟩ := hextra e he
          rfl
      simp only [Run.after]
      rw [h5 w, hwb.2.2.2.1 hp w, lastAdded_append, List.append_assoc,
        round_lastAdded _ _ _ _ w _ htail, Option.or_assoc]

/-- Where the end of the input leads.  In a session with two arguments and a key
that has a dictionary, when a call of `Scan` returns false (at any of the five
sites: the input has run out, or a line of 64 KiB or more is met), the session
returns, and its last events are one call of `SaveToJson`, the final save after
the loop, and its message.  That call saves the collection in memory: the
collection `main` started with, with the words of the dictionary under the key
overwritten by every call of `AddWord` of the session. -/
theorem end_of_input_leads_to_final_save (program dictKey mode : GoString)
    (stdin : List GoString) (fs : FileSys) (dictionaries : Dictionaries) (dict : Dictionary)
    (hstart : (loadOrSeed fs).1 = some dictionaries)
    (hkey : dictionaries.GetDictionary dictKey = some dict)
    (site : Site) (hrun : Event.scan site none ∈ (main [program, dictKey, mode] stdin fs).trace) :
    (main [program, dictKey, mode] stdin fs).status = Status.exited ∧
    ∃ init dict' err,
      (main [program, dictKey, mode] stdin fs).trace =
        init ++ [Event.save filename (dictionaries.store dictKey dict') err, report err] ∧
      (dictionaries.store dictKey dict').GetDictionary dictKey = some dict' ∧
      dict'.From = dict.From ∧ dict'.To = dict.To ∧
      ∀ w, dict'.Words.get w =
        (lastAdded w (main [program, dictKey, mode] stdin fs).trace).or (dict.Words.get w) := by
  have hload := loadOrSeed_events fs
  rw [main_eq_loop program dictKey mode stdin fs dictionaries dict hstart hkey] at hrun ⊢
  simp only [Run.after] at hrun ⊢
  have hin : ∃ e ∈ (mainLoop ((bufio.NewScanner stdin).length + 1) mode dictKey dictionaries
      dict (bufio.NewScanner stdin) fs).trace, e.isEOF = true := by
    rcases List.mem_append.1 hrun with h | h
    · exact absurd (hload _ h) Bool.false_ne_true
    · exact ⟨_, h, rfl⟩
  obtain ⟨hst, init, dict', err, h1, h3, h4, h5⟩ :=
    mainLoop_ends dictKey _ mode dictionaries dict _ fs (bufio.reachable_NewScanner stdin) hin
  refine ⟨hst, (loadOrSeed fs).2 ++ init, dict', err, ?_,
    store_get_self dictionaries dictKey dict dict' hkey, h3, h4, ?_⟩
  · rw [h1, List.append_assoc]
  · intro w
    rw [h5 w, lastAdded_append,
      lastAdded_eq_none w _ (fun e he => (atStart_flags e (hload e he)).2.1)]
    cases lastAdded w (mainLoop ((bufio.NewScanner stdin).length + 1) mode dictKey dictionaries
      dict (bufio.NewScanner stdin) fs).trace <;> rfl

/-! ## A session depends on the file system only through the load and the faults -/

theorem SaveToJson_faults (D : Dictionaries) (fs fs2 : FileSys) (hf : fs.faults = fs2.faults) :
    (D.SaveToJson filename fs).2 = (D.SaveToJson filename fs2).2 ∧
      (D.SaveToJson filename fs).1.faults = (D.SaveToJson filename fs2).1.faults := by
  unfold Dictionaries.SaveToJson
  rw [hf]
  split <;> exact ⟨rfl, rfl⟩

theorem saveIfYes_faults (choice : GoString) (D : Dictionaries) (fs fs2 : FileSys)
    (hf : fs.faults = fs2.faults) :
    (saveIfYes choice D fs).1 = (saveIfYes choice D fs2).1 ∧
      (saveIfYes choice D fs).2.faults = (saveIfYes choice D fs2).2.faults := by
  unfold saveIfYes
  split
  · rw [saveAndReport_eq, saveAndReport_eq, (SaveToJson_faults D fs fs2 hf).1]
    exact ⟨rfl, (SaveToJson_faults D fs fs2 hf).2⟩
  · exact ⟨rfl, hf⟩

theorem finalSave_faults (D : Dictionaries) (fs fs2 : FileSys) (hf : fs.faults = fs2.faults) :
    (finalSave D fs).trace = (finalSave D fs2).trace ∧
      (finalSave D fs).status = (finalSave D fs2).status := by
  rw [finalSave_eq, finalSave_eq, (SaveToJson_faults D fs fs2 hf).1]
  exact ⟨rfl, rfl⟩

/-- The events and the end of a run of the main loop are the same on two file
systems with the same faults at the calls of `SaveToJson`. -/
theorem mainLoop_faults (dictKey : GoString) :
    ∀ n mode D d scanner fs, ∀ fs2 : FileSys, fs.faults = fs2.faults →
      (mainLoop n mode dictKey D d scanner fs2).trace =
        (mainLoop n mode dictKey D d scanner fs).trace ∧
      (mainLoop n mode dictKey D d scanner fs2).status =
        (mainLoop n mode dictKey D d scanner fs).status := by
  refine mainLoop_induct dictKey
    (fun n mode D d scanner fs r => ∀ fs2 : FileSys, fs.faults = fs2.faults →
      (mainLoop n mode dictKey D d scanner fs2).trace = r.trace ∧
      (mainLoop n mode dictKey D d scanner fs2).status = r.status) ?_ ?_ ?_ ?_ ?_ ?_ ?_ ?_
  · intro mode D d scanner fs fs2 _
    simp only [mainLoop, and_self]
  · intro n mode D d scanner fs hmode fs2 _
    rw [mainLoop_unknown n mode dictKey D d scanner fs2 hmode]
    exact ⟨rfl, rfl⟩
  · intro n mode D d scanner fs hmode hp fs2 _
    rw [mainLoop_panic n mode dictKey D d scanner fs2 hmode hp]
    exact ⟨rfl, rfl⟩
  · intro n mode D d scanner fs hmode hp hsc fs2 hf
    rw [mainLoop_eof n mode dictKey D d scanner fs2 hmode hp hsc]
    simp only [Run.after, (finalSave_faults _ fs fs2 hf).1, (finalSave_faults _ fs fs2 hf).2,
      and_self]
  · intro n mode D d scanner fs line rest hmode hp hsc hq fs2 hf
    rw [mainLoop_quit n mode dictKey D d scanner fs2 line rest hmode hp hsc hq]
    simp only [Run.after, (finalSave_faults _ fs fs2 hf).1, (finalSave_faults _ fs fs2 hf).2,
      and_self]
  · intro n mode D d scanner fs line rest hmode hp hsc hq hrest fs2 hf
    rw [mainLoop_eof2 n mode dictKey D d scanner fs2 line rest hmode hp hsc hq hrest]
    have hy := saveIfYes_faults (strings.ToLower (strings.TrimSpace line))
      (D.store dictKey (runMode mode d scanner).dict) fs fs2 hf
    have hs := finalSave_faults (D.store dictKey (runMode mode d scanner).dict) _ _ hy.2
    simp only [Run.after, roundEvents, hy.1, hs.1, hs.2, and_self]
  · intro n mode D d scanner fs line line2 rest hmode hp hsc hq hx fs2 hf
    rw [mainLoop_exit n mode dictKey D d scanner fs2 line line2 rest hmode hp hsc hq hx]
    have hy := saveIfYes_faults (strings.ToLower (strings.TrimSpace line))
      (D.store dictKey (runMode mode d scanner).dict) fs fs2 hf
    simp only [roundEvents, hy.1, and_self]
  · intro n mode D d scanner fs line line2 rest hmode hp hsc hq hx ih fs2 hf
    rw [mainLoop_next n mode dictKey D d scanner fs2 line line2 rest hmode hp hsc hq hx]
    have hy := saveIfYes_faults (strings.ToLower (strings.TrimSpace line))
      (D.store dictKey (runMode mode d scanner).dict) fs fs2 hf
    obtain ⟨i1, i2⟩ := ih _ hy.2
    simp only [Run.after, roundEvents, hy.1, i1, i2, and_self]

theorem inMode_not_loadFailure (e : Event) (h : e.inMode = true) : e.isLoadFailure = false := by
  cases e with
  | printError f err => simp [Event.inMode] at h
  | _ => rfl

theorem report_not_loadFailure (err : Option Error) : (report err).isLoadFailure = false := by
  have h : str "Failed to save dictionaries: %v\n" ≠
      str "Failed to load dictionaries, creating new ones: %v\n" := by decide
  cases err with
  | none => rfl
  | some e => simp only [report, Event.isLoadFailure, decide_eq_false_iff_not]; exact h

/-- The main loop prints no message about a load. -/
theorem mainLoop_no_loadFailure (dictKey : GoString) :
    ∀ n mode D d scanner fs,
      ∀ e ∈ (mainLoop n mode dictKey D d scanner fs).trace, e.isLoadFailure = false := by
  have hfinal : ∀ (D : Dictionaries) (fs : FileSys),
      ∀ e ∈ (finalSave D fs).trace, e.isLoadFailure = false := by
    intro D fs e he
    rw [finalSave_eq] at he
    simp only [List.mem_cons, List.mem_singleton, List.not_mem_nil, or_false] at he
    rcases he with rfl | rfl
    · rfl
    · exact report_not_loadFailure _
  have hround : ∀ (mode : GoString) (d : Dictionary) (scanner : bufio.Scanner)
      (line : GoString) (D : Dictionaries) (fs : FileSys) (x : Option GoString)
      (extra : List Event), (∀ e ∈ extra, ∃ text, e = Event.print text) →
      ∀ e ∈ roundEvents (runMode mode d scanner) line D fs ++
          [switchPrompt, Event.scan Site.newMode x] ++ extra, e.isLoadFailure = false := by
    intro mode d scanner line D fs x extra hextra e he
    simp only [roundEvents, List.mem_append, List.mem_cons, List.mem_singleton,
      List.not_mem_nil, or_false] at he
    rcases he with (((he | he | he) | he) | he | he) | he
    · exact inMode_not_loadFailure e ((runMode_wellBehaved mode d scanner).1 e he)
    · subst he; rfl
    · subst he; rfl
    · unfold saveIfYes at he
      split at he
      · rw [saveAndReport_eq] at he
        simp only [List.mem_cons, List.mem_singleton, List.not_mem_nil, or_false] at he
        rcases he with rfl | rfl
        · rfl
        · exact report_not_loadFailure _
      · simp only [List.not_mem_nil] at he
    · subst he; rfl
    · subst he; rfl
    · obtain ⟨text, rfl⟩ := hextra e he
      rfl
  refine mainLoop_induct dictKey
    (fun _ _ _ _ _ _ r => ∀ e ∈ r.trace, e.isLoadFailure = false) ?_ ?_ ?_ ?_ ?_ ?_ ?_ ?_
  · intro mode D d scanner fs e he
    simp only [List.not_mem_nil] at he
  · intro n mode D d scanner fs _ e he
    simp only [printUsage, List.mem_cons, List.mem_singleton, List.not_mem_nil,
      or_false] at he
    rcases he with rfl | rfl | rfl | rfl | rfl <;> rfl
  · intro n mode D d scanner fs _ _ e he
    exact inMode_not_loadFailure e ((runMode_wellBehaved mode d scanner).1 e he)
  · intro n mode D d scanner fs _ _ _ e he
    simp only [Run.after, List.mem_append, List.mem_cons, List.mem_singleton,
      List.not_mem_nil, or_false] at he
    rcases he with (he | he | he) | he
    · exact inMode_not_loadFailure e ((runMode_wellBehaved mode d scanner).1 e he)
    · subst he; rfl
    · subst he; rfl
    · exact hfinal _ _ e he
  · intro n mode D d scanner fs line rest _ _ _ _ e he
    simp only [Run.after, List.mem_append, List.mem_cons, List.mem_singleton,
      List.not_mem_nil, or_false] at he
    rcases he with (he | he | he) | he
    · exact inMode_not_loadFailure e ((runMode_wellBehaved mode d scanner).1 e he)
    · subst he; rfl
    · subst he; rfl
    · exact hfinal _ _ e he
  · intro n mode D d scanner fs line rest _ _ _ _ _ e he
    simp only [Run.after] at he
    rcases List.mem_append.1 he with he | he
    · exact hround mode d scanner line _ fs none [] (by simp) e
        (by rw [List.append_nil]; exact he)
    · exact hfinal _ _ e he
  · intro n mode D d scanner fs line line2 rest _ _ _ _ _ e he
    exact hround mode d scanner line _ fs (some line2) [] (by simp) e
      (by rw [List.append_nil]; exact he)
  · intro n mode D d scanner fs line line2 rest _ _ _ _ _ ih e he
    simp only [Run.after] at he
    rcases List.mem_append.1 he with he | he
    · exact hround mode d scanner line _ fs (some line2) _ (switchWarning_events _) e he
    · exact ih e he
theorem loadOrSeed_error (fs : FileSys) (err : Error)
    (h : LoadDictsFromJson filename fs = Except.error err) :
    loadOrSeed fs = (initializeDictionaries,
      [Event.load filename,
        Event.printError (str "Failed to load dictionaries, creating new ones: %v\n") err]) := by
  unfold loadOrSeed
  rw [h]

theorem listDictionaries_no_loadFailure :
    ∀ (entries : List (GoString × Option Dictionary)),
      ∀ e ∈ (listDictionaries entries).1, e.isLoadFailure = false := by
  intro entries
  induction entries with
  | nil => intro e he; simp [listDictionaries] at he
  | cons x t ih =>
    obtain ⟨key, p⟩ := x
    cases p with
    | none => intro e he; simp [listDictionaries] at he
    | some d =>
      intro e he
      simp only [listDictionaries, List.mem_cons] at he
      rcases he with rfl | he
      · rfl
      · exact ih e he

/-- C11 (amended): when `LoadDictsFromJson` returns an error on two file systems
(on one the file cannot be opened, say, and on the other it does not decode)
that behave alike at the calls of `SaveToJson`, a session with a key and a mode
goes on in both with what `initializeDictionaries` returns, and its events are
the load, the message "Failed to load dictionaries, creating new ones: ..."
with the error of the load, and then events none of which is a message about a
load; the session ends the same way in both.  When the key is one of the seed
these later events are the same in both, those of the main loop on the seed:
the same prints, the same calls of `Scan`, and the same calls of `SaveToJson`
with the same collections.  When the key is not one of the seed they are, in
both, "Dictionary '<key>' not found", "Available dictionaries:" and the lines
of the listing of the seed, which are the same lines in both, in the order
each `range` loop takes: the same order when the runtime draws the same. -/
theorem C11_load_failure_falls_back (program k mode : GoString) (stdin : List GoString)
    (fs1 fs2 : FileSys) (err1 err2 : Error)
    (h1 : LoadDictsFromJson filename fs1 = Except.error err1)
    (h2 : LoadDictsFromJson filename fs2 = Except.error err2)
    (hf : fs1.faults = fs2.faults) :
    (loadOrSeed fs1).1 = initializeDictionaries ∧
    (loadOrSeed fs2).1 = initializeDictionaries ∧
    ∃ rest1 rest2,
      (main [program, k, mode] stdin fs1).trace =
        Event.load filename ::
          Event.printError (str "Failed to load dictionaries, creating new ones: %v\n") err1 ::
          rest1 ∧
      (main [program, k, mode] stdin fs2).trace =
        Event.load filename ::
          Event.printError (str "Failed to load dictionaries, creating new ones: %v\n") err2 ::
          rest2 ∧
      (∀ e ∈ rest1, e.isLoadFailure = false) ∧
      (∀ e ∈ rest2, e.isLoadFailure = false) ∧
      (main [program, k, mode] stdin fs1).status = (main [program, k, mode] stdin fs2).status ∧
      (∀ D d, initializeDictionaries = some D → D.GetDictionary k = some d →
        rest1 = rest2 ∧
        rest1 = (mainLoop ((bufio.NewScanner stdin).length + 1) mode k D d
          (bufio.NewScanner stdin) fs1).trace) ∧
      (∀ D, initializeDictionaries = some D → D.GetDictionary k = none →
        ∃ listing1 listing2,
          rest1 = [Event.print (str "Dictionary '" ++ k ++ str "' not found\n"),
            Event.print (str "Available dictionaries:\n")] ++ listing1 ∧
          rest2 = [Event.print (str "Dictionary '" ++ k ++ str "' not found\n"),
            Event.print (str "Available dictionaries:\n")] ++ listing2 ∧
          listing1.Perm listing2 ∧
          listing1.Perm (D.Dicts.entries.filterMap (fun e => e.2.map (listingLine e.1))) ∧
          (fs1.picks = fs2.picks → listing1 = listing2)) := by
  have hseed : initializeDictionaries = some seed := by decide
  have hall : ∀ e ∈ seed.Dicts.entries, e.2 ≠ none := by decide
  have hl1 := loadOrSeed_error fs1 err1 h1
  have hl2 := loadOrSeed_error fs2 err2 h2
  refine ⟨by rw [hl1], by rw [hl2], ?_⟩
  cases hk : seed.GetDictionary k with
  | none =>
    have hlist : ∀ picks, listDictionaries (seed.Dicts.range picks) =
        ((seed.Dicts.range picks).filterMap (fun e => e.2.map (listingLine e.1)), false) :=
      fun picks => listDictionaries_of_no_nil _ (fun e he => hall e ((mem_range _ _ e).1 he))
    refine ⟨[Event.print (str "Dictionary '" ++ k ++ str "' not found\n"),
      Event.print (str "Available dictionaries:\n")] ++
      (listDictionaries (seed.Dicts.range fs1.picks)).1,
      [Event.print (str "Dictionary '" ++ k ++ str "' not found\n"),
      Event.print (str "Available dictionaries:\n")] ++
      (listDictionaries (seed.Dicts.range fs2.picks)).1, ?_, ?_, ?_, ?_, ?_, ?_, ?_⟩
    · simp only [main, hl1, hseed, hk, List.cons_append, List.nil_append]
    · simp only [main, hl2, hseed, hk, List.cons_append, List.nil_append]
    · intro e he
      simp only [List.cons_append, List.nil_append, List.mem_cons] at he
      rcases he with rfl | rfl | he
      · rfl
      · rfl
      · exact listDictionaries_no_loadFailure _ e he
    · intro e he
      simp only [List.cons_append, List.nil_append, List.mem_cons] at he
      rcases he with rfl | rfl | he
      · rfl
      · rfl
      · exact listDictionaries_no_loadFailure _ e he
    · simp only [main, hl1, hl2, hseed, hk, hlist]
    · intro D d hD hd
      rw [hseed] at hD
      simp only [Option.some.injEq] at hD
      subst hD
      rw [hk] at hd
      exact Option.noConfusion hd
    · intro D hD _
      rw [hseed] at hD
      simp only [Option.some.injEq] at hD
      subst hD
      refine ⟨_, _, rfl, rfl, ?_, ?_, ?_⟩
      · rw [hlist, hlist]
        exact ((shuffle_perm fs1.picks _).trans (shuffle_perm fs2.picks _).symm).filterMap _
      · rw [hlist]
        exact (shuffle_perm fs1.picks _).filterMap _
      · intro hp
        rw [hp]
  | some d =>
    obtain ⟨ht, hs⟩ := mainLoop_faults k ((bufio.NewScanner stdin).length + 1) mode seed d
      (bufio.NewScanner stdin) fs1 fs2 hf
    refine ⟨(mainLoop ((bufio.NewScanner stdin).length + 1) mode k seed d
        (bufio.NewScanner stdin) fs1).trace,
      (mainLoop ((bufio.NewScanner stdin).length + 1) mode k seed d
        (bufio.NewScanner stdin) fs1).trace, ?_, ?_,
      mainLoop_no_loadFailure k _ mode seed d _ fs1,
      mainLoop_no_loadFailure k _ mode seed d _ fs1, ?_, ?_, ?_⟩
    · simp only [main, hl1, hseed, hk, Run.after, List.cons_append, List.nil_append]
    · simp only [main, hl2, hseed, hk, Run.after, List.cons_append, List.nil_append, ht]
    · simp only [main, hl1, hl2, hseed, hk, Run.after, hs]
    · intro D d' hD hd
      rw [hseed] at hD
      simp only [Option.some.injEq] at hD
      subst hD
      rw [hk] at hd
      simp only [Option.some.injEq] at hd
      subst hd
      exact ⟨rfl, rfl⟩
    · intro D hD hd
      rw [hseed] at hD
      simp only [Option.some.injEq] at hD
      subst hD
      rw [hk] at hd
      exact Option.noConfusion hd

/-- C11, witness: a session in find mode with a save, on a file that does not
decode and on a file that does not exist. -/
theorem C11_load_failure_falls_back_witness :
    LoadDictsFromJson filename malformedFile =
      Except.error (Error.errorf (str "failed to decode JSON: %v")
        (Error.invalidJson (str "unexpected end of JSON input"))) ∧
    LoadDictsFromJson filename firstRun =
      Except.error (Error.errorf (str "failed to open file: %v")
        (Error.os (str "no such file or directory"))) ∧
    malformedFile.faults = firstRun.faults ∧
    (loadOrSeed malformedFile).1 = initializeDictionaries ∧
    (loadOrSeed firstRun).1 = initializeDictionaries ∧
    ∃ rest1 rest2,
      (main [str "program", str "en-ru", str "-find"] findLines malformedFile).trace =
        Event.load filename ::
          Event.printError (str "Failed to load dictionaries, creating new ones: %v\n")
            (Error.errorf (str "failed to decode JSON: %v")
              (Error.invalidJson (str "unexpected end of JSON input"))) ::
          rest1 ∧
      (main [str "program", str "en-ru", str "-find"] findLines firstRun).trace =
        Event.load filename ::
          Event.printError (str "Failed to load dictionaries, creating new ones: %v\n")
            (Error.errorf (str "failed to open file: %v")
              (Error.os (str "no such file or directory"))) ::
          rest2 ∧
      (∀ e ∈ rest1, e.isLoadFailure = false) ∧
      (∀ e ∈ rest2, e.isLoadFailure = false) ∧
      (main [str "program", str "en-ru", str "-find"] findLines malformedFile).status =
        (main [str "program", str "en-ru", str "-find"] findLines firstRun).status ∧
      (∀ D d, initializeDictionaries = some D → D.GetDictionary (str "en-ru") = some d →
        rest1 = rest2 ∧
        rest1 = (mainLoop ((bufio.NewScanner findLines).length + 1) (str "-find") (str "en-ru")
          D d (bufio.NewScanner findLines) malformedFile).trace) ∧
      (∀ D, initializeDictionaries = some D → D.GetDictionary (str "en-ru") = none →
        ∃ listing1 listing2,
          rest1 = [Event.print (str "Dictionary '" ++ str "en-ru" ++ str "' not found\n"),
            Event.print (str "Available dictionaries:\n")] ++ listing1 ∧
          rest2 = [Event.print (str "Dictionary '" ++ str "en-ru" ++ str "' not found\n"),
            Event.print (str "Available dictionaries:\n")] ++ listing2 ∧
          listing1.Perm listing2 ∧
          listing1.Perm (D.Dicts.entries.filterMap (fun e => e.2.map (listingLine e.1))) ∧
          (malformedFile.picks = firstRun.picks → listing1 = listing2)) :=
  ⟨rfl, rfl, rfl,
    C11_load_failure_falls_back (str "program") (str "en-ru") (str "-find") findLines
      malformedFile firstRun _ _ rfl rfl rfl⟩

/-- C11 (as stated, for every key) fails: with the key `xx-yy`, which is not one of
the seed, the session on a file that does not decode and the session on a file
that does not exist both list the three dictionaries of the seed after the
message about the load, and the two listings are in different orders, each in
the order its `range` loop takes. -/
theorem C11_counterexample :
    LoadDictsFromJson filename malformedFile =
      Except.error (Error.errorf (str "failed to decode JSON: %v")
        (Error.invalidJson (str "unexpected end of JSON input"))) ∧
    LoadDictsFromJson filename firstRun =
      Except.error (Error.errorf (str "failed to open file: %v")
        (Error.os (str "no such file or directory"))) ∧
    malformedFile.faults = firstRun.faults ∧
    (main [str "program", str "xx-yy", str "-find"] [] malformedFile).trace.drop 2 =
      [Event.print (str "Dictionary 'xx-yy' not found\n"),
        Event.print (str "Available dictionaries:\n"),
        Event.print (str "  de-ru (German->Russian)\n"),
        Event.print (str "  fr-ru (French->Russian)\n"),
        Event.print (str "  en-ru (English->Russian)\n")] ∧
    (main [str "program", str "xx-yy", str "-find"] [] firstRun).trace.drop 2 =
      [Event.print (str "Dictionary 'xx-yy' not found\n"),
        Event.print (str "Available dictionaries:\n"),
        Event.print (str "  en-ru (English->Russian)\n"),
        Event.print (str "  de-ru (German->Russian)\n"),
        Event.print (str "  fr-ru (French->Russian)\n")] ∧
    (main [str "program", str "xx-yy", str "-find"] [] malformedFile).trace.drop 2 ≠
      (main [str "program", str "xx-yy", str "-find"] [] firstRun).trace.drop 2 :=
  ⟨rfl, rfl, rfl, by decide, by decide, by decide⟩

/-! ## Find mode against its specification -/

theorem findLoop_spec (d : Dictionary) :
    ∀ lines : List GoString,
      (findLoop d (lines.map some)).trace = findSpec d lines ∧
      (findLoop d (lines.map some)).scanner =
        ((lines.dropWhile (fun line => !isExitLine line)).tail).map some := by
  intro lines
  induction lines with
  | nil =>
    rw [List.map_nil, findLoop_stop d [] rfl]
    exact ⟨rfl, rfl⟩
  | cons line rest ih =>
    rw [List.map_cons]
    by_cases hexit : strings.TrimSpace line = str "exit"
    · have h : isExitLine line = true := by simp only [isExitLine, hexit, decide_True]
      rw [findLoop_exit d line _ hexit]
      simp only [findSpec, List.takeWhile_cons, List.dropWhile_cons, h, Bool.not_true,
        Bool.false_eq_true, if_false, List.flatMap_nil, List.nil_append, List.head?_cons,
        List.tail_cons, and_self]
    · have h : isExitLine line = false := by simp only [isExitLine, hexit, decide_False]
      by_cases hempty : strings.TrimSpace line = str ""
      · rw [findLoop_empty d line _ hexit hempty]
        simp only [findSpec, List.takeWhile_cons, List.dropWhile_cons, h, Bool.not_false,
          if_true, List.flatMap_cons, findResult, if_pos hempty, List.append_nil,
          ModeRun.after, ih.1, ih.2, List.append_assoc, and_self]
      · cases hget : d.Words.get (strings.TrimSpace line) with
        | some translation =>
          rw [findLoop_found d line _ translation hexit hempty hget]
          simp only [findSpec, List.takeWhile_cons, List.dropWhile_cons, h, Bool.not_false,
            if_true, List.flatMap_cons, findResult, if_neg hempty, hget,
            ModeRun.after, ih.1, ih.2, List.append_assoc, and_self]
        | none =>
          rw [findLoop_not_found d line _ hexit hempty hget]
          simp only [findSpec, List.takeWhile_cons, List.dropWhile_cons, h, Bool.not_false,
            if_true, List.flatMap_cons, findResult, if_neg hempty, hget,
            ModeRun.after, ih.1, ih.2, List.append_assoc, and_self]

/-- C14 (amended): on every dictionary and every list of input lines that are all
shorter than 64 KiB, the texts of the lines being the lines without a carriage
return at their end, `findMode` prints its two heading lines and then does what
the specification of find mode says (`findSpec`): for every line before the
first that trims to exactly `exit`, in order, the prompt, the call of `Scan`
that reads the line, and the result line of the line (`findResult`: none for a
line that trims to empty, else exactly one, "Translation: w = t" when the
dictionary maps the trimmed text `w` to `t` and "Word 'w' not found in
dictionary" otherwise); then the prompt and one more call of `Scan`, which
reads the line that trims to `exit` or returns false at the end of the input.
The lines after that line are left to the scanner, and the line `EXIT` does
not end the mode. -/
theorem C14_find_mode_output (d : Dictionary) (lines : List GoString)
    (hshort : ∀ line ∈ lines, line.length < bufio.MaxScanTokenSize) :
    (findMode d (bufio.NewScanner lines)).trace =
      [Event.print (str "Find mode for " ++ d.From ++ str "->" ++ d.To ++ str " dictionary\n"),
        Event.print (str "Type 'exit' to return to main menu\n")] ++
        findSpec d (lines.map bufio.dropCR) ∧
    (findMode d (bufio.NewScanner lines)).scanner =
      (((lines.map bufio.dropCR).dropWhile (fun line => !isExitLine line)).tail).map some ∧
    (findMode d (bufio.NewScanner lines)).panicked = false ∧
    isExitLine (str "EXIT") = false ∧ isExitLine (str " exit ") = true := by
  rw [bufio.NewScanner_short lines hshort]
  refine ⟨?_, ?_, (findMode_dict d _).2, by decide, by decide⟩
  · simp only [findMode, ModeRun.after, (findLoop_spec d _).1]
  · simp only [findMode, ModeRun.after, (findLoop_spec d _).2]

/-- C14, witness: the dictionary `en-ru` of the seed and six short lines. -/
theorem C14_find_mode_output_witness :
    (∀ line ∈ lookupLines, line.length < bufio.MaxScanTokenSize) ∧
    (findMode enRu (bufio.NewScanner lookupLines)).trace =
      [Event.print (str "Find mode for " ++ enRu.From ++ str "->" ++ enRu.To ++
          str " dictionary\n"),
        Event.print (str "Type 'exit' to return to main menu\n")] ++
        findSpec enRu (lookupLines.map bufio.dropCR) ∧
    (findMode enRu (bufio.NewScanner lookupLines)).scanner =
      (((lookupLines.map bufio.dropCR).dropWhile (fun line => !isExitLine line)).tail).map
        some ∧
    (findMode enRu (bufio.NewScanner lookupLines)).panicked = false ∧
    isExitLine (str "EXIT") = false ∧ isExitLine (str " exit ") = true :=
  ⟨by decide, C14_find_mode_output enRu lookupLines (by decide)⟩

/-- C14 (as stated, for every list of lines) fails on a line of 64 KiB.  On the
dictionary `en-ru` of the seed and the lines `hello`, a line of 65536 spaces,
`world`, `exit`, the specification of find mode passes over the long line, which
trims to empty, and goes on to print "Translation: world = мир".  In the run
the call of `Scan` at the long line returns false and `findMode` returns after
`hello`: the word `world` is never looked up, and the scanner is left with the
call that returns what its buffer holds of the long line. -/
theorem C14_counterexample :
    ¬ (∀ line ∈ longInput, line.length < bufio.MaxScanTokenSize) ∧
    Event.print (str "Translation: world = мир\n") ∈
      findSpec enRu (longInput.map bufio.dropCR) ∧
    (findMode enRu (bufio.NewScanner longInput)).trace =
      [Event.print (str "Find mode for English->Russian dictionary\n"),
        Event.print (str "Type 'exit' to return to main menu\n"),
        Event.print (str "Enter word to translate: "),
        Event.scan Site.findWord (some (str "hello")),
        Event.print (str "Translation: hello = привет\n"),
        Event.print (str "Enter word to translate: "),
        Event.scan Site.findWord none] ∧
    Event.print (str "Translation: world = мир\n") ∉
      (findMode enRu (bufio.NewScanner longInput)).trace ∧
    (findMode enRu (bufio.NewScanner longInput)).scanner = [some longLine] := by
  have hhello : strings.TrimSpace (str "hello") = str "hello" := by decide
  have hworld : strings.TrimSpace (str "world") = str "world" := by decide
  have h1 : strings.TrimSpace (str "hello") ≠ str "exit" := by decide
  have h2 : strings.TrimSpace (str "hello") ≠ str "" := by decide
  have h3 : enRu.Words.get (strings.TrimSpace (str "hello")) = some (str "привет") := by decide
  have hrun : findLoop enRu (bufio.NewScanner longInput) =
      { trace := [Event.print (str "Enter word to translate: "),
          Event.scan Site.findWord (some (str "hello")),
          Event.print (str "Translation: hello = привет\n"),
          Event.print (str "Enter word to translate: "),
          Event.scan Site.findWord none],
        dict := enRu, scanner := [some longLine], panicked := false } := by
    rw [NewScanner_longInput, findLoop_found enRu _ _ _ h1 h2 h3,
      findLoop_stop enRu (none :: [some longLine]) rfl, hhello]
    have ht : str "Translation: " ++ str "hello" ++ str " = " ++ str "привет" ++ str "\n" =
        str "Translation: hello = привет\n" := by decide
    simp only [ModeRun.after, bufio.Scan, ht, List.cons_append, List.nil_append]
  have hheader : str "Find mode for " ++ enRu.From ++ str "->" ++ enRu.To ++
      str " dictionary\n" = str "Find mode for English->Russian dictionary\n" := by decide
  have htrace : (findMode enRu (bufio.NewScanner longInput)).trace =
      [Event.print (str "Find mode for English->Russian dictionary\n"),
        Event.print (str "Type 'exit' to return to main menu\n"),
        Event.print (str "Enter word to translate: "),
        Event.scan Site.findWord (some (str "hello")),
        Event.print (str "Translation: hello = привет\n"),
        Event.print (str "Enter word to translate: "),
        Event.scan Site.findWord none] := by
    simp only [findMode, ModeRun.after, hrun, hheader, List.cons_append, List.nil_append]
  refine ⟨?_, ?_, htrace, ?_, ?_⟩
  · intro h
    have := h longLine (by simp [longInput])
    rw [longLine_length] at this
    exact Nat.lt_irrefl _ this
  · have e1 : isExitLine (str "hello") = false := by decide
    have e2 : isExitLine longLine = false := by
      simp only [isExitLine, TrimSpace_longLine]
      decide
    have e3 : isExitLine (str "world") = false := by decide
    have d1 : bufio.dropCR (str "hello") = str "hello" := by decide
    have d3 : bufio.dropCR (str "world") = str "world" := by decide
    have hw : findResult enRu (str "world") =
        [Event.print (str "Translation: world = мир\n")] := by decide
    simp only [longInput, List.map_cons, List.map_nil, d1, d3, dropCR_longLine, findSpec,
      List.takeWhile_cons, e1, e2, e3, Bool.not_false, if_true, List.flatMap_cons, hw,
      List.mem_append, List.mem_cons]
    simp
  · rw [htrace]
    decide
  · simp only [findMode, ModeRun.after, hrun]

/-! ## `strings.TrimSpace` returns a trimmed string -/

theorem utf8.first_size (p0 sz lo hi : Nat) (h : utf8.first p0 = some (sz, lo, hi)) :
    sz = 2 ∨ sz = 3 ∨ sz = 4 := by
  unfold utf8.first at h
  repeat' split at h
  all_goals simp at h
  all_goals omega

/-- A rune that decodes at the start of a string decodes the same when the string
goes on. -/
theorem utf8.DecodeRune_append (s t : GoString)
    (h : (utf8.DecodeRune s).1 ≠ utf8.RuneError) :
    utf8.DecodeRune (s ++ t) = utf8.DecodeRune s := by
  rcases s with _ | ⟨p0, rest⟩
  · exact absurd rfl h
  · by_cases h0 : p0 < utf8.RuneSelf
    · simp only [List.cons_append, utf8.DecodeRune, if_pos h0]
    · cases hf : utf8.first p0 with
      | none =>
        simp only [utf8.DecodeRune, if_neg h0, hf] at h
        exact absurd rfl h
      | some v =>
        obtain ⟨sz, lo, hi⟩ := v
        have hsz := utf8.first_size p0 sz lo hi hf
        simp only [utf8.DecodeRune, if_neg h0, hf] at h
        simp only [List.cons_append, utf8.DecodeRune, if_neg h0, hf]
        split at h
        · exact absurd rfl h
        · rename_i hlen
          have hlen2 : ¬ (p0 :: (rest ++ t)).length < sz := by
            simp only [List.length_cons, List.length_append] at hlen ⊢
            omega
          simp only [if_neg hlen2, if_neg hlen]
          rcases rest with _ | ⟨b1, rest1⟩
          · exact absurd rfl h
          · simp only [List.cons_append]
            simp only at h
            split at h
            · exact absurd rfl h
            · rename_i hb1
              simp only [if_neg hb1]
              split at h
              · rename_i h2
                simp only [if_pos h2]
              · rename_i h2
                simp only [if_neg h2]
                rcases rest1 with _ | ⟨b2, rest2⟩
                · exact absurd rfl h
                · simp only [List.cons_append]
                  simp only at h
                  split at h
                  · exact absurd rfl h
                  · rename_i hb2
                    simp only [if_neg hb2]
                    split at h
                    · rename_i h3
                      simp only [if_pos h3]
                    · rename_i h3
                      simp only [if_neg h3]
                      rcases rest2 with _ | ⟨b3, rest3⟩
                      · exact absurd rfl h
                      · simp only [List.cons_append]

theorem utf8.lastRuneStart_le (p : GoString) :
    ∀ steps start, utf8.lastRuneStart p steps start ≤ start := by
  intro steps
  induction steps with
  | zero => intro start; simp only [utf8.lastRuneStart, Nat.le_refl]
  | succ n ih =>
    intro start
    simp only [utf8.lastRuneStart]
    split
    · exact Nat.le_refl _
    · split
      · exact Nat.zero_le _
      · exact Nat.le_trans (ih _) (Nat.sub_le _ _)

theorem utf8.DecodeLastRune_pos (a : Nat) (l : GoString) :
    1 ≤ (utf8.DecodeLastRune (a :: l)).2 := by
  unfold utf8.DecodeLastRune
  cases hlast : (a :: l).getLast? with
  | none => simp at hlast
  | some r =>
    simp only
    split
    · exact Nat.le_refl _
    · split
      · exact Nat.le_refl _
      · rename_i hsum
        simp only [ne_eq, Decidable.not_not] at hsum
        have hle := utf8.lastRuneStart_le (a :: l) (min 3 ((a :: l).length - 1))
          ((a :: l).length - 1 - 1)
        simp only [List.length_cons] at hsum hle ⊢
        omega

theorem unicode.IsSpace_RuneError : unicode.IsSpace utf8.RuneError = false := by decide

theorem unicode.IsSpace_ascii (c : Nat) (h : c < utf8.RuneSelf) :
    unicode.IsSpace c = strings.asciiSpace c := by
  have h1 : c < 128 := h
  have h2 : c ≤ 255 := by omega
  simp only [unicode.IsSpace, strings.asciiSpace, if_pos h2]
  apply decide_eq_decide.2
  constructor
  · intro h
    omega
  · intro h
    omega

/-- The first rune of a prefix of a string is a space only if the first rune of the
string is one. -/
theorem prefix_first_not_space (s t : GoString)
    (h : unicode.IsSpace (utf8.DecodeRune (s ++ t)).1 = false) :
    unicode.IsSpace (utf8.DecodeRune s).1 = false := by
  by_cases he : (utf8.DecodeRune s).1 = utf8.RuneError
  · rw [he]
    exact unicode.IsSpace_RuneError
  · rw [← utf8.DecodeRune_append s t he]
    exact h

theorem prefix_noLeadingSpace (s t : GoString) (h : noLeadingSpace (s ++ t)) :
    noLeadingSpace s := by
  rcases s with _ | ⟨c, s⟩
  · exact Or.inl rfl
  · rcases h with h | h
    · simp at h
    · exact Or.inr (prefix_first_not_space _ t h)

theorem trimRightSpace_initial : ∀ (n : Nat) (s : GoString), strings.trimRightSpace n s <+: s := by
  intro n
  induction n with
  | zero => intro s; exact List.prefix_refl _
  | succ n ih =>
    intro s
    rcases s with _ | ⟨c, s⟩
    · exact List.prefix_refl _
    · simp only [strings.trimRightSpace]
      split
      · exact List.IsPrefix.trans (ih _) ( List.take_prefix _ _)
      · exact List.prefix_refl _

theorem trimRightSpace_last : ∀ (n : Nat) (s : GoString), s.length ≤ n →
    noTrailingSpace (strings.trimRightSpace n s) := by
  intro n
  induction n with
  | zero =>
    intro s h
    exact Or.inl (List.length_eq_zero.mp (Nat.le_zero.mp h))
  | succ n ih =>
    intro s h
    rcases s with _ | ⟨c, s⟩
    · exact Or.inl rfl
    · simp only [strings.trimRightSpace]
      split
      · apply ih
        have := utf8.DecodeLastRune_pos c s
        simp only [List.length_take, List.length_cons] at h ⊢
        omega
      · rename_i hs
        exact Or.inr (by simpa using hs)

theorem trimRightSpace_fixed (n : Nat) (s : GoString) (h : noTrailingSpace s) :
    strings.trimRightSpace n s = s := by
  cases n with
  | zero => rfl
  | succ n =>
    rcases s with _ | ⟨c, s⟩
    · rfl
    · rcases h with h | h
      · simp at h
      · simp only [strings.trimRightSpace, h, Bool.false_eq_true, if_false]

theorem trimLeftSpace_length : ∀ (n : Nat) (s : GoString),
    (strings.trimLeftSpace n s).length ≤ s.length := by
  intro n
  induction n with
  | zero => intro s; exact Nat.le_refl _
  | succ n ih =>
    intro s
    rcases s with _ | ⟨c, s⟩
    · exact Nat.le_refl _
    · simp only [strings.trimLeftSpace]
      split
      · refine Nat.le_trans (ih _) ?_
        simp only [List.length_drop]
        omega
      · exact Nat.le_refl _

theorem trimLeftSpace_first : ∀ (n : Nat) (s : GoString), s.length ≤ n →
    noLeadingSpace (strings.trimLeftSpace n s) := by
  intro n
  induction n with
  | zero =>
    intro s h
    exact Or.inl (List.length_eq_zero.mp (Nat.le_zero.mp h))
  | succ n ih =>
    intro s h
    rcases s with _ | ⟨c, s⟩
    · exact Or.inl rfl
    · simp only [strings.trimLeftSpace]
      split
      · apply ih
        have := utf8.DecodeRune_pos c s
        simp only [List.length_drop, List.length_cons] at h ⊢
        omega
      · rename_i hs
        exact Or.inr (by simpa using hs)

theorem trimLeftSpace_fixed (n : Nat) (s : GoString) (h : noLeadingSpace s) :
    strings.trimLeftSpace n s = s := by
  cases n with
  | zero => rfl
  | succ n =>
    rcases s with _ | ⟨c, s⟩
    · rfl
    · rcases h with h | h
      · simp at h
      · simp only [strings.trimLeftSpace, h, Bool.false_eq_true, if_false]

theorem DecodeLastRune_ascii (s : GoString) (x : Nat) (h : s.getLast? = some x)
    (hx : x < utf8.RuneSelf) : utf8.DecodeLastRune s = (x, 1) := by
  simp only [utf8.DecodeLastRune, h, if_pos hx]

theorem trimSpaceEnd_trimmed : ∀ rev : GoString, noLeadingSpace rev.reverse →
    noLeadingSpace (strings.trimSpaceEnd rev) ∧ noTrailingSpace (strings.trimSpaceEnd rev) := by
  intro rev
  induction rev with
  | nil => intro _; exact ⟨Or.inl rfl, Or.inl rfl⟩
  | cons x rev ih =>
    intro h
    simp only [strings.trimSpaceEnd]
    split
    · refine ⟨?_, trimRightSpace_last _ _ (by simp)⟩
      obtain ⟨t, ht⟩ := trimRightSpace_initial (rev.length + 1) (x :: rev).reverse
      rw [← ht] at h
      exact prefix_noLeadingSpace _ t h
    · rename_i hx
      split
      · apply ih
        rw [List.reverse_cons] at h
        exact prefix_noLeadingSpace _ _ h
      · rename_i hsp
        refine ⟨h, Or.inr ?_⟩
        have hx2 : x < utf8.RuneSelf := Nat.lt_of_not_le hx
        rw [DecodeLastRune_ascii _ x (by simp) hx2, unicode.IsSpace_ascii x hx2]
        simpa using hsp

/-- The string `strings.TrimSpace` returns has no space at its start and none at
its end. -/
theorem TrimSpace_trimmed : ∀ s : GoString,
    noLeadingSpace (strings.TrimSpace s) ∧ noTrailingSpace (strings.TrimSpace s) := by
  intro s
  induction s with
  | nil => exact ⟨Or.inl rfl, Or.inl rfl⟩
  | cons c s ih =>
    simp only [strings.TrimSpace]
    split
    · have hlen := trimLeftSpace_length (s.length + 1) (c :: s)
      refine ⟨?_, trimRightSpace_last _ _ (by simpa using hlen)⟩
      obtain ⟨t, ht⟩ := trimRightSpace_initial (s.length + 1)
        (strings.trimLeftSpace (s.length + 1) (c :: s))
      have h := trimLeftSpace_first (s.length + 1) (c :: s) (by simp)
      rw [← ht] at h
      exact prefix_noLeadingSpace _ t h
    · rename_i hc
      split
      · exact ih
      · rename_i hsp
        apply trimSpaceEnd_trimmed
        rw [List.reverse_reverse]
        have hc2 : c < utf8.RuneSelf := Nat.lt_of_not_le hc
        refine Or.inr ?_
        have : utf8.DecodeRune (c :: s) = (c, 1) := by
          simp only [utf8.DecodeRune, if_pos hc2]
        rw [this, unicode.IsSpace_ascii c hc2]
        simpa using hsp

/-- A string with no space at its start and none at its end is what
`strings.TrimSpace` returns on it. -/
theorem TrimSpace_fixed (s : GoString) (h1 : noLeadingSpace s) (h2 : noTrailingSpace s) :
    strings.TrimSpace s = s := by
  rcases s with _ | ⟨c, s⟩
  · rfl
  · simp only [strings.TrimSpace]
    split
    · rw [trimLeftSpace_fixed _ _ h1, trimRightSpace_fixed _ _ h2]
    · rename_i hc
      have hc2 : c < utf8.RuneSelf := Nat.lt_of_not_le hc
      have hd : utf8.DecodeRune (c :: s) = (c, 1) := by
        simp only [utf8.DecodeRune, if_pos hc2]
      have hsp : strings.asciiSpace c = false := by
        rcases h1 with h1 | h1
        · simp at h1
        · rw [hd, unicode.IsSpace_ascii c hc2] at h1
          exact h1
      simp only [hsp, Bool.false_eq_true, if_false]
      cases hrev : (c :: s).reverse with
      | nil => simp at hrev
      | cons x rev =>
        have hcs : (x :: rev).reverse = c :: s := by rw [← hrev, List.reverse_reverse]
        simp only [strings.trimSpaceEnd]
        split
        · rw [hcs]
          exact trimRightSpace_fixed _ _ h2
        · rename_i hx
          have hx2 : x < utf8.RuneSelf := Nat.lt_of_not_le hx
          have hlast : (c :: s).getLast? = some x := by
            rw [← hcs]
            simp
          have hspx : strings.asciiSpace x = false := by
            rcases h2 with h2 | h2
            · simp at h2
            · rw [DecodeLastRune_ascii _ x hlast hx2, unicode.IsSpace_ascii x hx2] at h2
              exact h2
          simp only [hspx, Bool.false_eq_true, if_false, hcs]

/-- Trimming a trimmed string changes nothing. -/
theorem TrimSpace_idempotent (s : GoString) :
    strings.TrimSpace (strings.TrimSpace s) = strings.TrimSpace s :=
  TrimSpace_fixed _ (TrimSpace_trimmed s).1 (TrimSpace_trimmed s).2

/-! ## Write mode against its specification -/

theorem writePairs_exit (line : GoString) (rest : List GoString)
    (h : strings.TrimSpace line = str "exit") : writePairs (line :: rest) = [] := by
  cases rest <;> simp only [writePairs, if_pos h]

theorem writePairs_empty (line : GoString) (rest : List GoString)
    (h1 : strings.TrimSpace line ≠ str "exit") (h2 : strings.TrimSpace line = str "") :
    writePairs (line :: rest) = writePairs rest := by
  cases rest <;> simp only [writePairs, if_neg h1, if_pos h2]

theorem writePairs_eof (line : GoString)
    (h1 : strings.TrimSpace line ≠ str "exit") (h2 : strings.TrimSpace line ≠ str "") :
    writePairs [line] = [] := by
  simp only [writePairs, if_neg h1, if_neg h2]

theorem writePairs_pair (line line2 : GoString) (rest : List GoString)
    (h1 : strings.TrimSpace line ≠ str "exit") (h2 : strings.TrimSpace line ≠ str "") :
    writePairs (line :: line2 :: rest) = (line, line2) :: writePairs rest := by
  simp only [writePairs, if_neg h1, if_neg h2]

theorem addWords_cons (d : Dictionary) (w t : GoString) (calls : List (GoString × GoString)) :
    addWords d ((w, t) :: calls) = (d.AddWord w t).bind (fun d' => addWords d' calls) := by
  simp only [addWords, List.foldlM_cons]
  rfl

theorem writes_after (m : ModeRun) (d : Dictionary) (lines lines' : List GoString)
    (events : List Event) (h : m.writes d lines)
    (hpairs : addedPairs lines' = addedPairs lines)
    (hcount : (writePairs lines').countP (fun p => decide (strings.TrimSpace p.2 = str "")) =
      (writePairs lines).countP (fun p => decide (strings.TrimSpace p.2 = str "")) +
        events.countP Event.isEmptyTranslation)
    (hev : ∀ e ∈ events, e.isAddWord = false) :
    (m.after events).writes d lines' := by
  obtain ⟨h1, h2, h3, h4, h5⟩ := h
  have hf : events.filter Event.isAddWord = [] := List.filter_eq_nil_iff.2 (by simpa using hev)
  refine ⟨?_, ?_, ?_, ?_, ?_⟩
  · rw [hpairs]; exact h1
  · rw [hpairs]; exact h2
  · simp only [ModeRun.after, List.filter_append, hf, List.nil_append, hpairs]
    exact h3
  · intro hp
    simp only [ModeRun.after, List.filter_append, hf, List.nil_append, hpairs]
    exact h4 hp
  · intro hp
    simp only [ModeRun.after, List.countP_append, hcount, h5 hp]
    omega

theorem not_emptyTranslation_of_head (text : GoString) (c : Nat) (h : text.head? = some c)
    (hc : c ≠ 84) : (Event.print text).isEmptyTranslation = false := by
  have ht : (str "Translation cannot be empty\n").head? = some 84 := by decide
  simp only [Event.isEmptyTranslation, decide_eq_false_iff_not]
  intro heq
  rw [heq, ht] at h
  exact hc (Option.some.inj h).symm

theorem isEmptyTranslation_scan (site : Site) (line : Option GoString) :
    (Event.scan site line).isEmptyTranslation = false := rfl

theorem isEmptyTranslation_addWord (w t : GoString) :
    (Event.addWord w t).isEmptyTranslation = false := rfl

theorem addedPairs_of_nil (lines : List GoString) (h : writePairs lines = []) :
    addedPairs lines = [] := by
  simp only [addedPairs, h, List.map_nil, List.filter_nil]

theorem addedPairs_pair (line line2 : GoString) (rest : List GoString)
    (h1 : strings.TrimSpace line ≠ str "exit") (h2 : strings.TrimSpace line ≠ str "")
    (h3 : strings.TrimSpace line2 ≠ str "") :
    addedPairs (line :: line2 :: rest) =
      (strings.TrimSpace line, strings.TrimSpace line2) :: addedPairs rest := by
  have : decide (strings.TrimSpace line ≠ str "" ∧ strings.TrimSpace line2 ≠ str "") = true :=
    decide_eq_true ⟨h2, h3⟩
  simp only [addedPairs, writePairs_pair line line2 rest h1 h2, List.map_cons,
    List.filter_cons, this, if_true]

theorem addedPairs_no_translation (line line2 : GoString) (rest : List GoString)
    (h1 : strings.TrimSpace line ≠ str "exit") (h2 : strings.TrimSpace line ≠ str "")
    (h3 : strings.TrimSpace line2 = str "") :
    addedPairs (line :: line2 :: rest) = addedPairs rest := by
  have : decide (strings.TrimSpace line ≠ str "" ∧ strings.TrimSpace line2 ≠ str "") = false :=
    decide_eq_false (fun h => h.2 h3)
  simp only [addedPairs, writePairs_pair line line2 rest h1 h2, List.map_cons,
    List.filter_cons, this, Bool.false_eq_true, if_false]

/-- A run of the write loop that ends at once, without a call of `AddWord` and
without the message of an empty translation. -/
theorem writes_stop (d : Dictionary) (lines : List GoString) (rest : bufio.Scanner)
    (events : List Event) (hpairs : writePairs lines = [])
    (hadd : events.filter Event.isAddWord = [])
    (hcount : events.countP Event.isEmptyTranslation = 0) :
    ModeRun.writes { trace := events, dict := d, scanner := rest, panicked := false } d lines := by
  refine ⟨fun _ => ?_, fun h => Bool.noConfusion h, ?_, fun _ => ?_, fun _ => ?_⟩
  · rw [addedPairs_of_nil lines hpairs]
    rfl
  · rw [hadd]
    exact List.nil_prefix
  · rw [hadd, addedPairs_of_nil lines hpairs]
    rfl
  · rw [hcount, hpairs]
    rfl

/-- The write loop does what the specification of write mode says of the lines
that the calls of `Scan` read before the first that returns false. -/
theorem writeLoop_writes : ∀ s d, (writeLoop d s).writes d (bufio.readable s) := by
  have hw : (Event.print (str "Enter word: ")).isEmptyTranslation = false := by decide
  have ht : (Event.print (str "Enter translation: ")).isEmptyTranslation = false := by decide
  have he : (Event.print (str "Translation cannot be empty\n")).isEmptyTranslation = true := by
    decide
  have ha : (str "Added: ").head? = some 65 := by decide
  refine writeLoop_induct (fun d s m => m.writes d (bufio.readable s)) ?_ ?_ ?_ ?_ ?_ ?_ ?_
  · intro d s hs
    rw [bufio.readable_stop s hs]
    refine writes_stop d [] _ _ rfl rfl ?_
    simp only [List.countP_cons, List.countP_nil, hw, isEmptyTranslation_scan,
      isEmptyTranslation_addWord, Bool.false_eq_true, if_false, Nat.add_zero]
  · intro d line rest hexit
    rw [bufio.readable_cons]
    refine writes_stop d _ rest _ (writePairs_exit line _ hexit) rfl ?_
    simp only [List.countP_cons, List.countP_nil, hw, isEmptyTranslation_scan,
      isEmptyTranslation_addWord, Bool.false_eq_true, if_false, Nat.add_zero]
  · intro d line rest hexit hempty ih
    rw [bufio.readable_cons]
    refine writes_after _ d (bufio.readable rest) _ _ ih ?_ ?_ ?_
    · simp only [addedPairs, writePairs_empty line _ hexit hempty]
    · simp only [writePairs_empty line _ hexit hempty, List.countP_cons, List.countP_nil,
        hw, isEmptyTranslation_scan, isEmptyTranslation_addWord, Bool.false_eq_true, if_false,
        Nat.add_zero]
    · intro e he
      simp only [List.mem_cons, List.mem_singleton, List.not_mem_nil, or_false] at he
      rcases he with rfl | rfl <;> rfl
  · intro d line s hexit hempty hs
    rw [bufio.readable_cons, bufio.readable_stop s hs]
    refine writes_stop d _ _ _ (writePairs_eof line hexit hempty) rfl ?_
    simp only [List.cons_append, List.nil_append, List.countP_cons, List.countP_nil, hw, ht,
      isEmptyTranslation_scan, isEmptyTranslation_addWord, Bool.false_eq_true, if_false,
      Nat.add_zero]
  · intro d line line2 rest hexit hempty htr ih
    rw [bufio.readable_cons, bufio.readable_cons]
    refine writes_after _ d (bufio.readable rest) _ _ ih ?_ ?_ ?_
    · exact addedPairs_no_translation line line2 _ hexit hempty htr
    · have : decide (strings.TrimSpace line2 = str "") = true := decide_eq_true htr
      simp only [writePairs_pair line line2 _ hexit hempty, List.cons_append,
        List.nil_append, List.countP_cons, List.countP_nil, hw, ht, he, this,
        isEmptyTranslation_scan, isEmptyTranslation_addWord, Bool.false_eq_true, if_false,
        if_true, Nat.add_zero]
    · intro e he
      simp only [List.cons_append, List.nil_append, List.mem_cons, List.mem_singleton,
        List.not_mem_nil, or_false] at he
      rcases he with rfl | rfl | rfl | rfl | rfl <;> rfl
  · intro d line line2 rest hexit hempty htr hadd
    rw [bufio.readable_cons, bufio.readable_cons]
    refine ⟨fun h => Bool.noConfusion h, fun _ => ?_, ?_, fun h => Bool.noConfusion h,
      fun h => Bool.noConfusion h⟩
    · rw [addedPairs_pair line line2 _ hexit hempty htr, addWords_cons, hadd]
      rfl
    · rw [addedPairs_pair line line2 _ hexit hempty htr]
      exact ⟨_, rfl⟩
  · intro d d' line line2 rest hexit hempty htr hadd ih
    rw [bufio.readable_cons, bufio.readable_cons]
    obtain ⟨h1, h2, h3, h4, h5⟩ := ih
    have hadded := not_emptyTranslation_of_head _ 65
      (head_append _ (str "\n") _ (head_append _ (strings.TrimSpace line2) _
        (head_append _ (str " = ") _ (head_append _ (strings.TrimSpace line) _ ha))))
      (by decide)
    have hpair : decide (strings.TrimSpace line2 = str "") = false := decide_eq_false htr
    have hfilter : ∀ tail : List Event,
        List.filter Event.isAddWord
          ([Event.print (str "Enter word: "), Event.scan Site.writeWord (some line)] ++
            [Event.print (str "Enter translation: "),
              Event.scan Site.writeTranslation (some line2)] ++
            [Event.addWord (strings.TrimSpace line) (strings.TrimSpace line2),
              Event.print (str "Added: " ++ strings.TrimSpace line ++ str " = " ++
                strings.TrimSpace line2 ++ str "\n")] ++ tail) =
          Event.addWord (strings.TrimSpace line) (strings.TrimSpace line2) ::
            List.filter Event.isAddWord tail := fun _ => rfl
    refine ⟨fun hp => ?_, fun hp => ?_, ?_, fun hp => ?_, fun hp => ?_⟩
    · rw [addedPairs_pair line line2 _ hexit hempty htr, addWords_cons, hadd]
      exact h1 hp
    · rw [addedPairs_pair line line2 _ hexit hempty htr, addWords_cons, hadd]
      exact h2 hp
    · rw [addedPairs_pair line line2 _ hexit hempty htr]
      simp only [ModeRun.after, hfilter, List.map_cons, addWordEvent]
      exact (List.prefix_cons_inj _).2 h3
    · rw [addedPairs_pair line line2 _ hexit hempty htr]
      simp only [ModeRun.after, hfilter, List.map_cons, addWordEvent, h4 hp]
    · simp only [ModeRun.after, writePairs_pair line line2 _ hexit hempty,
        List.cons_append, List.nil_append, List.countP_cons, hw, ht, hadded, hpair,
        isEmptyTranslation_scan, isEmptyTranslation_addWord, Bool.false_eq_true, if_false,
        Nat.add_zero]
      exact h5 hp

theorem addWords_some : ∀ (calls : List (GoString × GoString)) (d : Dictionary),
    d.Words ≠ none → addWords d calls ≠ none := by
  intro calls
  induction calls with
  | nil => intro d _ h; exact Option.noConfusion h
  | cons p calls ih =>
    intro d hd
    obtain ⟨w, t⟩ := p
    obtain ⟨f, g, m⟩ := d
    cases m with
    | none => exact absurd rfl hd
    | some a =>
      rw [addWords_cons]
      exact ih _ (by simp)

theorem addWords_other (w : GoString) : ∀ (calls : List (GoString × GoString))
    (d d' : Dictionary), addWords d calls = some d' → (∀ p ∈ calls, p.1 ≠ w) →
    d'.Words.get w = d.Words.get w := by
  intro calls
  induction calls with
  | nil =>
    intro d d' h _
    simp only [addWords, List.foldlM_nil] at h
    cases h
    rfl
  | cons p calls ih =>
    intro d d' h hne
    obtain ⟨w1, t1⟩ := p
    obtain ⟨f, g, m⟩ := d
    cases m with
    | none =>
      rw [addWords_cons] at h
      exact Option.noConfusion h
    | some a =>
      rw [addWords_cons] at h
      have hw : w1 ≠ w := hne (w1, t1) (List.mem_cons_self _ _)
      rw [ih _ d' h (fun p hp => hne p (List.mem_cons_of_mem _ hp))]
      simp only [GoMap.get]
      exact AList.lookup_insert_ne (Ne.symm hw)

/-- Write mode does what its specification says of the lines that the calls of
`Scan` read before the first that returns false. -/
theorem writeMode_writes (d : Dictionary) (s : bufio.Scanner) :
    (writeMode d s).writes d (bufio.readable s) := by
  have hw : (str "Write mode for ").head? = some 87 := by decide
  have h1 := not_emptyTranslation_of_head _ 87
    (head_append _ (str " dictionary\n") _ (head_append _ d.To _
      (head_append _ (str "->") _ (head_append _ d.From _ hw)))) (by decide)
  have h2 : (Event.print (str "Type 'exit' to return to main menu\n")).isEmptyTranslation =
      false := by decide
  refine writes_after _ d _ _ _ (writeLoop_writes s d) rfl ?_ ?_
  · simp only [List.countP_cons, List.countP_nil, h1, h2, Bool.false_eq_true, if_false,
      Nat.add_zero]
  · intro e he
    simp only [List.mem_cons, List.mem_singleton, List.not_mem_nil, or_false] at he
    rcases he with rfl | rfl <;> rfl

/-- C13 (amended): on every dictionary `d` whose word map is not nil and every
list of input lines that are all shorter than 64 KiB, the texts of the lines
being the lines without a carriage return at their end, `writeMode` does what
the specification of write mode says.  With `addedPairs` the trimmed word and
translation of every pair of a word line and a translation line read before
the first word line that trims to `exit` (a word line that trims to empty
taking no translation line) in which both are not empty: the run does not
panic; it ends with the dictionary that the calls `AddWord` of these pairs, in
order, make of `d`; the calls of `AddWord` of the run are those pairs, in
order; "Translation cannot be empty" is printed once for every pair whose
translation line trims to empty; every word and translation passed to
`AddWord` is not empty and is trimmed (trimming it again changes nothing, and
its first and last runes are no spaces); `from` and `to` are kept, and a word
that is in none of the pairs has the translation it had. -/
theorem C13_write_mode_adds_trimmed_pairs (d : Dictionary) (lines : List GoString)
    (hd : d.Words ≠ none)
    (hshort : ∀ line ∈ lines, line.length < bufio.MaxScanTokenSize) :
    (writeMode d (bufio.NewScanner lines)).panicked = false ∧
    addWords d (addedPairs (lines.map bufio.dropCR)) =
      some (writeMode d (bufio.NewScanner lines)).dict ∧
    (writeMode d (bufio.NewScanner lines)).trace.filter Event.isAddWord =
      (addedPairs (lines.map bufio.dropCR)).map addWordEvent ∧
    (writeMode d (bufio.NewScanner lines)).trace.countP Event.isEmptyTranslation =
      (writePairs (lines.map bufio.dropCR)).countP
        (fun p => decide (strings.TrimSpace p.2 = str "")) ∧
    (∀ w t, Event.addWord w t ∈ (writeMode d (bufio.NewScanner lines)).trace →
      w ≠ str "" ∧ t ≠ str "" ∧ strings.TrimSpace w = w ∧ strings.TrimSpace t = t ∧
      noLeadingSpace w ∧ noTrailingSpace w ∧ noLeadingSpace t ∧ noTrailingSpace t) ∧
    (writeMode d (bufio.NewScanner lines)).dict.From = d.From ∧
    (writeMode d (bufio.NewScanner lines)).dict.To = d.To ∧
    (∀ w, (∀ p ∈ addedPairs (lines.map bufio.dropCR), p.1 ≠ w) →
      (writeMode d (bufio.NewScanner lines)).dict.Words.get w = d.Words.get w) := by
  have hread : bufio.readable (bufio.NewScanner lines) = lines.map bufio.dropCR := by
    rw [bufio.NewScanner_short lines hshort, bufio.readable_map_some]
  obtain ⟨h1, h2, h3, h4, h5⟩ := writeMode_writes d (bufio.NewScanner lines)
  rw [hread] at h1 h2 h3 h4 h5
  have hwb := writeMode_wellBehaved d (bufio.NewScanner lines)
  have hp : (writeMode d (bufio.NewScanner lines)).panicked = false := by
    cases hp : (writeMode d (bufio.NewScanner lines)).panicked with
    | false => rfl
    | true => exact absurd (h2 hp) (addWords_some _ d hd)
  refine ⟨hp, h1 hp, h4 hp, h5 hp, ?_, hwb.2.1, hwb.2.2.1, ?_⟩
  · intro w t hmem
    have hf : Event.addWord w t ∈
        (writeMode d (bufio.NewScanner lines)).trace.filter Event.isAddWord :=
      List.mem_filter.2 ⟨hmem, rfl⟩
    have hm := h3.subset hf
    simp only [List.mem_map, addWordEvent, Event.addWord.injEq] at hm
    obtain ⟨p, hp, rfl, rfl⟩ := hm
    simp only [addedPairs, List.mem_filter, List.mem_map, decide_eq_true_eq] at hp
    obtain ⟨⟨q, _, rfl⟩, hne1, hne2⟩ := hp
    exact ⟨hne1, hne2, TrimSpace_idempotent _, TrimSpace_idempotent _,
      (TrimSpace_trimmed _).1, (TrimSpace_trimmed _).2, (TrimSpace_trimmed _).1,
      (TrimSpace_trimmed _).2⟩
  · intro w hw
    exact addWords_other w _ d _ (h1 hp) hw

/-- C13, witness: write mode on the dictionary `en-ru` of a first run: of the
lines, one pair is added, trimmed, and one translation is refused. -/
theorem C13_write_mode_adds_trimmed_pairs_witness :
    enRu.Words ≠ none ∧ (∀ line ∈ writeLines, line.length < bufio.MaxScanTokenSize) ∧
    addedPairs (writeLines.map bufio.dropCR) = [(str "bridge", str "мост")] ∧
    (writeMode enRu (bufio.NewScanner writeLines)).scanner = [some (str "late")] ∧
    (writeMode enRu (bufio.NewScanner writeLines)).panicked = false ∧
    addWords enRu (addedPairs (writeLines.map bufio.dropCR)) =
      some (writeMode enRu (bufio.NewScanner writeLines)).dict ∧
    (writeMode enRu (bufio.NewScanner writeLines)).trace.filter Event.isAddWord =
      (addedPairs (writeLines.map bufio.dropCR)).map addWordEvent ∧
    (writeMode enRu (bufio.NewScanner writeLines)).trace.countP Event.isEmptyTranslation =
      (writePairs (writeLines.map bufio.dropCR)).countP
        (fun p => decide (strings.TrimSpace p.2 = str "")) ∧
    (∀ w t, Event.addWord w t ∈ (writeMode enRu (bufio.NewScanner writeLines)).trace →
      w ≠ str "" ∧ t ≠ str "" ∧ strings.TrimSpace w = w ∧ strings.TrimSpace t = t ∧
      noLeadingSpace w ∧ noTrailingSpace w ∧ noLeadingSpace t ∧ noTrailingSpace t) ∧
    (writeMode enRu (bufio.NewScanner writeLines)).dict.From = enRu.From ∧
    (writeMode enRu (bufio.NewScanner writeLines)).dict.To = enRu.To ∧
    (∀ w, (∀ p ∈ addedPairs (writeLines.map bufio.dropCR), p.1 ≠ w) →
      (writeMode enRu (bufio.NewScanner writeLines)).dict.Words.get w = enRu.Words.get w) :=
  ⟨by decide, by decide, by decide, by decide,
    C13_write_mode_adds_trimmed_pairs enRu writeLines (by decide) (by decide)⟩

/-- C13 (as stated, for every dictionary and every list of lines) fails in two
ways.  On a dictionary whose word map is nil, with the lines `x`, `y`, the
specification has the call `AddWord("x", "y")` and a mapping after it; in the
run that call panics, and `writeMode` does not end.  On the dictionary `en-ru`
of the seed, with a line of 65536 spaces followed by `river` and `поток`, the
specification passes over the long line, which trims to empty, and has the
call `AddWord("river", "поток")`; in the run the first call of `Scan` returns
false and `writeMode` returns at once: nothing is added. -/
theorem C13_counterexample :
    nilWords.Words = none ∧
    addedPairs ([str "x", str "y"].map bufio.dropCR) = [(str "x", str "y")] ∧
    (writeMode nilWords (bufio.NewScanner [str "x", str "y"])).panicked = true ∧
    addWords nilWords (addedPairs ([str "x", str "y"].map bufio.dropCR)) = none ∧
    ¬ (∀ line ∈ longWrite, line.length < bufio.MaxScanTokenSize) ∧
    addedPairs (longWrite.map bufio.dropCR) = [(str "river", str "поток")] ∧
    (writeMode enRu (bufio.NewScanner longWrite)).trace =
      [Event.print (str "Write mode for English->Russian dictionary\n"),
        Event.print (str "Type 'exit' to return to main menu\n"),
        Event.print (str "Enter word: "), Event.scan Site.writeWord none] ∧
    (writeMode enRu (bufio.NewScanner longWrite)).dict = enRu ∧
    enRu.Words.get (str "river") = none := by
  have hlong : ¬ longLine.length < bufio.MaxScanTokenSize := by
    rw [longLine_length]
    exact Nat.lt_irrefl _
  have hscan : bufio.NewScanner longWrite =
      [none, some (bufio.dropCR (longLine.take bufio.MaxScanTokenSize))] := by
    rw [longWrite, bufio.NewScanner_cons_long _ _ hlong]
  have hheader : str "Write mode for " ++ enRu.From ++ str "->" ++ enRu.To ++
      str " dictionary\n" = str "Write mode for English->Russian dictionary\n" := by decide
  refine ⟨rfl, by decide, by decide, by decide, ?_, ?_, ?_, ?_, by decide⟩
  · intro h
    exact hlong (h longLine (by simp [longWrite]))
  · have h1 : strings.TrimSpace longLine ≠ str "exit" := by
      rw [TrimSpace_longLine]
      decide
    have d2 : bufio.dropCR (str "river") = str "river" := by decide
    have d3 : bufio.dropCR (str "поток") = str "поток" := by decide
    have h2 : addedPairs [str "river", str "поток"] = [(str "river", str "поток")] := by
      decide
    simp only [longWrite, List.map_cons, List.map_nil, dropCR_longLine, d2, d3, addedPairs,
      writePairs_empty longLine _ h1 TrimSpace_longLine]
    exact h2
  · rw [hscan]
    simp only [writeMode, ModeRun.after, writeLoop_stop enRu (none :: _) rfl, hheader,
      List.cons_append, List.nil_append]
  · rw [hscan]
    simp only [writeMode, ModeRun.after, writeLoop_stop enRu (none :: _) rfl]

/-! ## The scenario "write then find" -/

/-- C12 (as stated, for every word and translation) fails.  With the word `"\xff"`,
which is not empty, is trimmed and is not `exit`, and the translation `x`, the
scenario prints "Added: \xff = x" and "Translation: \xff = x", and the file it
leaves has no translation of `"\xff"` under `en-ru` (it has one of U+FFFD).
And with the word `hello` of the seed and the translation `x`, the file does
not hold the pair of the seed for `hello`. -/
theorem C12_counterexample :
    ([0xFF] ≠ str "" ∧ strings.TrimSpace [0xFF] = [0xFF] ∧ [0xFF] ≠ str "exit" ∧
      str "x" ≠ str "" ∧ strings.TrimSpace (str "x") = str "x") ∧
    Event.print (str "Added: " ++ [0xFF] ++ str " = " ++ str "x" ++ str "\n") ∈
      (scenario [0xFF] (str "x")).trace ∧
    Event.print (str "Translation: " ++ [0xFF] ++ str " = " ++ str "x" ++ str "\n") ∈
      (scenario [0xFF] (str "x")).trace ∧
    (scenario [0xFF] (str "x")).status = Status.exited ∧
    savedTranslation (scenario [0xFF] (str "x")).fs (str "en-ru") [0xFF] =
      some (str "", false) ∧
    savedTranslation (scenario [0xFF] (str "x")).fs (str "en-ru") [0xEF, 0xBF, 0xBD] =
      some (str "x", true) ∧
    enRu.GetTranslation (str "hello") = (str "привет", true) ∧
    savedTranslation (scenario (str "hello") (str "x")).fs (str "en-ru") (str "hello") =
      some (str "x", true) := by
  refine ⟨by decide, by decide, by decide, by decide, by decide, by decide, by decide,
    by decide⟩

theorem validUTF8_AddWord (d d' : Dictionary) (w t : GoString) (hd : d.validUTF8 = true)
    (hw : validUTF8 w = true) (ht : validUTF8 t = true) (h : d.AddWord w t = some d') :
    d'.validUTF8 = true := by
  obtain ⟨f, g, m⟩ := d
  cases m with
  | none => simp [Dictionary.AddWord, GoMap.set] at h
  | some a =>
    simp only [Dictionary.AddWord, GoMap.set, Option.map_some', Option.some.injEq] at h
    subst h
    simp only [Dictionary.validUTF8, Bool.and_eq_true, List.all_eq_true, GoMap.entries,
      List.mem_map] at hd ⊢
    refine ⟨hd.1, ?_⟩
    rintro e ⟨s, hs, rfl⟩
    rw [AList.insert_entries] at hs
    rcases List.mem_cons.1 hs with rfl | hs
    · exact ⟨hw, ht⟩
    · exact hd.2 _ ⟨s, (List.kerase_sublist w a.entries).subset hs, rfl⟩

theorem kreplace_mem {V : Type} (k : GoString) (b : V) :
    ∀ (l : List (Sigma (fun _ : GoString => V))) (e : Sigma (fun _ : GoString => V)),
      e ∈ List.kreplace k b l → e ∈ l ∨ (e.2 = b ∧ ∃ s ∈ l, s.1 = e.1) := by
  intro l
  induction l with
  | nil => intro e he; simp [List.kreplace] at he
  | cons s t ih =>
    intro e he
    by_cases hs : k = s.1
    · rw [kreplace_cons_eq k b s t hs] at he
      rcases List.mem_cons.1 he with rfl | he
      · exact Or.inr ⟨rfl, s, List.mem_cons_self _ _, hs.symm⟩
      · exact Or.inl (List.mem_cons_of_mem _ he)
    · rw [kreplace_cons_ne k b s t hs] at he
      rcases List.mem_cons.1 he with rfl | he
      · exact Or.inl (List.mem_cons_self _ _)
      · rcases ih e he with h | ⟨h1, s', hs', h2⟩
        · exact Or.inl (List.mem_cons_of_mem _ h)
        · exact Or.inr ⟨h1, s', List.mem_cons_of_mem _ hs', h2⟩

theorem validUTF8_store (D : Dictionaries) (k : GoString) (d : Dictionary)
    (hD : D.validUTF8 = true) (hd : d.validUTF8 = true) : (D.store k d).validUTF8 = true := by
  obtain ⟨m⟩ := D
  cases m with
  | none => rfl
  | some a =>
    simp only [Dictionaries.validUTF8, Dictionaries.store, Option.map_some', List.all_eq_true,
      GoMap.entries, List.mem_map, Bool.and_eq_true] at hD ⊢
    rintro e ⟨s, hs, rfl⟩
    simp only [AList.replace] at hs
    rcases kreplace_mem k (some d) a.entries s hs with h | ⟨h1, s', hs', h2⟩
    · exact hD _ ⟨s, h, rfl⟩
    · refine ⟨?_, ?_⟩
      · have := (hD _ ⟨s', hs', rfl⟩).1
        simpa only [h2] using this
      · simp only [h1]
        exact hd

theorem savedTranslation_of_sameAs (fs : FileSys) (loaded D : Dictionaries)
    (hload : LoadDictsFromJson filename fs = Except.ok loaded) (hsame : loaded.sameAs D)
    (key word : GoString) :
    savedTranslation fs key word = (D.GetDictionary key).map (fun d => d.GetTranslation word) := by
  simp only [savedTranslation, hload, Dictionaries.GetDictionary]
  have h := hsame.2 key
  cases h1 : loaded.Dicts.get key with
  | none =>
    cases h2 : D.Dicts.get key with
    | none => rfl
    | some y => rw [h1, h2] at h; exact absurd h id
  | some x =>
    cases h2 : D.Dicts.get key with
    | none => rw [h1, h2] at h; exact absurd h id
    | some y =>
      rw [h1, h2] at h
      cases x with
      | none =>
        cases y with
        | none => rfl
        | some b => exact absurd h id
      | some a =>
        cases y with
        | none => exact absurd h id
        | some b =>
          obtain ⟨_, _, _, hw⟩ := h
          simp [Dictionary.GetTranslation, hw word]

/-- A trimmed string has no carriage return at its end. -/
theorem dropCR_trimmed (w : GoString) (h : strings.TrimSpace w = w) : bufio.dropCR w = w := by
  unfold bufio.dropCR
  split
  · rename_i hlast
    have h2 := (TrimSpace_trimmed w).2
    rw [h] at h2
    rcases h2 with h2 | h2
    · rw [h2] at hlast
      simp at hlast
    · rw [DecodeLastRune_ascii w 0x0D hlast (by decide)] at h2
      exact absurd h2 (by decide)
  · rfl

theorem writeMode_one (d d' : Dictionary) (w t line3 : GoString) (rest : bufio.Scanner)
    (hw1 : strings.TrimSpace w = w) (hw2 : w ≠ str "exit") (hw3 : w ≠ str "")
    (ht1 : strings.TrimSpace t = t) (ht2 : t ≠ str "")
    (h3 : strings.TrimSpace line3 = str "exit") (hadd : d.AddWord w t = some d') :
    writeMode d (some w :: some t :: some line3 :: rest) =
      { trace :=
          [Event.print (str "Write mode for " ++ d.From ++ str "->" ++ d.To ++
              str " dictionary\n"),
            Event.print (str "Type 'exit' to return to main menu\n"),
            Event.print (str "Enter word: "), Event.scan Site.writeWord (some w),
            Event.print (str "Enter translation: "),
            Event.scan Site.writeTranslation (some t),
            Event.addWord w t,
            Event.print (str "Added: " ++ w ++ str " = " ++ t ++ str "\n"),
            Event.print (str "Enter word: "), Event.scan Site.writeWord (some line3)],
        dict := d', scanner := rest, panicked := false } := by
  have e1 : strings.TrimSpace w ≠ str "exit" := by rw [hw1]; exact hw2
  have e2 : strings.TrimSpace w ≠ str "" := by rw [hw1]; exact hw3
  have e3 : strings.TrimSpace t ≠ str "" := by rw [ht1]; exact ht2
  have e4 : d.AddWord (strings.TrimSpace w) (strings.TrimSpace t) = some d' := by
    rw [hw1, ht1]; exact hadd
  unfold writeMode
  rw [writeLoop_add d d' w t (some line3 :: rest) e1 e2 e3 e4, writeLoop_exit d' line3 rest h3]
  simp only [ModeRun.after, hw1, ht1, List.cons_append, List.nil_append]

theorem findMode_one (d : Dictionary) (w t line2 : GoString) (rest : bufio.Scanner)
    (hw1 : strings.TrimSpace w = w) (hw2 : w ≠ str "exit") (hw3 : w ≠ str "")
    (h2 : strings.TrimSpace line2 = str "exit") (hget : d.Words.get w = some t) :
    findMode d (some w :: some line2 :: rest) =
      { trace :=
          [Event.print (str "Find mode for " ++ d.From ++ str "->" ++ d.To ++
              str " dictionary\n"),
            Event.print (str "Type 'exit' to return to main menu\n"),
            Event.print (str "Enter word to translate: "), Event.scan Site.findWord (some w),
            Event.print (str "Translation: " ++ w ++ str " = " ++ t ++ str "\n"),
            Event.print (str "Enter word to translate: "),
            Event.scan Site.findWord (some line2)],
        dict := d, scanner := rest, panicked := false } := by
  have e1 : strings.TrimSpace w ≠ str "exit" := by rw [hw1]; exact hw2
  have e2 : strings.TrimSpace w ≠ str "" := by rw [hw1]; exact hw3
  have e3 : d.Words.get (strings.TrimSpace w) = some t := by rw [hw1]; exact hget
  unfold findMode
  rw [findLoop_found d w (some line2 :: rest) t e1 e2 e3, findLoop_exit d line2 rest h2]
  simp only [ModeRun.after, hw1, List.cons_append, List.nil_append]

theorem SaveToJson_no_fault (D : Dictionaries) (files : GoString → File) (picks : List Nat) :
    D.SaveToJson filename { files := files, faults := [], picks := picks } =
      ({ files := Function.update files filename (File.document (json.encode D)), faults := [],
         picks := picks }, none) := rfl

theorem SaveToJson_firstRun (D : Dictionaries) :
    D.SaveToJson filename firstRun =
      ({ files := Function.update firstRun.files filename (File.document (json.encode D)),
         faults := [], picks := firstRun.picks }, none) := rfl

/-- The scanner of the scenario: every line is read as it is. -/
theorem NewScanner_scenario (w t : GoString)
    (hw1 : strings.TrimSpace w = w) (hw4 : w.length < bufio.MaxScanTokenSize)
    (ht1 : strings.TrimSpace t = t) (ht4 : t.length < bufio.MaxScanTokenSize) :
    bufio.NewScanner (scenarioLines w t) =
      [some w, some t, some (str "exit"), some (str "y"), some (str "find"), some w,
        some (str "exit"), some (str "q")] := by
  have hshort : ∀ line ∈ [str "exit", str "y", str "find", str "q"],
      line.length < bufio.MaxScanTokenSize ∧ bufio.dropCR line = line := by decide
  have hall : ∀ line ∈ scenarioLines w t, line.length < bufio.MaxScanTokenSize := by
    intro line hl
    simp only [scenarioLines, List.mem_cons, List.mem_singleton, List.not_mem_nil,
      or_false] at hl
    rcases hl with rfl | rfl | rfl | rfl | rfl | rfl | rfl | rfl
    · exact hw4
    · exact ht4
    · exact (hshort _ (by simp)).1
    · exact (hshort _ (by simp)).1
    · exact (hshort _ (by simp)).1
    · exact hw4
    · exact (hshort _ (by simp)).1
    · exact (hshort _ (by simp)).1
  rw [bufio.NewScanner_short _ hall]
  simp only [scenarioLines, List.map_cons, List.map_nil, dropCR_trimmed w hw1,
    dropCR_trimmed t ht1, (hshort (str "exit") (by simp)).2, (hshort (str "y") (by simp)).2,
    (hshort (str "find") (by simp)).2, (hshort (str "q") (by simp)).2]

theorem scenario_run (w t : GoString) (d' : Dictionary)
    (hw1 : strings.TrimSpace w = w) (hw2 : w ≠ str "exit") (hw3 : w ≠ str "")
    (hw4 : w.length < bufio.MaxScanTokenSize)
    (ht1 : strings.TrimSpace t = t) (ht2 : t ≠ str "")
    (ht4 : t.length < bufio.MaxScanTokenSize)
    (hadd : enRu.AddWord w t = some d') :
    scenario w t =
      { trace := scenarioTrace w t (seed.store (str "en-ru") d'),
        fs := { files := Function.update
                  (Function.update firstRun.files filename
                    (File.document (json.encode (seed.store (str "en-ru") d'))))
                  filename (File.document (json.encode (seed.store (str "en-ru") d'))),
                faults := [], picks := firstRun.picks },
        status := Status.exited } := by
  obtain ⟨hfrom, hto, hget⟩ := AddWord_some enRu d' w t hadd
  have hgetw : d'.Words.get w = some t := by rw [hget w, if_pos rfl]
  have hscan := NewScanner_scenario w t hw1 hw4 ht1 ht4
  have hrun1 := writeMode_one enRu d' w t (str "exit")
    [some (str "y"), some (str "find"), some w, some (str "exit"), some (str "q")]
    hw1 hw2 hw3 ht1 ht2 (by decide) hadd
  have hrun2 := findMode_one d' w t (str "exit") [some (str "q")] hw1 hw2 hw3 (by decide) hgetw
  have hm1 : ∀ s, runMode (str "-write") enRu s = writeMode enRu s := by
    intro s
    unfold runMode
    rw [if_neg (by decide)]
  have hm2 : ∀ s, runMode (str "-find") d' s = findMode d' s := by
    intro s
    unfold runMode
    rw [if_pos rfl]
  have hh1 : str "Write mode for " ++ enRu.From ++ str "->" ++ enRu.To ++ str " dictionary\n" =
      str "Write mode for English->Russian dictionary\n" := by decide
  have hh2 : str "Find mode for " ++ enRu.From ++ str "->" ++ enRu.To ++ str " dictionary\n" =
      str "Find mode for English->Russian dictionary\n" := by decide
  have hy : strings.ToLower (strings.TrimSpace (str "y")) = str "y" := by decide
  have hq : strings.ToLower (strings.TrimSpace (str "q")) = str "q" := by decide
  have hf : strings.TrimSpace (str "find") = str "find" := by decide
  have hnm : nextMode (str "-write") (str "find") = str "-find" := by decide
  have hsw : switchWarning (str "find") = [] := by decide
  have hlen : ([some w, some t, some (str "exit"), some (str "y"), some (str "find"), some w,
      some (str "exit"), some (str "q")] : bufio.Scanner).length + 1 = 8 + 1 := rfl
  have hstart : loadOrSeed firstRun = (some seed,
      [Event.load filename,
        Event.printError (str "Failed to load dictionaries, creating new ones: %v\n")
          (Error.errorf (str "failed to open file: %v")
            (Error.os (str "no such file or directory")))]) := by decide
  have hkey : seed.GetDictionary (str "en-ru") = some enRu := by decide
  unfold scenario
  rw [main_eq_loop (str "program") (str "en-ru") (str "-write") (scenarioLines w t) firstRun seed
    enRu (by rw [hstart]) hkey, hscan, hlen]
  have step1 := mainLoop_next 8 (str "-write") (str "en-ru") seed enRu
    [some w, some t, some (str "exit"), some (str "y"), some (str "find"), some w,
      some (str "exit"), some (str "q")]
    firstRun (str "y") (str "find") [some w, some (str "exit"), some (str "q")] (Or.inr rfl)
    (by rw [hm1]; exact congrArg ModeRun.panicked hrun1)
    (by rw [hm1]; exact congrArg ModeRun.scanner hrun1)
    (by rw [hy]; decide) (by rw [hf]; decide)
  rw [step1, hm1]
  rw [hrun1, hf, hnm, hsw, hy]
  simp only []
  have step2 := mainLoop_quit 7 (str "-find") (str "en-ru") (seed.store (str "en-ru") d') d'
    [some w, some (str "exit"), some (str "q")]
    (saveIfYes (str "y") (seed.store (str "en-ru") d') firstRun).2 (str "q") []
    (Or.inl rfl)
    (by rw [hm2]; exact congrArg ModeRun.panicked hrun2)
    (by rw [hm2]; exact congrArg ModeRun.scanner hrun2)
    hq
  rw [step2, hm2, hrun2]
  simp only [store_store, hfrom, hto, hh1, hh2, Run.after, roundEvents, hy, saveIfYes, if_true,
    saveAndReport_eq, finalSave_eq, SaveToJson_firstRun, SaveToJson_no_fault, report, hstart,
    List.cons_append, List.nil_append, List.append_nil, scenarioTrace, savePrompt,
    switchPrompt]

/-- C12 (amended): on a first run with the arguments `en-ru` and `-write`, for every
word `w` and translation `t` that are valid UTF-8, not empty, trimmed, without
a line feed (each is one line of the input) and shorter than 64 KiB, `w` not
being `exit`, the lines `w`, `t`, `exit`, `y`, `find`, `w`, `exit`, `q` make
the session `scenarioTrace`: write
mode prints "Added: w = t", the save on `y` succeeds, find mode prints
"Translation: w = t", and the final save after `q` succeeds; the session
returns.  The file it leaves holds under `en-ru` the translation `t` for `w`
and, for every other word, what the seed holds, and under every other key what
the seed holds. -/
theorem C12_write_then_find (w t : GoString)
    (hw1 : strings.TrimSpace w = w) (hw2 : w ≠ str "exit") (hw3 : w ≠ str "")
    (ht1 : strings.TrimSpace t = t) (ht2 : t ≠ str "")
    (hwv : validUTF8 w = true) (htv : validUTF8 t = true)
    (hw4 : w.length < bufio.MaxScanTokenSize) (ht4 : t.length < bufio.MaxScanTokenSize)
    (_hw5 : 0x0A ∉ w) (_ht5 : 0x0A ∉ t) :
    ∃ d', enRu.AddWord w t = some d' ∧
      (scenario w t).trace = scenarioTrace w t (seed.store (str "en-ru") d') ∧
      (scenario w t).status = Status.exited ∧
      savedTranslation (scenario w t).fs (str "en-ru") w = some (t, true) ∧
      (∀ w', w' ≠ w →
        savedTranslation (scenario w t).fs (str "en-ru") w' = some (enRu.GetTranslation w')) ∧
      ∀ k w', k ≠ str "en-ru" →
        savedTranslation (scenario w t).fs k w' =
          (seed.GetDictionary k).map (fun d => d.GetTranslation w') := by
  have hsome : ∃ d', enRu.AddWord w t = some d' := ⟨_, rfl⟩
  obtain ⟨d', hadd⟩ := hsome
  obtain ⟨hfrom, hto, hget⟩ := AddWord_some enRu d' w t hadd
  have hrun := scenario_run w t d' hw1 hw2 hw3 hw4 ht1 ht2 ht4 hadd
  have hkey : seed.GetDictionary (str "en-ru") = some enRu := by decide
  have hvalid : (seed.store (str "en-ru") d').validUTF8 = true :=
    validUTF8_store seed _ d' (by decide)
      (validUTF8_AddWord enRu d' w t (by decide) hwv htv hadd)
  have hload : LoadDictsFromJson filename (scenario w t).fs =
      Except.ok (json.rereadDictionaries (seed.store (str "en-ru") d')) := by
    rw [hrun]
    simp only [LoadDictsFromJson, Function.update_same, decode_encode _ hvalid]
    rfl
  have hsaved := savedTranslation_of_sameAs _ _ _ hload (sameAs_reread _)
  have hself := store_get_self seed (str "en-ru") enRu d' hkey
  refine ⟨d', hadd, by rw [hrun], by rw [hrun], ?_, ?_, ?_⟩
  · rw [hsaved, hself]
    simp only [Option.map_some', Dictionary.GetTranslation, hget w, if_true]
  · intro w' hw'
    rw [hsaved, hself]
    simp only [Option.map_some', Dictionary.GetTranslation, hget w', if_neg (Ne.symm hw')]
  · intro k w' hk
    rw [hsaved]
    simp only [Dictionaries.GetDictionary, store_get_other seed (str "en-ru") k d' hk]

/-- C12, witness: the scenario with the word `bridge` and the translation `мост`. -/
theorem C12_write_then_find_witness :
    (strings.TrimSpace (str "bridge") = str "bridge" ∧ str "bridge" ≠ str "exit" ∧
      str "bridge" ≠ str "" ∧ strings.TrimSpace (str "мост") = str "мост" ∧
      str "мост" ≠ str "" ∧ validUTF8 (str "bridge") = true ∧ validUTF8 (str "мост") = true ∧
      (str "bridge").length < bufio.MaxScanTokenSize ∧
      (str "мост").length < bufio.MaxScanTokenSize ∧
      0x0A ∉ str "bridge" ∧ 0x0A ∉ str "мост") ∧
    ∃ d', enRu.AddWord (str "bridge") (str "мост") = some d' ∧
      (scenario (str "bridge") (str "мост")).trace =
        scenarioTrace (str "bridge") (str "мост") (seed.store (str "en-ru") d') ∧
      (scenario (str "bridge") (str "мост")).status = Status.exited ∧
      savedTranslation (scenario (str "bridge") (str "мост")).fs (str "en-ru") (str "bridge") =
        some (str "мост", true) ∧
      (∀ w', w' ≠ str "bridge" →
        savedTranslation (scenario (str "bridge") (str "мост")).fs (str "en-ru") w' =
          some (enRu.GetTranslation w')) ∧
      ∀ k w', k ≠ str "en-ru" →
        savedTranslation (scenario (str "bridge") (str "мост")).fs k w' =
          (seed.GetDictionary k).map (fun d => d.GetTranslation w') :=
  ⟨by decide,
    C12_write_then_find (str "bridge") (str "мост") (by decide) (by decide) (by decide)
      (by decide) (by decide) (by decide) (by decide) (by decide) (by decide) (by decide)
      (by decide)⟩

/-! ## C18: data that is absent in a loaded collection -/

/-- C18 fails on two of the three files it names.  The file
`{"dicts": {"a": {"from": "A", "to": "B"}}}` is loaded without an error, into a
dictionary `a` whose word map is nil; in write mode on `a` the first pair of
lines leads to a call of `AddWord`, which writes into the nil map: the run ends
there by a panic, the lines left are not read and nothing is saved.  The file
`{"dicts": {"a": null}}` is loaded without an error; the key `a` has no
dictionary, and the listing dereferences the nil pointer under `a`: the run
ends by a panic after the two lines of the header.  The file `{}` is loaded into
a collection with a nil map, on which the session returns. -/
theorem C18_panics_on_absent_data :
    LoadDictsFromJson filename noWordsField =
      Except.ok { Dicts := some (AList.singleton (str "a")
        (some { From := str "A", To := str "B", Words := none })) } ∧
    (main [str "program", str "a", str "-write"] [str "x", str "y", str "exit", str "q"]
        noWordsField).trace =
      [Event.load filename, Event.print (str "Write mode for A->B dictionary\n"),
        Event.print (str "Type 'exit' to return to main menu\n"),
        Event.print (str "Enter word: "), Event.scan Site.writeWord (some (str "x")),
        Event.print (str "Enter translation: "),
        Event.scan Site.writeTranslation (some (str "y")),
        Event.addWord (str "x") (str "y")] ∧
    (main [str "program", str "a", str "-write"] [str "x", str "y", str "exit", str "q"]
        noWordsField).status = Status.panicked ∧
    LoadDictsFromJson filename nullEntry =
      Except.ok { Dicts := some (AList.singleton (str "a") none) } ∧
    (main [str "program", str "a", str "-find"] [str "hello", str "exit", str "q"]
        nullEntry).trace =
      [Event.load filename, Event.print (str "Dictionary 'a' not found\n"),
        Event.print (str "Available dictionaries:\n")] ∧
    (main [str "program", str "a", str "-find"] [str "hello", str "exit", str "q"]
        nullEntry).status = Status.panicked ∧
    LoadDictsFromJson filename noDictsField = Except.ok { Dicts := none } ∧
    (main [str "program", str "a", str "-find"] [str "hello", str "exit", str "q"]
        noDictsField).trace =
      [Event.load filename, Event.print (str "Dictionary 'a' not found\n"),
        Event.print (str "Available dictionaries:\n")] ∧
    (main [str "program", str "a", str "-find"] [str "hello", str "exit", str "q"]
        noDictsField).status = Status.exited :=
  ⟨rfl, by decide, by decide, rfl, by decide, by decide, rfl, by decide, by decide⟩

theorem AddWord_words (d : Dictionary) (w t : GoString) (h : d.Words ≠ none) :
    ∃ d', d.AddWord w t = some d' ∧ d'.Words ≠ none := by
  obtain ⟨f, g, m⟩ := d
  cases m with
  | none => exact absurd rfl h
  | some a => exact ⟨_, rfl, by simp⟩

theorem writeLoop_no_panic : ∀ lines d, d.Words ≠ none →
    (writeLoop d lines).panicked = false ∧ (writeLoop d lines).dict.Words ≠ none := by
  refine writeLoop_induct
    (fun d _ m => d.Words ≠ none → m.panicked = false ∧ m.dict.Words ≠ none) ?_ ?_ ?_ ?_ ?_ ?_ ?_
  · intro d s _ h
    exact ⟨rfl, h⟩
  · intro d line rest _ h
    exact ⟨rfl, h⟩
  · intro d line rest _ _ ih h
    exact ih h
  · intro d line s _ _ _ h
    exact ⟨rfl, h⟩
  · intro d line line2 rest _ _ _ ih h
    exact ih h
  · intro d line line2 rest _ _ _ hadd h
    obtain ⟨d', hd', _⟩ := AddWord_words d (strings.TrimSpace line) (strings.TrimSpace line2) h
    rw [hd'] at hadd
    exact Option.noConfusion hadd
  · intro d d' line line2 rest _ _ _ hadd ih h
    obtain ⟨d2, hd2, hw⟩ := AddWord_words d (strings.TrimSpace line) (strings.TrimSpace line2) h
    rw [hd2] at hadd
    simp only [Option.some.injEq] at hadd
    subst hadd
    exact ih hw

theorem runMode_no_panic (mode : GoString) (d : Dictionary) (lines : bufio.Scanner)
    (h : d.Words ≠ none) :
    (runMode mode d lines).panicked = false ∧ (runMode mode d lines).dict.Words ≠ none := by
  unfold runMode
  split
  · rw [(findMode_dict d lines).1]
    exact ⟨(findMode_dict d lines).2, h⟩
  · exact writeLoop_no_panic lines d h

/-- The main loop does not panic on a dictionary whose word map is not nil. -/
theorem mainLoop_no_panic (dictKey : GoString) :
    ∀ n mode D d lines fs, d.Words ≠ none →
      (mainLoop n mode dictKey D d lines fs).status ≠ Status.panicked := by
  refine mainLoop_induct dictKey
    (fun _ _ _ d _ _ r => d.Words ≠ none → r.status ≠ Status.panicked) ?_ ?_ ?_ ?_ ?_ ?_ ?_ ?_
  · intro mode D d lines fs _ h
    exact Status.noConfusion h
  · intro n mode D d lines fs _ _ h
    exact Status.noConfusion h
  · intro n mode D d lines fs _ hp hd
    rw [(runMode_no_panic mode d lines hd).1] at hp
    exact Bool.noConfusion hp
  · intro n mode D d lines fs _ _ _ _ h
    exact Status.noConfusion h
  · intro n mode D d lines fs line rest _ _ _ _ _ h
    exact Status.noConfusion h
  · intro n mode D d lines fs line rest _ _ _ _ _ _ h
    exact Status.noConfusion h
  · intro n mode D d lines fs line line2 rest _ _ _ _ _ _ h
    exact Status.noConfusion h
  · intro n mode D d lines fs line line2 rest _ _ _ _ _ ih hd
    exact ih (runMode_no_panic mode d lines hd).2

/-- Where C18 holds: a session on a collection in which no key is bound to nil and
the dictionary under the selected key, if there is one, has a word map, returns:
it does not panic. -/
theorem session_without_nil_returns (program k mode : GoString) (stdin : List GoString)
    (fs : FileSys) (D : Dictionaries) (hstart : (loadOrSeed fs).1 = some D)
    (hall : ∀ e ∈ D.Dicts.entries, e.2 ≠ none)
    (hwords : ∀ d, D.GetDictionary k = some d → d.Words ≠ none) :
    (main [program, k, mode] stdin fs).status = Status.exited := by
  cases hkey : D.GetDictionary k with
  | none =>
    exact (listing_without_nil_entries program k mode stdin fs D hstart hkey hall).2.2.2.1
  | some d =>
    rw [main_eq_loop program k mode stdin fs D d hstart hkey]
    have h1 := mainLoop_no_panic k ((bufio.NewScanner stdin).length + 1) mode D d
          (bufio.NewScanner stdin) fs (hwords d hkey)
    have h2 := (mainLoop_counted k ((bufio.NewScanner stdin).length + 1) mode D d
          (bufio.NewScanner stdin) fs).2.2.2
      (Nat.lt_succ_self _)
    simp only [Run.after]
    cases hs : (mainLoop ((bufio.NewScanner stdin).length + 1) mode k D d
          (bufio.NewScanner stdin) fs).status with
    | exited => rfl
    | panicked => exact absurd hs h1
    | running => exact absurd hs h2

end Polyglot
